import Mathlib

/-! pdfedit-ng: content stream parsing and page contents.

A shallow embedding of `src/kernel/ccontentstream.cc` (operator table, operand
check, operator factory, content stream parser) and of
`src/kernel/cpagecontents.cc` (the page's Contents entry and the cached list
of content streams), followed by theorems about them.

Conventions of the embedding:

* a C++ `std::string` / C string is the list of its bytes (`Str`);
* C++ exceptions, failed `assert`s and reads outside a container are the
  error side of `Except Fault`;
* `ndebug = true` is a build with `NDEBUG` (every `assert` is compiled out),
  `ndebug = false` a build where a failed `assert` aborts;
* `int` variables are `Int`, `size_t` variables are `Nat`.
-/

set_option autoImplicit false

namespace pdfobjects

/-! ## Strings -/

/-- Bytes of a C++ string. -/
abbrev Str := List Nat

/-- Bytes of a string literal of the source. -/
def cstr (s : String) : Str := s.data.map Char.toNat

/-- The sign of `a.compare (b)` of `std::string`: the first differing byte
decides, a proper beginning of the other string is smaller. -/
def compare : Str → Str → Int
  | [], [] => 0
  | [], _ :: _ => -1
  | _ :: _, [] => 1
  | a :: as, b :: bs => if a < b then -1 else if b < a then 1 else compare as bs

/-! ## Property kinds and bit helpers -/

/-- Modelled from the spec: the enumeration `PropertyType` of `iproperty.h`,
which is not among the sources. The kinds are the ones of the spec's operand
model (integer, real, string, name, array, dictionary, stream, indirect
reference, null). -/
inductive PropertyType where
  | pInt
  | pReal
  | pString
  | pName
  | pArray
  | pDict
  | pStream
  | pRef
  | pNull
  deriving DecidableEq, Repr

open PropertyType

/-- Modelled from the spec: the numeric value of each `PropertyType`
enumerator (the bit that `kindMask` selects); pairwise different values
below 16. -/
def PropertyType.code : PropertyType → Nat
  | pInt => 0
  | pReal => 1
  | pString => 2
  | pName => 3
  | pArray => 4
  | pDict => 5
  | pStream => 6
  | pRef => 7
  | pNull => 8

/-- Maximum operator arguments. -/
def MAX_OPERANDS : Nat := 6

/-- The helper `isBitSet (value, mask)`:
`(value & ((unsigned short)0x1 << mask)) != 0`. -/
def isBitSet (value : Nat) (mask : Nat) : Bool := (value &&& (1 <<< mask)) != 0

/-- The helper `setNoneBitsShort ()`. -/
def setNoneBitsShort : Nat := 0

/-- The helper `setNthBitsShort (mask)`: `(unsigned short) 0x1 << mask`, returned
as an `unsigned short`. -/
def setNthBitsShort (mask : PropertyType) : Nat := (1 <<< mask.code) % 2 ^ 16

/-- The helper `setNthBitsShort (mask, mask1)`. -/
def setNthBitsShort2 (mask mask1 : PropertyType) : Nat :=
  setNthBitsShort mask ||| setNthBitsShort mask1

/-- The helper `setNthBitsShort (mask, mask1, mask2)`. -/
def setNthBitsShort3 (mask mask1 mask2 : PropertyType) : Nat :=
  setNthBitsShort2 mask mask1 ||| setNthBitsShort mask2

/-! ## The table of known operators -/

/-- The struct `CheckTypes`: `name[4]`, `argNum` and `types[MAX_OPERANDS]`. -/
structure CheckTypes where
  name : Str
  argNum : Nat
  types : List Nat
  deriving DecidableEq, Repr

/-- Aggregate initialisation of `types[MAX_OPERANDS]`: the elements without an
initialiser are zero. -/
def initTypes (given : List Nat) : List Nat :=
  given ++ List.replicate (MAX_OPERANDS - given.length) 0

/-- One row `{name, argNum, types...}` of the table. -/
def row (name : String) (argNum : Nat) (types : List Nat) : CheckTypes :=
  ⟨cstr name, argNum, initTypes types⟩

/-- The mask `setNthBitsShort (pInt, pReal)`. -/
def num : Nat := setNthBitsShort2 pInt pReal

/-- The mask `setNthBitsShort (pInt, pReal, pName)`. -/
def numOrName : Nat := setNthBitsShort3 pInt pReal pName

/-- All known operators, `KNOWN_OPERATORS[]`, in the order of the source. -/
def KNOWN_OPERATORS : List CheckTypes := [
  row "" 3 [num, num, setNthBitsShort pString],
  row "'" 1 [setNthBitsShort pString],
  row "B" 0 [setNoneBitsShort],
  row "B*" 0 [setNoneBitsShort],
  row "BDC" 2 [setNthBitsShort pName, setNthBitsShort2 pDict pName],
  row "BI" 0 [setNoneBitsShort],
  row "BMC" 1 [setNthBitsShort pName],
  row "BT" 0 [setNoneBitsShort],
  row "BX" 0 [setNoneBitsShort],
  row "CS" 1 [setNthBitsShort pName],
  row "DP" 2 [setNthBitsShort pName, setNthBitsShort2 pDict pName],
  row "Do" 1 [setNthBitsShort pName],
  row "EI" 0 [setNoneBitsShort],
  row "EMC" 0 [setNoneBitsShort],
  row "ET" 0 [setNoneBitsShort],
  row "EX" 0 [setNoneBitsShort],
  row "F" 0 [setNoneBitsShort],
  row "G" 1 [num],
  row "ID" 0 [setNoneBitsShort],
  row "J" 1 [setNthBitsShort pInt],
  row "K" 4 [num, num, num, num],
  row "M" 1 [num],
  row "MP" 1 [setNthBitsShort pName],
  row "Q" 0 [setNoneBitsShort],
  row "RG" 3 [num, num, num],
  row "S" 0 [setNoneBitsShort],
  row "SC" 4 [num, num, num, num],
  row "SCN" 5 [numOrName, numOrName, numOrName, numOrName, numOrName],
  row "T*" 0 [setNoneBitsShort],
  row "TD" 2 [num, num],
  row "TJ" 1 [setNthBitsShort pArray],
  row "TL" 1 [num],
  row "Tc" 1 [num],
  row "Td" 2 [num, num],
  row "Tf" 2 [setNthBitsShort pName, num],
  row "Tj" 1 [setNthBitsShort pString],
  row "Tm" 6 [num, num, num, num, num, num],
  row "Tr" 1 [setNthBitsShort pInt],
  row "Ts" 1 [num],
  row "Tw" 1 [num],
  row "Tz" 1 [num],
  row "W" 0 [setNoneBitsShort],
  row "W*" 0 [setNoneBitsShort],
  row "b" 0 [setNoneBitsShort],
  row "b*" 0 [setNoneBitsShort],
  row "c" 6 [num, num, num, num, num, num],
  row "cm" 6 [num, num, num, num, num, num],
  row "cs" 1 [setNthBitsShort pName],
  row "d" 2 [setNthBitsShort pArray, num],
  row "d0" 2 [num, num],
  row "d1" 6 [num, num, num, num, num, num],
  row "f" 0 [setNoneBitsShort],
  row "f*" 0 [setNoneBitsShort],
  row "g" 1 [num],
  row "gs" 1 [setNthBitsShort pName],
  row "h" 0 [setNoneBitsShort],
  row "i" 1 [num],
  row "j" 1 [setNthBitsShort pInt],
  row "k" 4 [num, num, num, num],
  row "l" 2 [num, num],
  row "m" 2 [num, num],
  row "n" 0 [setNoneBitsShort],
  row "q" 0 [setNoneBitsShort],
  row "re" 4 [num, num, num, num],
  row "rg" 3 [num, num, num],
  row "ri" 1 [setNthBitsShort pName],
  row "s" 0 [setNoneBitsShort],
  row "sc" 4 [num, num, num, num],
  row "scn" 5 [numOrName, numOrName, numOrName, numOrName, numOrName],
  row "sh" 1 [setNthBitsShort pName],
  row "v" 4 [num, num, num, num],
  row "w" 1 [num],
  row "y" 4 [num, num, num, num]]

/-- A table is strictly increasing by name: an earlier row compares below a
later one. -/
def StrictlySorted (tbl : List CheckTypes) : Prop :=
  ∀ (i j : Nat) (a b : CheckTypes), i < j → tbl[i]? = some a → tbl[j]? = some b →
    compare a.name b.name < 0

/-! ## Faults -/

/-- The exceptions thrown by the two source files. -/
inductive Exception where
  | MalformedFormatExeption (msg : String)
  | CObjInvalidObject
  | CObjInvalidOperation
  | OutOfRange
  | ElementBadTypeException (msg : String)
  | XpdfInvalidObject
  | ElementNotFoundException
  deriving DecidableEq, Repr

/-- How a call can end other than by returning. -/
inductive Fault where
  /-- A C++ exception leaves the function. -/
  | thrown (e : Exception)
  /-- An `assert` fails in a build without `NDEBUG`. -/
  | assertFailed (cond : String)
  /-- A read outside a container (dereferencing `rend ()`, an index outside
  an array): undefined behaviour. -/
  | outOfBounds
  /-- A null pointer is dereferenced: undefined behaviour. -/
  | nullPointer
  /-- The loop budget of the embedding is used up. -/
  | outOfFuel
  deriving DecidableEq, Repr

/-! ## Operands and operators -/

/-- An indirect reference (object and generation number). -/
structure IndiRef where
  num : Nat
  gen : Nat
  deriving DecidableEq, Repr

/-- Identity of a document (`CPdf`). -/
abbrev CPdf := Nat

/-- An operand, a `shared_ptr<IProperty>` of the operand stack: its kind
(`getType ()`), its value, and the document and reference it is bound to
(`setPdf`, `setIndiRef`). -/
structure IProperty where
  type : PropertyType
  value : Str
  pdf : Option CPdf
  indiRef : Option IndiRef
  deriving DecidableEq, Repr

/-- The operand stack `PdfOperator::Operands`, front first. -/
abbrev Operands := List IProperty

/-- The two calls `setPdf (&pdf)` and `setIndiRef (rf)` on one operand. -/
def IProperty.bind (o : IProperty) (pdf : CPdf) (rf : IndiRef) : IProperty :=
  { o with pdf := some pdf, indiRef := some rf }

/-- The value `std::numeric_limits<int>::max ()`. -/
def INT_MAX : Int := 2147483647

/-- The loop of `operandsSetPdf` over the reverse iterator `it`, which runs
while `(it != operands.rend ()) && (0 <= count)`. -/
def operandsSetPdfLoop (pdf : CPdf) (rf : IndiRef) : List IProperty → Int → List IProperty
  | [], _ => []
  | o :: it, count =>
    if 0 ≤ count then o.bind pdf rf :: operandsSetPdfLoop pdf rf it (count - 1)
    else o :: it

/-- Set pdf to operands: `operandsSetPdf (pdf, rf, operands, count)`, walking
the stack from its back. -/
def operandsSetPdf (pdf : CPdf) (rf : IndiRef) (operands : Operands) (count : Int) : Operands :=
  (operandsSetPdfLoop pdf rf operands.reverse count).reverse

/-- The subclass of `PdfOperator` that `createOp` instantiates. -/
inductive OperatorClass where
  | SimpleGenericOperator
  | UnknownPdfOperator
  deriving DecidableEq, Repr

/-- A `PdfOperator` node: class, name, operands, and the `prev` / `next` links
(positions in the operator sequence, `none` for a null link). -/
structure PdfOperator where
  cls : OperatorClass
  name : Str
  operands : Operands
  prev : Option Nat
  next : Option Nat
  deriving DecidableEq, Repr

/-- Modelled from the spec: the constructor `UnknownPdfOperator (operands, op)`
of `pdfoperators.cc`, which is not among the sources: an unknown operator
wraps the name and all currently pending operands and the stack is cleared.
Returns the new operator and the stack left behind. -/
def UnknownPdfOperator (operands : Operands) (op : Str) : PdfOperator × Operands :=
  (⟨.UnknownPdfOperator, op, operands, none, none⟩, [])

/-- Modelled from the spec: the constructor
`SimpleGenericOperator (name, numOper, opers)` of `pdfoperators.cc`, which is
not among the sources: the operator node consumes exactly the last `numOper`
operands and removes them from the pending stack, leaving any earlier
operands. Returns the new operator and the stack left behind. -/
def SimpleGenericOperator (name : Str) (numOper : Nat) (opers : Operands) :
    PdfOperator × Operands :=
  (⟨.SimpleGenericOperator, name, opers.drop (opers.length - numOper), none, none⟩,
   opers.take (opers.length - numOper))

/-! ## check -/

/-- The read `ops.types[j]` with an `int` index. -/
def typesAt (ops : CheckTypes) (j : Int) : Option Nat :=
  if j < 0 then none else ops.types[j.toNat]?

/-- The loop of `check`: `n` iterations are still to run (`n = argNum - i`),
`j` is the index into `types`, `it` the reverse iterator (the operands from the
back of the stack on). -/
def checkLoop (ndebug : Bool) (ops : CheckTypes) : Nat → Int → List IProperty → Except Fault Bool
  | 0, _, _ => .ok true
  | n + 1, j, it =>
    if !ndebug && decide (j < 0) then .error (.assertFailed "j >= 0")
    else
      match it with
      | [] => .error .outOfBounds
      | o :: it' =>
        match typesAt ops j with
        | none => .error .outOfBounds
        | some t =>
          if !isBitSet t o.type.code then .ok false
          else checkLoop ndebug ops n (j - 1) it'

/-- Check if the operands match the specification: `check (ops, operands)`. -/
def check (ndebug : Bool) (ops : CheckTypes) (operands : Operands) : Except Fault Bool :=
  checkLoop ndebug ops ops.argNum ((ops.argNum : Int) - 1) operands.reverse

/-! ## createOp -/

/-- The read `KNOWN_OPERATORS[med]` with an `int` index, on a table `tbl`. -/
def tableAt (tbl : List CheckTypes) (med : Int) : Option CheckTypes :=
  if med < 0 then none else tbl[med.toNat]?

/-- The loop `while (hi - lo > 1)` of `createOp` on a table `tbl`; returns the
final `lo` and `cmp`. The first argument bounds the number of iterations. -/
def searchLoop (tbl : List CheckTypes) (op : Str) : Nat → Int → Int → Int → Except Fault (Int × Int)
  | fuel, lo, hi, cmp =>
    if hi - lo > 1 then
      match fuel with
      | 0 => .error .outOfFuel
      | fuel + 1 =>
        let med := (lo + hi).tdiv 2
        match tableAt tbl med with
        | none => .error .outOfBounds
        | some e =>
          let cmp := compare op e.name
          if cmp > 0 then searchLoop tbl op fuel med hi cmp
          else if cmp < 0 then searchLoop tbl op fuel lo med cmp
          else searchLoop tbl op fuel med med cmp
    else .ok (lo, cmp)

/-- The binary search of `createOp` on `KNOWN_OPERATORS`: `cmp` starts as
`INT_MAX`, `lo` as `-1`, `hi` as the number of rows. Returns the final
`(lo, cmp)`. -/
def search (op : Str) : Except Fault (Int × Int) :=
  searchLoop KNOWN_OPERATORS op (KNOWN_OPERATORS.length + 1) (-1) KNOWN_OPERATORS.length INT_MAX

/-- Find the operator and create it: `createOp (op, operands, pdf, rf, _)`.
Returns the created operator and the operand stack after the call. -/
def createOp (ndebug : Bool) (op : Str) (operands : Operands) (pdf : CPdf) (rf : IndiRef) :
    Except Fault (PdfOperator × Operands) :=
  match search op with
  | .error f => .error f
  | .ok (lo, cmp) =>
    if 0 ≠ cmp then
      .ok (UnknownPdfOperator (operandsSetPdf pdf rf operands INT_MAX) op)
    else
      match tableAt KNOWN_OPERATORS lo with
      | none => .error .outOfBounds
      | some known =>
        match check ndebug known operands with
        | .error f => .error f
        | .ok false =>
          .error (.thrown (.MalformedFormatExeption "Content stream bad operator type. "))
        | .ok true =>
          .ok (SimpleGenericOperator known.name known.argNum
                (operandsSetPdf pdf rf operands known.argNum))

/-! ## parseContentStream -/

/-- An object delivered by `parser->getObj (&o)` before the end of input:
a command (`o.isCmd ()`) or a value. -/
inductive Object where
  | cmd (name : Str)
  | value (type : PropertyType) (value : Str)
  deriving DecidableEq, Repr

/-- The xpdf object handed to `parseContentStream`: whether it is a stream or
an array, and the objects its lexer yields before `EOF`. -/
structure XpdfObject where
  isStream : Bool
  isArray : Bool
  objs : List Object
  deriving DecidableEq, Repr

/-- Modelled from the spec: `createObjFromXpdfObj (o)` of `cobject.h`, which is
not among the sources: wraps one primitive value read from the token stream,
not yet bound to a document. -/
def createObjFromXpdfObj (type : PropertyType) (value : Str) : IProperty :=
  ⟨type, value, none, none⟩

/-- The state of the loop of `parseContentStream`: the operator sequence, the
operand stack, the pointer `cmplex`, and the operators handed to
`cmplex->putBehind`. -/
structure ParseState where
  operators : List PdfOperator
  operands : Operands
  cmplex : Option Nat
  behind : List PdfOperator
  deriving DecidableEq, Repr

/-- The lines `operators.back ()->setNext (op); op->setPrev (operators.back ());
operators.push_back (op);`, the first two only if `operators` is not empty. -/
def pushBack (operators : List PdfOperator) (op : PdfOperator) : List PdfOperator :=
  match operators.getLast? with
  | none => [op]
  | some back =>
    operators.dropLast ++
      [{ back with next := some operators.length },
       { op with prev := some (operators.length - 1) }]

/-- The loop `while (!o.isEOF ())` of `parseContentStream` over the objects
still to come. -/
def parseLoop (ndebug : Bool) (pdf : CPdf) (rf : IndiRef) :
    List Object → ParseState → Except Fault ParseState
  | [], st => .ok st
  | .cmd name :: rest, st =>
    match createOp ndebug name st.operands pdf rf with
    | .error f => .error f
    | .ok (op, operands) =>
      let addr := st.operators.length + st.behind.length
      let st1 : ParseState :=
        if st.cmplex = none ∨ st.cmplex = some addr then
          { st with operators := pushBack st.operators op, operands := operands }
        else
          { st with behind := st.behind ++ [op], operands := operands }
      if !ndebug && !operands.isEmpty then .error (.assertFailed "operands.empty()")
      else if !operands.isEmpty then
        .error (.thrown (.MalformedFormatExeption
          "CContentStream::CContentStream() Operands left on stack in pdf content stream after operator."))
      else parseLoop ndebug pdf rf rest st1
  | .value type value :: rest, st =>
    parseLoop ndebug pdf rf rest
      { st with operands := st.operands ++ [createObjFromXpdfObj type value] }

/-- Parse the stream into small objects:
`parseContentStream (operators, obj, pdf, rf)`; returns the final loop state,
whose `operators` is what the caller gets back. -/
def parseContentStream (ndebug : Bool) (operators : List PdfOperator) (obj : XpdfObject)
    (pdf : CPdf) (rf : IndiRef) : Except Fault ParseState :=
  if !ndebug && !(obj.isStream || obj.isArray) then
    .error (.assertFailed "obj.isStream() || obj.isArray()")
  else parseLoop ndebug pdf rf obj.objs ⟨operators, [], none, []⟩

/-! ## The document graph as the page contents see it -/

/-- A stream object (`CStream`): its reference (`getIndiRef ()`), the results
of `hasValidPdf` and `hasValidRef` on it, and its buffer. -/
structure CStream where
  indiRef : IndiRef
  hasValidPdf : Bool
  hasValidRef : Bool
  buffer : Str
  deriving DecidableEq, Repr

/-- A property that is not an array: a reference (`CRef`), a stream, or a
value of any other kind. -/
inductive Elem where
  | ref (r : IndiRef)
  | stream (s : CStream)
  | other
  deriving DecidableEq, Repr

/-- A property of the graph: a single value or an array (`CArray`) of values.
An array nested in an array counts as `Elem.other`. -/
inductive Entry where
  | elem (e : Elem)
  | array (elems : List Elem)
  deriving DecidableEq, Repr

/-- The value `isStream (ip)`. -/
def isStream : Entry → Bool
  | .elem (.stream _) => true
  | _ => false

/-- The value `isArray (ip)`. -/
def isArray : Entry → Bool
  | .array _ => true
  | _ => false

/-- A property put into an array with `arr.addProperty (content)`. -/
def Entry.asElem : Entry → Elem
  | .elem e => e
  | .array _ => .other

/-- A content stream of the cached list (`shared_ptr<CContentStream>`): the
identity of the object and its backing streams (`getCStreams`). -/
structure CContentStream where
  id : Nat
  cstreams : List CStream
  deriving DecidableEq, Repr

/-- A node of the graph on which the watchdog can be registered. -/
inductive Node where
  | dict
  | property (p : Entry)
  deriving DecidableEq, Repr

/-- A `CPageContents` together with what it reaches: the indirect objects of
the document, the page dictionary (`getPdf ()`, `hasValidRef`, its Contents
entry), the page (the arguments of the `_objectChanged` calls so far, the flag
cleared by `invalidate ()`), the nodes the watchdog is registered on, the
identity of the next content stream object, and the members `_page`, `_dict`,
`_wd` (set or null) and `_ccs`. -/
structure State where
  store : List (IndiRef × Entry)
  dictPdf : Option CPdf
  dictHasValidRef : Bool
  contents : Option Entry
  pageChanges : List Bool
  pageValid : Bool
  observed : List Node
  nextId : Nat
  _page : Bool
  _dict : Bool
  _wd : Bool
  _ccs : List CContentStream
  deriving DecidableEq, Repr

/-- How a call on the page contents ends: normally (`fault = none`) or with a
fault, and the state it leaves. -/
structure Outcome where
  fault : Option Fault
  state : State
  deriving DecidableEq, Repr

/-- Normal return. -/
def Outcome.ret (s : State) : Outcome := ⟨none, s⟩

/-- The statement `throw e`. -/
def Outcome.throw (e : Exception) (s : State) : Outcome := ⟨some (.thrown e), s⟩

/-- Sequencing: the next statement runs only after a normal return. -/
def Outcome.andThen (o : Outcome) (next : State → Outcome) : Outcome :=
  match o.fault with
  | none => next o.state
  | some _ => o

/-- What the embedding takes from outside the two source files. -/
structure Env where
  /-- Whether `assert` is compiled out. -/
  ndebug : Bool
  /-- The text of `ContentsChangeTag::create ()`. -/
  changeTag : Str
  /-- The text `getStringRepresentation` gives for an operator. -/
  opText : PdfOperator → Str
  /-- The outcome of `new CContentStream (streams, state, res)`: a fault, or
  how many streams after the first one the new content stream takes too. -/
  newCC : List CStream → Except Fault Nat

/-- Modelled from the spec: `pdf.getIndirectProperty (ref)` of `cpdf.h`, which
is not among the sources: the value stored under the reference, a null object
when there is none. -/
def getIndirectProperty (s : State) (r : IndiRef) : Entry :=
  (s.store.lookup r).getD (.elem .other)

/-- Modelled from the spec: `getReferencedObject (ip)` of `cobjecthelpers.h`,
which is not among the sources: the target of a reference, any other value as
it is. -/
def getReferencedObject (s : State) (ip : Entry) : Entry :=
  match ip with
  | .elem (.ref r) => getIndirectProperty s r
  | _ => ip

/-- Modelled from the spec: `pdf.addIndirectProperty (value)` of `cpdf.h`,
which is not among the sources: stores the value under a reference not in use
and returns that reference. -/
def addIndirectProperty (s : State) (buffer : Str) : IndiRef × State :=
  let newref : IndiRef := ⟨(s.store.map (fun p => p.1.num)).foldl max 0 + 1, 0⟩
  (newref, { s with store := s.store ++ [(newref, .elem (.stream ⟨newref, true, true, buffer⟩))] })

/-- Writes the array reached from the Contents entry back: into the indirect
object when the entry is a reference, into the dictionary otherwise. -/
def setContentsArray (s : State) (content : Entry) (elems : List Elem) : State :=
  match content with
  | .elem (.ref r) =>
    { s with store := s.store.map (fun p => if p.1 = r then (p.1, Entry.array elems) else p) }
  | _ => { s with contents := some (.array elems) }

/-- The call `_page->_objectChanged (invalid)` of `change (invalid)`. -/
def change (s : State) (invalid : Bool) : Outcome :=
  if !s._page then ⟨some .nullPointer, s⟩
  else .ret { s with pageChanges := s.pageChanges ++ [invalid] }

/-- The method `reg_observer (ip)`; `none` is the null pointer. -/
def reg_observer (s : State) (ip : Option Entry) : State :=
  match ip with
  | some p => { s with observed := s.observed ++ [Node.property p] }
  | none =>
    let s1 := { s with observed := s.observed ++ [Node.dict] }
    match s1.contents with
    | some prop => { s1 with observed := s1.observed ++ [Node.property prop] }
    | none => s1

/-- The method `unreg_observer (ip)`; `none` is the null pointer. -/
def unreg_observer (s : State) (ip : Option Entry) : State :=
  match ip with
  | some p => { s with observed := s.observed.erase (Node.property p) }
  | none =>
    let s1 := { s with observed := s.observed.erase Node.dict }
    match s1.contents with
    | some prop => { s1 with observed := s1.observed.erase (Node.property prop) }
    | none => s1

/-- Modelled from the spec: the guard `ContentsObserverFreeSection` of
`cpagecontents.h`, which is not among the sources: the watchdog gets no
notification while the section runs and is enabled again on exit, also on
error. The section unregisters the watchdog on entry and registers it again
on exit. -/
def observerFreeSection (s : State) (body : State → Outcome) : Outcome :=
  let o := body (unreg_observer s none)
  { o with state := reg_observer o.state none }

/-! ## Adding a stream to the Contents entry -/

/-- The template argument of `cc_add`. -/
inductive OPERWHERE where
  | FRONT
  | BACK
  deriving DecidableEq, Repr

/-- Modelled from the spec: `arr.addProperty (value)` and
`arr.addProperty (pos, value)` of `carray.h`, which is not among the sources:
the first appends, the second inserts at index `pos`. The three-argument
`ToFront::add (arr, ref, content)` and `ToBack::add (arr, ref, content)`. -/
def addWithContent : OPERWHERE → List Elem → IndiRef → Elem → List Elem
  | .FRONT, arr, ref, content => (arr ++ [Elem.ref ref]) ++ [content]
  | .BACK, arr, ref, content => (arr ++ [content]) ++ [Elem.ref ref]

/-- The two-argument `ToFront::add (arr, ref)`, which is
`arr.addProperty (0, ref)`, and `ToBack::add (arr, ref)`, which is
`arr.addProperty (arr.getPropertyCount (), ref)`. -/
def addToArray : OPERWHERE → List Elem → IndiRef → List Elem
  | .FRONT, arr, ref => arr.insertIdx 0 (Elem.ref ref)
  | .BACK, arr, ref => arr.insertIdx arr.length (Elem.ref ref)

/-- The function `cc_add<WHERE> (_dict, ref)`. -/
def cc_add (w : OPERWHERE) (s : State) (ref : IndiRef) : Outcome :=
  if !s._dict then ⟨some .nullPointer, s⟩
  else
    match s.contents with
    | none => .ret { s with contents := some (.array ([] ++ [Elem.ref ref])) }
    | some content =>
      let realcontent := getReferencedObject s content
      if isStream realcontent then
        .ret { s with contents := some (.array (addWithContent w [] ref content.asElem)) }
      else
        match realcontent with
        | .array elems => .ret (setContentsArray s content (addToArray w elems ref))
        | _ => .throw (.ElementBadTypeException "Bad content stream type.") s

/-- The method `toFront (ref)`. -/
def toFront (s : State) (ref : IndiRef) : Outcome :=
  (observerFreeSection s (fun s1 => cc_add .FRONT s1 ref)).andThen (fun s1 => change s1 false)

/-- The method `toBack (ref)`. -/
def toBack (s : State) (ref : IndiRef) : Outcome :=
  (observerFreeSection s (fun s1 => cc_add .BACK s1 ref)).andThen (fun s1 => change s1 false)

/-- The function `createStreamFromObjects (cont, pdf)`: the buffer is the
change tag and then every operator of `cont`, each followed by a space; the
stream is stored in the document and handed back with its new reference. -/
def createStreamFromObjects (env : Env) (s : State) (cont : List PdfOperator) :
    CStream × State :=
  let str := cont.foldl (fun str op => str ++ (env.opText op ++ cstr " "))
    ([] ++ (env.changeTag ++ cstr " "))
  let (newref, s1) := addIndirectProperty s str
  (⟨newref, true, true, str⟩, s1)

/-- The object built by `new CContentStream (streams, state, res)` once the
constructor has returned: it takes the first stream and `n` more. -/
def newContentStream (s : State) (streams : List CStream) (n : Nat) : CContentStream :=
  ⟨s.nextId, streams.take (n + 1)⟩

/-- The method `addToBack (cont)`. -/
def addToBack (env : Env) (s : State) (cont : List PdfOperator) : Outcome :=
  if !s._dict then ⟨some .nullPointer, s⟩
  else if s.dictPdf.isNone then .throw .CObjInvalidObject s
  else
    let (stream, s1) := createStreamFromObjects env s cont
    if !env.ndebug && !stream.hasValidRef then ⟨some (.assertFailed "hasValidRef (stream)"), s1⟩
    else if !env.ndebug && !stream.hasValidPdf then
      ⟨some (.assertFailed "hasValidPdf (stream)"), s1⟩
    else if !stream.hasValidPdf || !stream.hasValidPdf then .throw .CObjInvalidObject s1
    else
      (toBack s1 stream.indiRef).andThen fun s2 =>
        match env.newCC [stream] with
        | .error f => ⟨some f, s2⟩
        | .ok n =>
          change { s2 with _ccs := s2._ccs ++ [newContentStream s2 [stream] n],
                           nextId := s2.nextId + 1 } false

/-! ## Removing a stream from the Contents entry -/

/-- The loop of `remove (rf)` over the array: the index of the first element
whose reference `getRefFromArray (array, i)` equals `rf`, if there is one.
Modelled from the spec: `getRefFromArray` of `cobjecthelpers.h`, which is not
among the sources, gives the reference held at index `i` and fails with a type
error on an element that is not a reference. -/
def findRef (rf : IndiRef) : List Elem → Nat → Except Exception (Option Nat)
  | [], _ => .ok none
  | Elem.ref _rf :: rest, i => if _rf = rf then .ok (some i) else findRef rf rest (i + 1)
  | _ :: _, _ => .error (.ElementBadTypeException "getRefFromArray")

/-- The method `remove (rf)` with `rf` an `IndiRef`. Modelled from the spec:
`getProperty` of `cdict.h`, which is not among the sources, fails when the
dictionary has no such entry. -/
def removeRf (s : State) (rf : IndiRef) : Outcome :=
  if !s._dict then ⟨some .nullPointer, s⟩
  else
    match s.contents with
    | none => .throw .ElementNotFoundException s
    | some content =>
      let realcontent := getReferencedObject s content
      if isStream realcontent then .ret { s with contents := some (.array []) }
      else
        match realcontent with
        | .array array =>
          match findRef rf array 0 with
          | .error e => .throw e s
          | .ok (some i) => .ret (setContentsArray s content (array.eraseIdx i))
          | .ok none => .ret s
        | _ => .throw (.ElementBadTypeException "Bad content stream type.") s

/-- The loop of `remove (cs)` through all backing streams of the content
stream. -/
def removeCsLoop (env : Env) : List CStream → State → Outcome
  | [], s => .ret s
  | it :: rest, s =>
    if !env.ndebug && !it.hasValidPdf then ⟨some (.assertFailed "hasValidPdf (*it)"), s⟩
    else if !env.ndebug && !it.hasValidRef then ⟨some (.assertFailed "hasValidRef (*it)"), s⟩
    else if !it.hasValidPdf || !it.hasValidRef then .throw .CObjInvalidObject s
    else (removeRf s it.indiRef).andThen (removeCsLoop env rest)

/-- The method `remove (cs)` with `cs` a content stream. -/
def removeCs (env : Env) (s : State) (cs : CContentStream) : Outcome :=
  if !s._dict then ⟨some .nullPointer, s⟩
  else if s.contents.isNone then .throw .CObjInvalidOperation s
  else
    (observerFreeSection s (fun s1 => removeCsLoop env cs.cstreams s1)).andThen
      (fun s1 => change s1 false)

/-- The method `remove (csnum)` with `csnum` an index. -/
def remove (env : Env) (s : State) (csnum : Nat) : Outcome :=
  if !s._dict then ⟨some .nullPointer, s⟩
  else if s.dictPdf.isNone then .throw .CObjInvalidObject s
  else if csnum ≥ s._ccs.length then .throw .OutOfRange s
  else
    match s._ccs[csnum]? with
    | none => ⟨some .outOfBounds, s⟩
    | some cs =>
      (removeCs env s cs).andThen fun s1 =>
        change { s1 with _ccs := s1._ccs.eraseIdx csnum } false

/-! ## Resolving the Contents entry -/

/-- The function `getAllCStreams (in, out)`: the backing streams of all
content streams, in order. -/
def getAllCStreams : List CContentStream → List CStream
  | [] => []
  | cc :: rest => cc.cstreams ++ getAllCStreams rest

/-- Modelled from the spec: `getCStreamFromArray (array, i)` of
`cobjecthelpers.h`, which is not among the sources: the stream the element
refers to (resolving a reference); a type error for anything else. -/
def getCStreamFromElem (s : State) (e : Elem) : Except Exception CStream :=
  match getReferencedObject s (.elem e) with
  | .elem (.stream st) => .ok st
  | _ => .error (.ElementBadTypeException "getCStreamFromArray")

/-- The first half of `parse ()`, which fills `streams` from the Contents
entry: nothing when the entry is absent, the one stream when it resolves to a
stream, one stream per element in index order when it resolves to an array,
and a type error otherwise. -/
def collectStreams (s : State) : Except Exception (List CStream) :=
  match s.contents with
  | none => .ok []
  | some c =>
    match getReferencedObject s c with
    | .elem (.stream stream) => .ok ([] ++ [stream])
    | .array array => array.mapM (getCStreamFromElem s)
    | _ => .error (.ElementBadTypeException "Bad content stream type.")

/-! ## Scenarios -/

/-- A stream object stored under the reference `num 0 R`. -/
def streamAt (num : Nat) : CStream := ⟨⟨num, 0⟩, true, true, cstr "q Q"⟩

/-- An environment in which every `new CContentStream` succeeds on one
stream. -/
def plainEnv (ndebug : Bool) : Env :=
  ⟨ndebug, cstr "% tag", fun op => op.name, fun _ => .ok 0⟩

/-- A page of a document without a Contents entry and with no cached content
stream. -/
def emptyPage : State :=
  { store := [], dictPdf := some 1, dictHasValidRef := true, contents := none,
    pageChanges := [], pageValid := true, observed := [Node.dict], nextId := 0,
    _page := true, _dict := true, _wd := true, _ccs := [] }

/-- A page whose Contents entry is the array `[5 0 R 6 0 R 5 0 R]`, the same
stream being drawn twice, with one cached content stream per element, as
`parse ()` leaves it. -/
def repeatedPage : State :=
  { store := [(⟨5, 0⟩, .elem (.stream (streamAt 5))), (⟨6, 0⟩, .elem (.stream (streamAt 6)))],
    dictPdf := some 1, dictHasValidRef := true,
    contents := some (.array [Elem.ref ⟨5, 0⟩, Elem.ref ⟨6, 0⟩, Elem.ref ⟨5, 0⟩]),
    pageChanges := [], pageValid := true,
    observed := [Node.dict,
      Node.property (.array [Elem.ref ⟨5, 0⟩, Elem.ref ⟨6, 0⟩, Elem.ref ⟨5, 0⟩])],
    nextId := 3, _page := true, _dict := true, _wd := true,
    _ccs := [⟨0, [streamAt 5]⟩, ⟨1, [streamAt 6]⟩, ⟨2, [streamAt 5]⟩] }

/-! ## Reordering the content streams -/

/-- The loop of `setContents` through all backing streams. -/
def setContentsLoop (env : Env) : List CStream → State → Outcome
  | [], s => .ret s
  | it :: rest, s =>
    if !env.ndebug && !it.hasValidPdf then ⟨some (.assertFailed "hasValidPdf (*it)"), s⟩
    else if !env.ndebug && !it.hasValidRef then ⟨some (.assertFailed "hasValidRef (*it)"), s⟩
    else if !it.hasValidPdf || !it.hasValidRef then .throw .XpdfInvalidObject s
    else (cc_add .BACK s it.indiRef).andThen (setContentsLoop env rest)

/-- The method `setContents (dict, cont)`: the Contents entry is deleted and
then every backing stream of every content stream is added at the back. -/
def setContents (env : Env) (s : State) (cont : List CContentStream) : Outcome :=
  if !s._dict then ⟨some .nullPointer, s⟩
  else
    let s1 := if s.contents.isSome then { s with contents := none } else s
    setContentsLoop env (getAllCStreams cont) s1

/-- The position `find (_ccs.begin (), _ccs.end (), ct)` reaches: the index of
the first element that is the object `ct`, the length of the list (`end ()`)
when there is none. Two pointers are equal when they point to the same
object. -/
def findCcs (ccs : List CContentStream) (ct : CContentStream) : Nat :=
  ccs.findIdx (fun cc => cc.id == ct.id)

/-- The method `moveAbove (ct)` with `ct` a content stream. -/
def moveAbove (env : Env) (s : State) (ct : CContentStream) : Outcome :=
  let itNext := findCcs s._ccs ct
  if itNext = s._ccs.length then .throw .CObjInvalidOperation s
  else
    let itNext := itNext + 1
    if itNext = s._ccs.length then .throw .OutOfRange s
    else
      match s._ccs[itNext]? with
      | none => ⟨some .outOfBounds, s⟩
      | some tmp =>
        let erased := s._ccs.eraseIdx itNext
        let s1 := { s with _ccs := erased.insertIdx (findCcs erased ct) tmp }
        (observerFreeSection s1 (fun s2 => setContents env s2 s2._ccs)).andThen
          (fun s2 => change s2 false)

/-- The method `moveBelow (ct)` with `ct` a content stream. The counter `pos`
is taken as a natural number (the list is shorter than the range of
`unsigned int`). -/
def moveBelow (env : Env) (s : State) (ct : CContentStream) : Outcome :=
  let pos := findCcs s._ccs ct
  if pos = s._ccs.length || 0 = pos then .throw .CObjInvalidOperation s
  else
    match s._ccs[pos]?, s._ccs[pos - 1]? with
    | some tmp, some before =>
      let s1 := { s with _ccs := (s._ccs.set pos before).set (pos - 1) tmp }
      (observerFreeSection s1 (fun s2 => setContents env s2 s2._ccs)).andThen
        (fun s2 => change s2 false)
    | _, _ => ⟨some .outOfBounds, s⟩

/-! ## parse -/

/-- The loop `while (!streams.empty ())` of `parse ()`: every
`new CContentStream (streams, state, res)` takes one or more streams from the
front of `streams` and the new object is pushed to `_ccs`. The first argument
bounds the number of iterations. -/
def parseStreamsLoop (env : Env) : Nat → List CStream → State → Outcome
  | _, [], s => .ret s
  | 0, _ :: _, s => ⟨some .outOfFuel, s⟩
  | fuel + 1, stream :: more, s =>
    match env.newCC (stream :: more) with
    | .error f => ⟨some f, s⟩
    | .ok n =>
      parseStreamsLoop env fuel ((stream :: more).drop (n + 1))
        { s with _ccs := s._ccs ++ [newContentStream s (stream :: more) n],
                 nextId := s.nextId + 1 }

/-- The method `parse ()`; every normal return is `return true`. The call
`_xpdf_display_params (res, state)` reaches through `_page` and changes
nothing here. -/
def parse (env : Env) (s : State) : Outcome :=
  if !s._dict then ⟨some .nullPointer, s⟩
  else if s.dictPdf.isNone || !s.dictHasValidRef then .throw .CObjInvalidObject s
  else
    let s1 := { s with _ccs := [] }
    if !s1._page then ⟨some .nullPointer, s1⟩
    else if s1.contents.isNone then .ret s1
    else
      match collectStreams s1 with
      | .error e => .throw e s1
      | .ok streams =>
        (parseStreamsLoop env streams.length streams s1).andThen (fun s2 => change s2 false)

/-! ## More scenarios -/

/-- A page whose Contents entry is the array `[5 0 R 6 0 R 7 0 R]` with one
cached content stream per element. -/
def threePage : State :=
  { store := [(⟨5, 0⟩, .elem (.stream (streamAt 5))), (⟨6, 0⟩, .elem (.stream (streamAt 6))),
      (⟨7, 0⟩, .elem (.stream (streamAt 7)))],
    dictPdf := some 1, dictHasValidRef := true,
    contents := some (.array [Elem.ref ⟨5, 0⟩, Elem.ref ⟨6, 0⟩, Elem.ref ⟨7, 0⟩]),
    pageChanges := [], pageValid := true,
    observed := [Node.dict,
      Node.property (.array [Elem.ref ⟨5, 0⟩, Elem.ref ⟨6, 0⟩, Elem.ref ⟨7, 0⟩])],
    nextId := 3, _page := true, _dict := true, _wd := true,
    _ccs := [⟨0, [streamAt 5]⟩, ⟨1, [streamAt 6]⟩, ⟨2, [streamAt 7]⟩] }

/-- A page whose Contents entry is the reference `5 0 R` to a lone stream,
with its one cached content stream. -/
def lonePage : State :=
  { store := [(⟨5, 0⟩, .elem (.stream (streamAt 5)))],
    dictPdf := some 1, dictHasValidRef := true,
    contents := some (.elem (.ref ⟨5, 0⟩)),
    pageChanges := [], pageValid := true,
    observed := [Node.dict, Node.property (.elem (.ref ⟨5, 0⟩))],
    nextId := 1, _page := true, _dict := true, _wd := true,
    _ccs := [⟨0, [streamAt 5]⟩] }

/-- A page whose Contents entry is the reference `9 0 R` to an indirect array
`[5 0 R 6 0 R]`, with one cached content stream per element. -/
def indirectPage : State :=
  { store := [(⟨5, 0⟩, .elem (.stream (streamAt 5))), (⟨6, 0⟩, .elem (.stream (streamAt 6))),
      (⟨9, 0⟩, .array [Elem.ref ⟨5, 0⟩, Elem.ref ⟨6, 0⟩])],
    dictPdf := some 1, dictHasValidRef := true,
    contents := some (.elem (.ref ⟨9, 0⟩)),
    pageChanges := [], pageValid := true,
    observed := [Node.dict, Node.property (.elem (.ref ⟨9, 0⟩))],
    nextId := 2, _page := true, _dict := true, _wd := true,
    _ccs := [⟨0, [streamAt 5]⟩, ⟨1, [streamAt 6]⟩] }

/-- A page whose Contents entry is a name, neither a stream nor an array. -/
def badPage : State :=
  { store := [], dictPdf := some 1, dictHasValidRef := true,
    contents := some (.elem .other),
    pageChanges := [], pageValid := true,
    observed := [Node.dict, Node.property (.elem .other)],
    nextId := 1, _page := true, _dict := true, _wd := true,
    _ccs := [⟨0, [streamAt 5]⟩] }


/-! ## The watchdog -/

/-- Modelled from the spec: the key `Specification::Page::CONTENTS` of the
page dictionary, whose header is not among the sources: the Contents entry. -/
def CONTENTS : Str := cstr "Contents"

/-- The change context handed to `notify`: its `getType ()` and, for a complex
context, the class it casts to: a dictionary context with the changed key
(`getValueId ()`) and the value before the change (`getOriginalValue ()`), an
array context, or neither. -/
inductive ObserverContext where
  | basic
  | dictComplex (valueId : Str) (originalValue : Option Entry)
  | arrayComplex
  | otherComplex
  | unknownType
  deriving DecidableEq, Repr

/-- The call `_cnt->_page->invalidate ()`. -/
def invalidate (s : State) : Outcome :=
  if !s._page then ⟨some .nullPointer, s⟩
  else .ret { s with pageValid := false }

/-- The block `try { _cnt->parse (); } catch (...) { _cnt->_page->invalidate (); }`
that ends `notify`: every C++ exception of `parse ()` is caught. -/
def tryParse (env : Env) (s : State) : Outcome :=
  match (parse env s).fault with
  | some (.thrown _) => invalidate (parse env s).state
  | _ => parse env s

/-- The method `ContentsWatchDog::notify (newValue, context)`; a `newValue` of
`none` is the null object (`isNull (newValue)`). -/
def notify (env : Env) (s : State) (newValue : Option Entry) (context : ObserverContext) :
    Outcome :=
  match context with
  | .basic => tryParse env s
  | .dictComplex valueId originalValue =>
    if CONTENTS ≠ valueId then .ret s
    else
      match newValue with
      | none => tryParse env (unreg_observer s originalValue)
      | some added => tryParse env (reg_observer s (some added))
  | .arrayComplex => tryParse env s
  | _ =>
    if !env.ndebug then
      ⟨some (.assertFailed "Invalid change context - contents observer!"), s⟩
    else tryParse env s

/-! ## Text of a content stream -/

/-- The method `CContentStream::getStringRepresentation (str)` on the operator
sequence `operators`: `str` is cleared, then the text of every operator and a
newline are appended. The text of one operator comes from `opText`. -/
def getStringRepresentation (opText : PdfOperator → Str) (operators : List PdfOperator)
    (_str : Str) : Str :=
  operators.foldl (fun str op => str ++ (opText op ++ [10])) []

/-- The tokens an operator stands for in a stream, where the operands precede
their instruction name: its operands as values, in order, then its name as an
instruction name. -/
def operatorObjects (op : PdfOperator) : List Object :=
  op.operands.map (fun o => Object.value o.type o.value) ++ [Object.cmd op.name]

/-- What of a token decides which operator is built from it: the name of an
instruction name, the kind of a value (its text is left out). -/
def Object.kind : Object → Object
  | .cmd name => .cmd name
  | .value type _ => .value type []

/-- Names of the instruction-name tokens of a stream, in order. -/
def cmdNames : List Object → List Str
  | [] => []
  | .cmd name :: rest => name :: cmdNames rest
  | .value _ _ :: rest => cmdNames rest

/-- Following the `next` links from a position of the operator sequence, for
at most the given number of steps: the positions visited. -/
def followNext (operators : List PdfOperator) : Nat → Option Nat → List Nat
  | 0, _ => []
  | _ + 1, none => []
  | steps + 1, some i => i :: followNext operators steps ((operators[i]?).bind (fun o => o.next))

/-! ## Scenarios for the watchdog and for failures -/

/-- An environment in which every `new CContentStream` throws the malformed
content exception. -/
def failingEnv (ndebug : Bool) : Env :=
  ⟨ndebug, cstr "% tag", fun op => op.name,
    fun _ => .error (.thrown (.MalformedFormatExeption "Content stream bad operator type. "))⟩

/-- The page with three content streams after its Contents entry was deleted
from the page dictionary from outside. -/
def deletedPage : State := { threePage with contents := none }

/-- The links of an operator sequence are in step with the positions: the
operator at position `i` has `prev` at `i - 1` (none at the front) and `next`
at `i + 1` (none at the back). -/
def Linked (operators : List PdfOperator) : Prop :=
  ∀ (i : Nat) (o : PdfOperator), operators[i]? = some o →
    o.prev = (if i = 0 then none else some (i - 1)) ∧
    o.next = (if i + 1 = operators.length then none else some (i + 1))


/-! ## reset -/

/-- The method `reset ()`: nothing when `_page` is null already; otherwise the
watchdog is unregistered (the call `unreg_observer ()` reaches through
`_dict`), `_page` is set to null, `_dict` and `_wd` are reset, and
`assert (!_wd.use_count ())` runs, the use count being zero for a null
`_wd`. -/
def reset (env : Env) (s : State) : Outcome :=
  if !s._page then .ret s
  else if !s._dict then ⟨some .nullPointer, s⟩
  else
    let s1 := unreg_observer s none
    let s2 := { s1 with _page := false, _dict := false, _wd := false }
    if !env.ndebug && s2._wd then ⟨some (.assertFailed "!_wd.use_count()"), s2⟩
    else .ret s2

/-! ## The states of the binary search -/

/-- The values `(lo, hi, med)` at every read `KNOWN_OPERATORS[med]` of the
loop `while (hi - lo > 1)` of `createOp` on a table `tbl`, in the order of the
iterations; the loop is the one of `searchLoop`, with the same bound on the
number of iterations. -/
def searchTrace (tbl : List CheckTypes) (op : Str) : Nat → Int → Int → List (Int × Int × Int)
  | fuel, lo, hi =>
    if hi - lo > 1 then
      match fuel with
      | 0 => []
      | fuel + 1 =>
        let med := (lo + hi).tdiv 2
        (lo, hi, med) ::
          match tableAt tbl med with
          | none => []
          | some e =>
            let cmp := compare op e.name
            if cmp > 0 then searchTrace tbl op fuel med hi
            else if cmp < 0 then searchTrace tbl op fuel lo med
            else searchTrace tbl op fuel med med
    else []

/-! ## The text of an operator and the tokenizer -/

theorem compare_eq_zero_iff (a b : Str) : compare a b = 0 ↔ a = b := by
  induction a generalizing b with
  | nil => cases b <;> simp [compare]
  | cons x xs ih =>
    cases b with
    | nil => simp [compare]
    | cons y ys =>
      simp only [compare]
      split_ifs with h1 h2
      · have hxy : x ≠ y := by omega
        simp [hxy]
      · have hxy : x ≠ y := by omega
        simp [hxy]
      · have hxy : x = y := by omega
        rw [ih ys, hxy]
        simp

theorem compare_swap (a b : Str) : compare b a = - compare a b := by
  induction a generalizing b with
  | nil => cases b <;> simp [compare]
  | cons x xs ih =>
    cases b with
    | nil => simp [compare]
    | cons y ys =>
      simp only [compare]
      split_ifs <;> first | omega | exact ih ys

theorem compare_trans_neg (a b c : Str) (hab : compare a b < 0) (hbc : compare b c < 0) :
    compare a c < 0 := by
  induction a generalizing b c with
  | nil =>
    cases c with
    | nil => cases b <;> simp [compare] at hab hbc
    | cons z zs => simp [compare]
  | cons x xs ih =>
    cases b with
    | nil => simp [compare] at hab
    | cons y ys =>
      cases c with
      | nil => simp [compare] at hbc
      | cons z zs =>
        simp only [compare] at hab hbc ⊢
        split_ifs at hab hbc ⊢ <;> first | omega | exact ih ys zs hab hbc

theorem strictlySorted_of_pairwise (tbl : List CheckTypes)
    (h : tbl.Pairwise (fun a b => compare a.name b.name < 0)) : StrictlySorted tbl := by
  intro i j a b hij ha hb
  rw [List.getElem?_eq_some] at ha hb
  obtain ⟨hi, rfl⟩ := ha
  obtain ⟨hj, rfl⟩ := hb
  exact (List.pairwise_iff_getElem.mp h) i j hi hj hij

theorem searchLoop_same (tbl : List CheckTypes) (op : Str) (fuel : Nat) (m cmp : Int) :
    searchLoop tbl op fuel m m cmp = .ok (m, cmp) := by
  unfold searchLoop
  simp

theorem tableAt_eq_some (tbl : List CheckTypes) (med : Int) (h0 : 0 ≤ med)
    (h1 : med < tbl.length) : ∃ e, tableAt tbl med = some e ∧ tbl[med.toNat]? = some e := by
  have hlt : med.toNat < tbl.length := by omega
  refine ⟨tbl[med.toNat], ?_, ?_⟩
  · unfold tableAt
    rw [if_neg (by omega)]
    exact List.getElem?_eq_getElem hlt
  · exact List.getElem?_eq_getElem hlt

/-- The loop invariant of the binary search gives its result: with every row
up to `lo` below `op` and every row from `hi` on above it, the search ends
either on a row named `op` (with `cmp = 0`) or with `cmp ≠ 0` and no row named
`op`. -/
theorem searchLoop_spec (tbl : List CheckTypes) (op : Str) (hs : StrictlySorted tbl) :
    ∀ (fuel : Nat) (lo hi cmp : Int), hi - lo ≤ fuel + 1 → -1 ≤ lo → lo < hi →
      hi ≤ tbl.length → cmp ≠ 0 →
      (∀ (i : Nat) (e : CheckTypes), (i : Int) ≤ lo → tbl[i]? = some e → 0 < compare op e.name) →
      (∀ (i : Nat) (e : CheckTypes), hi ≤ (i : Int) → tbl[i]? = some e → compare op e.name < 0) →
      ∃ lo' cmp', searchLoop tbl op fuel lo hi cmp = .ok (lo', cmp') ∧
        ((cmp' = 0 ∧ ∃ k : Nat, lo' = (k : Int) ∧ ∃ e, tbl[k]? = some e ∧ e.name = op) ∨
         (cmp' ≠ 0 ∧ ∀ e ∈ tbl, e.name ≠ op)) := by
  intro fuel
  induction fuel with
  | zero =>
    intro lo hi cmp hf hlo hlt hhi hcmp hbelow habove
    refine ⟨lo, cmp, ?_, Or.inr ⟨hcmp, ?_⟩⟩
    · unfold searchLoop
      rw [if_neg (by omega)]
    · intro e he heq
      obtain ⟨i, hi'⟩ := List.mem_iff_getElem?.mp he
      have hz : compare op e.name = 0 := (compare_eq_zero_iff _ _).mpr heq.symm
      by_cases hc : (i : Int) ≤ lo
      · have := hbelow i e hc hi'; omega
      · have := habove i e (by omega) hi'; omega
  | succ fuel ih =>
    intro lo hi cmp hf hlo hlt hhi hcmp hbelow habove
    by_cases hgap : hi - lo > 1
    · have hmed : (lo + hi).tdiv 2 = (lo + hi) / 2 := Int.tdiv_eq_ediv (by omega) (by omega)
      obtain ⟨e, hte, hge⟩ := tableAt_eq_some tbl ((lo + hi) / 2) (by omega) (by omega)
      unfold searchLoop
      rw [if_pos hgap]
      simp only [hmed, hte]
      by_cases hpos : compare op e.name > 0
      · rw [if_pos hpos]
        apply ih _ _ _ (by omega) (by omega) (by omega) hhi (by omega) _ habove
        intro i a hi' ha
        by_cases hie : i = ((lo + hi) / 2).toNat
        · subst hie
          rw [hge] at ha
          injection ha with ha
          subst ha
          exact hpos
        · have h1 := hs i ((lo + hi) / 2).toNat a e (by omega) ha hge
          have h2 : compare e.name op < 0 := by rw [compare_swap]; omega
          have h3 := compare_trans_neg _ _ _ h1 h2
          rw [compare_swap] at h3
          omega
      · rw [if_neg hpos]
        by_cases hneg : compare op e.name < 0
        · rw [if_pos hneg]
          apply ih _ _ _ (by omega) hlo (by omega) (by omega) (by omega) hbelow _
          intro i a hi' ha
          by_cases hie : i = ((lo + hi) / 2).toNat
          · subst hie
            rw [hge] at ha
            injection ha with ha
            subst ha
            exact hneg
          · have h1 := hs ((lo + hi) / 2).toNat i e a (by omega) hge ha
            exact compare_trans_neg _ _ _ hneg h1
        · rw [if_neg hneg, searchLoop_same]
          have hz : compare op e.name = 0 := by omega
          refine ⟨_, _, rfl, Or.inl ⟨hz, ((lo + hi) / 2).toNat, by omega, e, hge, ?_⟩⟩
          exact ((compare_eq_zero_iff _ _).mp hz).symm
    · refine ⟨lo, cmp, ?_, Or.inr ⟨hcmp, ?_⟩⟩
      · unfold searchLoop
        rw [if_neg hgap]
      · intro e he heq
        obtain ⟨i, hi'⟩ := List.mem_iff_getElem?.mp he
        have hz : compare op e.name = 0 := (compare_eq_zero_iff _ _).mpr heq.symm
        by_cases hc : (i : Int) ≤ lo
        · have := hbelow i e hc hi'; omega
        · have := habove i e (by omega) hi'; omega

theorem KNOWN_OPERATORS_pairwise :
    KNOWN_OPERATORS.Pairwise (fun a b => compare a.name b.name < 0) := by
  decide

theorem KNOWN_OPERATORS_sorted : StrictlySorted KNOWN_OPERATORS :=
  strictlySorted_of_pairwise _ KNOWN_OPERATORS_pairwise

/-- The binary search of `createOp` on the table, in one statement: it ends on
a row named `op` with `cmp = 0`, or with `cmp ≠ 0` when no row is named `op`. -/
theorem search_spec (op : Str) :
    ∃ lo cmp, search op = .ok (lo, cmp) ∧
      ((cmp = 0 ∧ ∃ k : Nat, lo = (k : Int) ∧ ∃ e, KNOWN_OPERATORS[k]? = some e ∧ e.name = op) ∨
       (cmp ≠ 0 ∧ ∀ e ∈ KNOWN_OPERATORS, e.name ≠ op)) := by
  unfold search
  apply searchLoop_spec KNOWN_OPERATORS op KNOWN_OPERATORS_sorted
  · omega
  · omega
  · have : KNOWN_OPERATORS.length = 73 := by decide
    omega
  · omega
  · unfold INT_MAX; omega
  · intro i e hi
    omega
  · intro i e hi he
    rw [List.getElem?_eq_some] at he
    obtain ⟨hlt, _⟩ := he
    omega

/-- Two rows of a strictly sorted table with the same name are the same row. -/
theorem StrictlySorted.index_unique (tbl : List CheckTypes) (hs : StrictlySorted tbl)
    (i j : Nat) (a b : CheckTypes) (ha : tbl[i]? = some a) (hb : tbl[j]? = some b)
    (hab : a.name = b.name) : i = j := by
  have hz : compare a.name b.name = 0 := (compare_eq_zero_iff _ _).mpr hab
  have hz' : compare b.name a.name = 0 := (compare_eq_zero_iff _ _).mpr hab.symm
  rcases Nat.lt_trichotomy i j with h | h | h
  · have := hs i j a b h ha hb; omega
  · exact h
  · have := hs j i b a h hb ha; omega

/-- C1. For every instruction name `s` the binary search of `createOp` returns
normally; it takes the found branch (`cmp = 0`) with index `lo = i` exactly when
row `i` of `KNOWN_OPERATORS` is named `s`, and the unknown branch (`cmp ≠ 0`)
exactly when no row is named `s`. -/
theorem search_found_iff (s : Str) :
    ∃ lo cmp, search s = .ok (lo, cmp) ∧
      (∀ i : Nat, (cmp = 0 ∧ lo = (i : Int)) ↔
        ∃ e, KNOWN_OPERATORS[i]? = some e ∧ e.name = s) ∧
      (cmp ≠ 0 ↔ ∀ e ∈ KNOWN_OPERATORS, e.name ≠ s) := by
  obtain ⟨lo, cmp, hrun, hres⟩ := search_spec s
  refine ⟨lo, cmp, hrun, ?_, ?_⟩
  · intro i
    rcases hres with ⟨hc, k, hk, e, he, hname⟩ | ⟨hc, hnone⟩
    · constructor
      · rintro ⟨_, hlo⟩
        have hik : i = k := by omega
        exact ⟨e, hik ▸ he, hname⟩
      · rintro ⟨e', he', hname'⟩
        have hik := StrictlySorted.index_unique _ KNOWN_OPERATORS_sorted i k e' e he' he
          (hname'.trans hname.symm)
        exact ⟨hc, by omega⟩
    · constructor
      · rintro ⟨hz, _⟩
        exact absurd hz hc
      · rintro ⟨e', he', hname'⟩
        exact absurd hname' (hnone e' (List.mem_iff_getElem?.mpr ⟨i, he'⟩))
  · rcases hres with ⟨hc, k, hk, e, he, hname⟩ | ⟨hc, hnone⟩
    · constructor
      · intro hne
        exact absurd hc hne
      · intro hall
        exact absurd hname (hall e (List.mem_iff_getElem?.mpr ⟨k, he⟩))
    · exact ⟨fun _ => hnone, fun _ => hc⟩

/-! ## check -/

/-- The loop of `check` on `n` operands with enough masks: it returns, and it
returns true exactly when each of the first `n` operands met from the back is
accepted by its mask. -/
theorem checkLoop_spec (ndebug : Bool) (ops : CheckTypes) :
    ∀ (n : Nat) (it : List IProperty), n ≤ it.length → n ≤ ops.types.length →
      ∃ b, checkLoop ndebug ops n ((n : Int) - 1) it = .ok b ∧
        (b = true ↔ ∀ q, q < n → ∃ o t, it[q]? = some o ∧ ops.types[n - 1 - q]? = some t ∧
          isBitSet t o.type.code = true) := by
  intro n
  induction n with
  | zero =>
    intro it _ _
    exact ⟨true, rfl, by simp⟩
  | succ n ih =>
    intro it hlen htypes
    cases it with
    | nil => simp at hlen
    | cons o it' =>
      have hlt : n < ops.types.length := by omega
      have hty : typesAt ops ((n : Int) + 1 - 1) = some ops.types[n] := by
        unfold typesAt
        rw [if_neg (by omega)]
        have : ((n : Int) + 1 - 1).toNat = n := by omega
        rw [this]
        exact List.getElem?_eq_getElem hlt
      have hj : ¬ ((n : Int) + 1 - 1 < 0) := by omega
      simp only [checkLoop, Nat.cast_add, Nat.cast_one, hty, hj, decide_False, Bool.and_false,
        Bool.false_eq_true, if_false]
      by_cases hbit : isBitSet ops.types[n] o.type.code = true
      · obtain ⟨b, hb, hiff⟩ := ih it' (by simpa using hlen) (by omega)
        have hstep : (n : Int) + 1 - 1 - 1 = (n : Int) - 1 := by omega
        refine ⟨b, ?_, ?_⟩
        · simp only [hbit, Bool.not_true, Bool.false_eq_true, if_false, hstep]
          exact hb
        · rw [hiff]
          constructor
          · intro h q hq
            cases q with
            | zero =>
              exact ⟨o, ops.types[n], by simp, by simp, hbit⟩
            | succ q =>
              obtain ⟨o', t, h1, h2, h3⟩ := h q (by omega)
              refine ⟨o', t, by simpa using h1, ?_, h3⟩
              have : n + 1 - 1 - (q + 1) = n - 1 - q := by omega
              rw [this]; exact h2
          · intro h q hq
            obtain ⟨o', t, h1, h2, h3⟩ := h (q + 1) (by omega)
            refine ⟨o', t, by simpa using h1, ?_, h3⟩
            have : n + 1 - 1 - (q + 1) = n - 1 - q := by omega
            rw [this] at h2; exact h2
      · refine ⟨false, ?_, ?_⟩
        · simp [hbit]
        · constructor
          · intro h; cases h
          · intro h
            obtain ⟨o', t, h1, h2, h3⟩ := h 0 (by omega)
            simp only [List.getElem?_cons_zero, Option.some.injEq] at h1
            subst h1
            have h4 : ops.types[n + 1 - 1 - 0]? = some ops.types[n] := by
              simp
            rw [h4] at h2
            injection h2 with h2
            subst h2
            exact absurd h3 hbit

theorem KNOWN_OPERATORS_argNum_le :
    ∀ e ∈ KNOWN_OPERATORS, e.argNum ≤ e.types.length := by
  decide

/-- On a row of the table and a stack of at least `argNum` operands `check`
returns, and it returns true exactly when every mask accepts its operand. -/
theorem check_returns_iff (ndebug : Bool) (e : CheckTypes) (operands : Operands)
    (he : e ∈ KNOWN_OPERATORS) (hn : e.argNum ≤ operands.length) :
    ∃ b, check ndebug e operands = .ok b ∧
      (b = true ↔ ∀ p, p < e.argNum → ∃ o t,
        operands[operands.length - e.argNum + p]? = some o ∧ e.types[p]? = some t ∧
        isBitSet t o.type.code = true) := by
  obtain ⟨b, hb, hiff⟩ := checkLoop_spec ndebug e e.argNum operands.reverse
    (by simpa using hn) (KNOWN_OPERATORS_argNum_le e he)
  refine ⟨b, hb, ?_⟩
  rw [hiff]
  constructor
  · intro h p hp
    obtain ⟨o, t, h1, h2, h3⟩ := h (e.argNum - 1 - p) (by omega)
    rw [List.getElem?_reverse (by omega)] at h1
    refine ⟨o, t, ?_, ?_, h3⟩
    · have : operands.length - 1 - (e.argNum - 1 - p) = operands.length - e.argNum + p := by
        omega
      rw [this] at h1; exact h1
    · have : e.argNum - 1 - (e.argNum - 1 - p) = p := by omega
      rw [this] at h2; exact h2
  · intro h q hq
    obtain ⟨o, t, h1, h2, h3⟩ := h (e.argNum - 1 - q) (by omega)
    refine ⟨o, t, ?_, h2, h3⟩
    rw [List.getElem?_reverse (by omega)]
    have : operands.length - 1 - q = operands.length - e.argNum + (e.argNum - 1 - q) := by
      omega
    rw [this]; exact h1

theorem operandsSetPdfLoop_length (pdf : CPdf) (rf : IndiRef) :
    ∀ (it : List IProperty) (count : Int), (operandsSetPdfLoop pdf rf it count).length = it.length := by
  intro it
  induction it with
  | nil => intro count; rfl
  | cons o it ih =>
    intro count
    simp only [operandsSetPdfLoop]
    split_ifs
    · simp [ih]
    · rfl

theorem operandsSetPdfLoop_kind_value (pdf : CPdf) (rf : IndiRef) :
    ∀ (it : List IProperty) (count : Int),
      (operandsSetPdfLoop pdf rf it count).map (fun o => (o.type, o.value)) =
        it.map (fun o => (o.type, o.value)) := by
  intro it
  induction it with
  | nil => intro count; rfl
  | cons o it ih =>
    intro count
    simp only [operandsSetPdfLoop]
    split_ifs
    · simp [ih, IProperty.bind]
    · rfl

theorem operandsSetPdfLoop_all (pdf : CPdf) (rf : IndiRef) :
    ∀ (it : List IProperty) (count : Int), (it.length : Int) ≤ count + 1 →
      operandsSetPdfLoop pdf rf it count = it.map (fun o => o.bind pdf rf) := by
  intro it
  induction it with
  | nil => intro count _; rfl
  | cons o it ih =>
    intro count h
    simp only [List.length_cons, Nat.cast_add, Nat.cast_one] at h
    simp only [operandsSetPdfLoop]
    rw [if_pos (by omega), ih (count - 1) (by omega)]
    rfl

theorem operandsSetPdf_length (pdf : CPdf) (rf : IndiRef) (operands : Operands) (count : Int) :
    (operandsSetPdf pdf rf operands count).length = operands.length := by
  simp [operandsSetPdf, operandsSetPdfLoop_length]

theorem operandsSetPdf_kind_value (pdf : CPdf) (rf : IndiRef) (operands : Operands)
    (count : Int) :
    (operandsSetPdf pdf rf operands count).map (fun o => (o.type, o.value)) =
      operands.map (fun o => (o.type, o.value)) := by
  unfold operandsSetPdf
  rw [List.map_reverse, operandsSetPdfLoop_kind_value, ← List.map_reverse, List.reverse_reverse]

theorem operandsSetPdf_all (pdf : CPdf) (rf : IndiRef) (operands : Operands) (count : Int)
    (h : (operands.length : Int) ≤ count + 1) :
    operandsSetPdf pdf rf operands count = operands.map (fun o => o.bind pdf rf) := by
  unfold operandsSetPdf
  rw [operandsSetPdfLoop_all pdf rf _ count (by simpa using h), ← List.map_reverse,
    List.reverse_reverse]

/-! ## createOp -/

theorem createOp_of_unknown (ndebug : Bool) (op : Str) (operands : Operands) (pdf : CPdf)
    (rf : IndiRef) (h : ∀ e ∈ KNOWN_OPERATORS, e.name ≠ op) :
    createOp ndebug op operands pdf rf =
      .ok (UnknownPdfOperator (operandsSetPdf pdf rf operands INT_MAX) op) := by
  obtain ⟨lo, cmp, hrun, hres⟩ := search_spec op
  rcases hres with ⟨_, k, _, e, he, hname⟩ | ⟨hc, _⟩
  · exact absurd hname (h e (List.mem_iff_getElem?.mpr ⟨k, he⟩))
  · unfold createOp
    rw [hrun]
    simp only
    rw [if_pos (fun h0 => hc h0.symm)]

theorem search_known (e : CheckTypes) (he : e ∈ KNOWN_OPERATORS) :
    ∃ k : Nat, search e.name = .ok ((k : Int), 0) ∧ tableAt KNOWN_OPERATORS (k : Int) = some e := by
  obtain ⟨lo, cmp, hrun, hres⟩ := search_spec e.name
  rcases hres with ⟨hc, k, hk, e', he', hname⟩ | ⟨_, hnone⟩
  · obtain ⟨i, hi⟩ := List.mem_iff_getElem?.mp he
    have hik := StrictlySorted.index_unique _ KNOWN_OPERATORS_sorted i k e e' hi he' hname.symm
    subst hik
    rw [hi] at he'
    injection he' with he'
    subst he'
    refine ⟨i, by rw [hrun, hk, hc], ?_⟩
    unfold tableAt
    rw [if_neg (by omega)]
    simpa using hi
  · exact absurd rfl (hnone e he)

theorem createOp_of_known (ndebug : Bool) (e : CheckTypes) (operands : Operands) (pdf : CPdf)
    (rf : IndiRef) (he : e ∈ KNOWN_OPERATORS) :
    createOp ndebug e.name operands pdf rf =
      match check ndebug e operands with
      | .error f => .error f
      | .ok false =>
        .error (.thrown (.MalformedFormatExeption "Content stream bad operator type. "))
      | .ok true =>
        .ok (SimpleGenericOperator e.name e.argNum (operandsSetPdf pdf rf operands e.argNum)) := by
  obtain ⟨k, hrun, htab⟩ := search_known e he
  unfold createOp
  rw [hrun]
  simp only [htab, ne_eq, not_true_eq_false, if_false]

/-- C3. For every name that is not in the table and every pending operand
stack, `createOp` returns (in either build) an unknown operator with exactly
that name which holds all pending operands, in their order and whatever their
kinds, and the pending stack is empty afterwards. -/
theorem createOp_unknown (ndebug : Bool) (op : Str) (operands : Operands) (pdf : CPdf)
    (rf : IndiRef) (h : ∀ e ∈ KNOWN_OPERATORS, e.name ≠ op) :
    ∃ r : PdfOperator, createOp ndebug op operands pdf rf = .ok (r, []) ∧
      r.cls = .UnknownPdfOperator ∧ r.name = op ∧
      r.operands = operandsSetPdf pdf rf operands INT_MAX ∧
      r.operands.map (fun o => (o.type, o.value)) = operands.map (fun o => (o.type, o.value)) := by
  refine ⟨(UnknownPdfOperator (operandsSetPdf pdf rf operands INT_MAX) op).1, ?_, rfl, rfl, rfl, ?_⟩
  · rw [createOp_of_unknown ndebug op operands pdf rf h]
    rfl
  · exact operandsSetPdf_kind_value pdf rf operands INT_MAX

/-- C3 on the name `foo` with the stack `(x) 1`. -/
theorem createOp_unknown_witness :
    ∃ r : PdfOperator,
      createOp true (cstr "foo") [⟨pString, cstr "(x)", none, none⟩, ⟨pInt, cstr "1", none, none⟩]
        7 ⟨3, 0⟩ = .ok (r, []) ∧
      r.cls = .UnknownPdfOperator ∧ r.name = cstr "foo" ∧
      r.operands = operandsSetPdf 7 ⟨3, 0⟩
        [⟨pString, cstr "(x)", none, none⟩, ⟨pInt, cstr "1", none, none⟩] INT_MAX ∧
      r.operands.map (fun o => (o.type, o.value)) =
        [(pString, cstr "(x)"), (pInt, cstr "1")] :=
  createOp_unknown true (cstr "foo")
    [⟨pString, cstr "(x)", none, none⟩, ⟨pInt, cstr "1", none, none⟩] 7 ⟨3, 0⟩ (by decide)

/-! ## parseContentStream -/

theorem parseLoop_values (ndebug : Bool) (pdf : CPdf) (rf : IndiRef) :
    ∀ (args : List (PropertyType × Str)) (rest : List Object) (st : ParseState),
      parseLoop ndebug pdf rf (args.map (fun a => Object.value a.1 a.2) ++ rest) st =
        parseLoop ndebug pdf rf rest
          { st with operands := st.operands ++ args.map (fun a => createObjFromXpdfObj a.1 a.2) } := by
  intro args
  induction args with
  | nil => intro rest st; simp
  | cons a args ih =>
    intro rest st
    simp only [List.map_cons, List.cons_append, parseLoop, List.append_eq]
    rw [ih]
    simp

/-- When some operand met within the first `n` from the back is refused by its
mask, the loop of `check` returns false. -/
theorem checkLoop_refused (ndebug : Bool) (ops : CheckTypes) :
    ∀ (n : Nat) (it : List IProperty) (q : Nat) (o : IProperty) (t : Nat), q < n →
      n ≤ ops.types.length → it[q]? = some o → ops.types[n - 1 - q]? = some t →
      isBitSet t o.type.code = false →
      checkLoop ndebug ops n ((n : Int) - 1) it = .ok false := by
  intro n
  induction n with
  | zero => intro it q o t hq; omega
  | succ n ih =>
    intro it q o t hq htypes hit ht hbit
    cases it with
    | nil => simp at hit
    | cons o' it' =>
      have hlt : n < ops.types.length := by omega
      have hty : typesAt ops ((n : Int) + 1 - 1) = some ops.types[n] := by
        unfold typesAt
        rw [if_neg (by omega)]
        have : ((n : Int) + 1 - 1).toNat = n := by omega
        rw [this]
        exact List.getElem?_eq_getElem hlt
      have hj : ¬ ((n : Int) + 1 - 1 < 0) := by omega
      simp only [checkLoop, Nat.cast_add, Nat.cast_one, hty, hj, decide_False, Bool.and_false,
        Bool.false_eq_true, if_false]
      by_cases hb : isBitSet ops.types[n] o'.type.code = true
      · cases q with
        | zero =>
          simp only [List.getElem?_cons_zero, Option.some.injEq] at hit
          subst hit
          have h4 : ops.types[n + 1 - 1 - 0]? = some ops.types[n] := by simp
          rw [h4] at ht
          injection ht with ht
          subst ht
          rw [hb] at hbit
          cases hbit
        | succ q =>
          have hstep : (n : Int) + 1 - 1 - 1 = (n : Int) - 1 := by omega
          simp only [hb, Bool.not_true, Bool.false_eq_true, if_false, hstep]
          apply ih it' q o t (by omega) (by omega) (by simpa using hit) _ hbit
          have : n + 1 - 1 - (q + 1) = n - 1 - q := by omega
          rw [this] at ht; exact ht
      · simp [hb]

/-- C4. For every row `(name, N, masks)` of the table and every list of exactly
`N` values whose kinds the masks accept position by position, parsing those
values followed by the instruction name succeeds (in either build) with exactly
one operator, of that name, holding exactly those `N` operands in order (now
bound to the document), and no pending operand. -/
theorem parse_known (ndebug : Bool) (e : CheckTypes) (args : List (PropertyType × Str))
    (isStream isArray : Bool) (pdf : CPdf) (rf : IndiRef)
    (he : e ∈ KNOWN_OPERATORS) (hobj : (isStream || isArray) = true)
    (hlen : args.length = e.argNum)
    (hk : ∀ p, p < e.argNum → ∃ a t, args[p]? = some a ∧ e.types[p]? = some t ∧
      isBitSet t a.1.code = true) :
    parseContentStream ndebug []
        ⟨isStream, isArray, args.map (fun a => Object.value a.1 a.2) ++ [Object.cmd e.name]⟩
        pdf rf =
      .ok ⟨[⟨.SimpleGenericOperator, e.name,
              args.map (fun a => ⟨a.1, a.2, some pdf, some rf⟩), none, none⟩],
            [], none, []⟩ := by
  unfold parseContentStream
  simp only [hobj, Bool.not_true, Bool.and_false, Bool.false_eq_true, if_false]
  rw [parseLoop_values]
  simp only [List.nil_append, parseLoop]
  have hlen' : (args.map (fun a => createObjFromXpdfObj a.1 a.2)).length = e.argNum := by
    simpa using hlen
  obtain ⟨b, hb, hiff⟩ := check_returns_iff ndebug e (args.map (fun a => createObjFromXpdfObj a.1 a.2))
    he (by omega)
  have hbt : b = true := by
    rw [hiff]
    intro p hp
    obtain ⟨a, t, h1, h2, h3⟩ := hk p hp
    refine ⟨createObjFromXpdfObj a.1 a.2, t, ?_, h2, h3⟩
    rw [hlen', Nat.sub_self, Nat.zero_add, List.getElem?_map, h1]
    rfl
  subst hbt
  rw [createOp_of_known ndebug e _ pdf rf he, hb]
  simp only
  rw [operandsSetPdf_all pdf rf _ _ (by omega)]
  simp only [SimpleGenericOperator, List.length_map, hlen, Nat.sub_self, List.drop_zero,
    List.take_zero, List.isEmpty_nil, Bool.not_true, Bool.and_false, Bool.false_eq_true,
    if_false, List.map_map, true_or, if_true, pushBack, List.getLast?_nil]
  rfl

/-- C4 on the stream `1 0 0 RG`. -/
theorem parse_known_witness :
    parseContentStream true []
        ⟨true, false,
          [(pInt, cstr "1"), (pInt, cstr "0"), (pInt, cstr "0")].map
            (fun a => Object.value a.1 a.2) ++ [Object.cmd (row "RG" 3 [num, num, num]).name]⟩
        7 ⟨3, 0⟩ =
      .ok ⟨[⟨.SimpleGenericOperator, (row "RG" 3 [num, num, num]).name,
              [(pInt, cstr "1"), (pInt, cstr "0"), (pInt, cstr "0")].map
                (fun a => ⟨a.1, a.2, some 7, some ⟨3, 0⟩⟩), none, none⟩],
            [], none, []⟩ :=
  parse_known true (row "RG" 3 [num, num, num])
    [(pInt, cstr "1"), (pInt, cstr "0"), (pInt, cstr "0")] true false 7 ⟨3, 0⟩
    (by decide) (by decide) rfl
    (by
      intro p hp
      have h3 : p < 3 := hp
      interval_cases p
      · exact ⟨(pInt, cstr "1"), num, rfl, rfl, by decide⟩
      · exact ⟨(pInt, cstr "0"), num, rfl, rfl, by decide⟩
      · exact ⟨(pInt, cstr "0"), num, rfl, rfl, by decide⟩)

theorem parseLoop_append (ndebug : Bool) (pdf : CPdf) (rf : IndiRef) :
    ∀ (before rest : List Object) (st : ParseState),
      parseLoop ndebug pdf rf (before ++ rest) st =
        match parseLoop ndebug pdf rf before st with
        | .error f => .error f
        | .ok st1 => parseLoop ndebug pdf rf rest st1 := by
  intro before
  induction before with
  | nil => intro rest st; simp [parseLoop]
  | cons x before ih =>
    intro rest st
    cases x with
    | cmd name =>
      simp only [List.cons_append, parseLoop, List.append_eq]
      cases createOp ndebug name st.operands pdf rf with
      | error f => rfl
      | ok r =>
        simp only
        split_ifs <;> first | rfl | exact ih _ _
    | value type value =>
      simp only [List.cons_append, parseLoop, List.append_eq]
      exact ih _ _

/-- C5. For every row of the table, if, when its name is read, some operand
among the last `N` pending ones (the one `q` places from the back of the
stack, `q < N`) has a kind that its mask `types[N - 1 - q]` refuses, then
`createOp` creates no operator and throws the malformed content exception, and
the parse of the whole stream ends with that exception (in either build). -/
theorem parse_refused_operand (ndebug : Bool) (e : CheckTypes) (operators : List PdfOperator)
    (isStream isArray : Bool) (before rest : List Object) (st : ParseState)
    (pdf : CPdf) (rf : IndiRef) (q : Nat) (o : IProperty) (t : Nat)
    (he : e ∈ KNOWN_OPERATORS) (hobj : (isStream || isArray) = true)
    (hst : parseLoop ndebug pdf rf before ⟨operators, [], none, []⟩ = .ok st)
    (hq : q < e.argNum) (hql : q < st.operands.length)
    (ho : st.operands[st.operands.length - 1 - q]? = some o)
    (ht : e.types[e.argNum - 1 - q]? = some t)
    (hbit : isBitSet t o.type.code = false) :
    createOp ndebug e.name st.operands pdf rf =
        .error (.thrown (.MalformedFormatExeption "Content stream bad operator type. ")) ∧
      parseContentStream ndebug operators
          ⟨isStream, isArray, before ++ Object.cmd e.name :: rest⟩ pdf rf =
        .error (.thrown (.MalformedFormatExeption "Content stream bad operator type. ")) := by
  have hcheck : check ndebug e st.operands = .ok false := by
    unfold check
    apply checkLoop_refused ndebug e e.argNum _ q o t hq (KNOWN_OPERATORS_argNum_le e he) _ ht hbit
    rw [List.getElem?_reverse hql]
    exact ho
  have hcreate : createOp ndebug e.name st.operands pdf rf =
      .error (.thrown (.MalformedFormatExeption "Content stream bad operator type. ")) := by
    rw [createOp_of_known ndebug e _ pdf rf he, hcheck]
  refine ⟨hcreate, ?_⟩
  unfold parseContentStream
  simp only [hobj, Bool.not_true, Bool.and_false, Bool.false_eq_true, if_false]
  rw [parseLoop_append, hst]
  simp only [parseLoop, hcreate]

/-- C5 on the stream `1 0 0 (x) RG`. -/
theorem parse_refused_operand_witness :
    createOp true (row "RG" 3 [num, num, num]).name
        (ParseState.mk []
          [⟨pInt, cstr "1", none, none⟩, ⟨pInt, cstr "0", none, none⟩,
           ⟨pInt, cstr "0", none, none⟩, ⟨pString, cstr "(x)", none, none⟩] none []).operands
        7 ⟨3, 0⟩ =
        .error (.thrown (.MalformedFormatExeption "Content stream bad operator type. ")) ∧
      parseContentStream true []
          ⟨true, false,
            [.value pInt (cstr "1"), .value pInt (cstr "0"), .value pInt (cstr "0"),
             .value pString (cstr "(x)")] ++
              Object.cmd (row "RG" 3 [num, num, num]).name :: []⟩ 7 ⟨3, 0⟩ =
        .error (.thrown (.MalformedFormatExeption "Content stream bad operator type. ")) :=
  parse_refused_operand true (row "RG" 3 [num, num, num]) [] true false
    [.value pInt (cstr "1"), .value pInt (cstr "0"), .value pInt (cstr "0"),
     .value pString (cstr "(x)")] []
    (ParseState.mk []
      [⟨pInt, cstr "1", none, none⟩, ⟨pInt, cstr "0", none, none⟩,
       ⟨pInt, cstr "0", none, none⟩, ⟨pString, cstr "(x)", none, none⟩] none [])
    7 ⟨3, 0⟩ 0 ⟨pString, cstr "(x)", none, none⟩ num
    (by decide) (by decide) rfl (by decide) (by decide) rfl rfl (by decide)

/-- C6 (failing input). On the stream `1 0 RG` (two operands pending for an
instruction of arity 3) `check` walks its reverse iterator past `rend ()`: the
parse does not end with the malformed content exception but with a read
outside the operand stack, in either build. -/
theorem parse_too_few_operands : ∀ ndebug : Bool,
    parseContentStream ndebug []
        ⟨true, false, [.value pInt (cstr "1"), .value pInt (cstr "0"), .cmd (cstr "RG")]⟩
        7 ⟨3, 0⟩ = .error .outOfBounds ∧
      parseContentStream ndebug [] ⟨true, false, [.cmd (cstr "Tj")]⟩ 7 ⟨3, 0⟩ =
        .error .outOfBounds := by
  intro ndebug
  cases ndebug <;> exact ⟨rfl, rfl⟩

/-- C7. For every row of the table of arity `N`, when its name is read while
the pending stack holds `excess ++ args`, with `excess` not empty and `args`
exactly `N` operands that the masks accept, the parse of the stream does not
continue and the excess operands are not dropped silently: a build with
`NDEBUG` throws the malformed content exception "Operands left on stack", a
build without it stops at `assert (operands.empty ())` just before. -/
theorem parse_excess_operands (ndebug : Bool) (e : CheckTypes) (operators : List PdfOperator)
    (isStream isArray : Bool) (before rest : List Object) (excess args : Operands)
    (st : ParseState) (pdf : CPdf) (rf : IndiRef)
    (he : e ∈ KNOWN_OPERATORS) (hobj : (isStream || isArray) = true)
    (hst : parseLoop ndebug pdf rf before ⟨operators, [], none, []⟩ = .ok st)
    (hops : st.operands = excess ++ args)
    (hex : excess ≠ []) (hlen : args.length = e.argNum)
    (hk : ∀ p, p < e.argNum → ∃ o t, args[p]? = some o ∧ e.types[p]? = some t ∧
      isBitSet t o.type.code = true) :
    parseContentStream ndebug operators
        ⟨isStream, isArray, before ++ Object.cmd e.name :: rest⟩ pdf rf =
      .error (if ndebug then
        .thrown (.MalformedFormatExeption
          "CContentStream::CContentStream() Operands left on stack in pdf content stream after operator.")
        else .assertFailed "operands.empty()") := by
  have hexl : 0 < excess.length := List.length_pos.mpr hex
  obtain ⟨b, hb, hiff⟩ := check_returns_iff ndebug e (excess ++ args) he (by simp; omega)
  have hbt : b = true := by
    rw [hiff]
    intro p hp
    obtain ⟨o, t, h1, h2, h3⟩ := hk p hp
    refine ⟨o, t, ?_, h2, h3⟩
    rw [List.getElem?_append_right (by simp; omega)]
    have : (excess ++ args).length - e.argNum + p - excess.length = p := by
      simp; omega
    rw [this]; exact h1
  subst hbt
  have hleft : ((SimpleGenericOperator e.name e.argNum
      (operandsSetPdf pdf rf (excess ++ args) e.argNum)).2).isEmpty = false := by
    simp only [SimpleGenericOperator, operandsSetPdf_length]
    cases hta : List.take ((excess ++ args).length - e.argNum)
        (operandsSetPdf pdf rf (excess ++ args) e.argNum) with
    | nil =>
      have hl := congrArg List.length hta
      simp [operandsSetPdf_length] at hl
      omega
    | cons x xs => rfl
  unfold parseContentStream
  simp only [hobj, Bool.not_true, Bool.and_false, Bool.false_eq_true, if_false]
  rw [parseLoop_append, hst]
  simp only [parseLoop, hops, createOp_of_known ndebug e _ pdf rf he, hb, hleft]
  cases ndebug <;> simp

/-- C7 on the stream `(x) 1 0 0 RG`, build with `NDEBUG`. -/
theorem parse_excess_operands_witness :
    parseContentStream true []
        ⟨true, false,
          [.value pString (cstr "(x)"), .value pInt (cstr "1"), .value pInt (cstr "0"),
           .value pInt (cstr "0")] ++ Object.cmd (row "RG" 3 [num, num, num]).name :: []⟩
        7 ⟨3, 0⟩ =
      .error (if true then
        .thrown (.MalformedFormatExeption
          "CContentStream::CContentStream() Operands left on stack in pdf content stream after operator.")
        else .assertFailed "operands.empty()") :=
  parse_excess_operands true (row "RG" 3 [num, num, num]) [] true false
    [.value pString (cstr "(x)"), .value pInt (cstr "1"), .value pInt (cstr "0"),
     .value pInt (cstr "0")] []
    [⟨pString, cstr "(x)", none, none⟩]
    [⟨pInt, cstr "1", none, none⟩, ⟨pInt, cstr "0", none, none⟩, ⟨pInt, cstr "0", none, none⟩]
    (ParseState.mk []
      [⟨pString, cstr "(x)", none, none⟩, ⟨pInt, cstr "1", none, none⟩,
       ⟨pInt, cstr "0", none, none⟩, ⟨pInt, cstr "0", none, none⟩] none [])
    7 ⟨3, 0⟩ (by decide) (by decide) rfl rfl (by decide) rfl
    (by
      intro p hp
      have h3 : p < 3 := hp
      interval_cases p
      · exact ⟨⟨pInt, cstr "1", none, none⟩, num, rfl, rfl, by decide⟩
      · exact ⟨⟨pInt, cstr "0", none, none⟩, num, rfl, rfl, by decide⟩
      · exact ⟨⟨pInt, cstr "0", none, none⟩, num, rfl, rfl, by decide⟩)

/-- C8 (failing input). On the stream `q 1 2` the parse returns normally in
either build: the result holds the one operator `q`, and the two operands
still pending at the end of the stream are dropped without any exception. -/
theorem parse_pending_at_end : ∀ ndebug : Bool,
    parseContentStream ndebug []
        ⟨true, false, [.cmd (cstr "q"), .value pInt (cstr "1"), .value pInt (cstr "2")]⟩
        7 ⟨3, 0⟩ =
      .ok ⟨[⟨.SimpleGenericOperator, cstr "q", [], none, none⟩],
            [⟨pInt, cstr "1", none, none⟩, ⟨pInt, cstr "2", none, none⟩], none, []⟩ := by
  intro ndebug
  cases ndebug <;> rfl

/-! ## Page contents -/

/-- C9 (failing input). On a page whose Contents array names one stream twice,
`[5 0 R 6 0 R 5 0 R]`, the cached list and the entry agree; `remove (2)` then
returns normally (in either build), but it deletes the first element that
equals `5 0 R` from the array and the last content stream from the cached
list: the cached order is `5 0 R, 6 0 R`, the Contents entry resolves to
`6 0 R, 5 0 R`. -/
theorem remove_repeated_reference : ∀ ndebug : Bool,
    collectStreams repeatedPage = .ok (getAllCStreams repeatedPage._ccs) ∧
      (remove (plainEnv ndebug) repeatedPage 2).fault = none ∧
      (getAllCStreams (remove (plainEnv ndebug) repeatedPage 2).state._ccs).map (·.indiRef) =
        [⟨5, 0⟩, ⟨6, 0⟩] ∧
      (remove (plainEnv ndebug) repeatedPage 2).state.contents =
        some (.array [Elem.ref ⟨6, 0⟩, Elem.ref ⟨5, 0⟩]) ∧
      collectStreams (remove (plainEnv ndebug) repeatedPage 2).state =
        .ok [streamAt 6, streamAt 5] := by
  intro ndebug
  cases ndebug <;> exact ⟨rfl, rfl, rfl, rfl, rfl⟩

/-- C10 (counterexample). On the page without a Contents entry, `addToBack`
returns normally and the Contents entry is then an array, not a single stream
reference. -/
theorem addToBack_single_reference_fails :
    (addToBack (plainEnv true) emptyPage []).fault = none ∧
      ¬ ∃ r : IndiRef,
        (addToBack (plainEnv true) emptyPage []).state.contents = some (.elem (.ref r)) := by
  refine ⟨rfl, ?_⟩
  rintro ⟨r, hr⟩
  have h : (addToBack (plainEnv true) emptyPage []).state.contents =
      some (.array [Elem.ref ⟨1, 0⟩]) := rfl
  rw [h] at hr
  cases hr

/-- C10 (amended). On a page whose dictionary has no Contents entry, a call of
`addToBack` whose new content stream can be built returns normally, makes the
Contents entry a one-element array that holds the reference of the new stream,
and appends the new content stream to the cached list. -/
theorem addToBack_no_contents (env : Env) (s : State) (cont : List PdfOperator) (n : Nat)
    (hdict : s._dict = true) (hpage : s._page = true) (hpdf : s.dictPdf.isNone = false)
    (hcontents : s.contents = none)
    (hcc : env.newCC [(createStreamFromObjects env s cont).1] = .ok n) :
    (addToBack env s cont).fault = none ∧
      (addToBack env s cont).state.contents =
        some (.array [Elem.ref (createStreamFromObjects env s cont).1.indiRef]) ∧
      (addToBack env s cont).state._ccs =
        s._ccs ++ [⟨s.nextId, [(createStreamFromObjects env s cont).1]⟩] := by
  simp only [createStreamFromObjects, addIndirectProperty, List.nil_append] at hcc
  simp [addToBack, createStreamFromObjects, addIndirectProperty, toBack, observerFreeSection,
    cc_add, unreg_observer, reg_observer, change, Outcome.andThen, Outcome.ret, hdict, hpage,
    hpdf, hcontents, hcc, newContentStream]

/-- C10 (amended) on the page without a Contents entry. -/
theorem addToBack_no_contents_witness :
    (addToBack (plainEnv true) emptyPage []).fault = none ∧
      (addToBack (plainEnv true) emptyPage []).state.contents =
        some (.array [Elem.ref (createStreamFromObjects (plainEnv true) emptyPage []).1.indiRef]) ∧
      (addToBack (plainEnv true) emptyPage []).state._ccs =
        emptyPage._ccs ++
          [⟨emptyPage.nextId, [(createStreamFromObjects (plainEnv true) emptyPage []).1]⟩] :=
  addToBack_no_contents (plainEnv true) emptyPage [] 0 rfl rfl rfl rfl rfl

/-! ## Observers and change signals leave the rest of the state alone -/

@[simp] theorem reg_observer_contents (s : State) (ip : Option Entry) :
    (reg_observer s ip).contents = s.contents := by
  cases ip with
  | some p => rfl
  | none => cases hc : s.contents <;> simp [reg_observer, hc]

@[simp] theorem reg_observer_store (s : State) (ip : Option Entry) :
    (reg_observer s ip).store = s.store := by
  cases ip with
  | some p => rfl
  | none => cases hc : s.contents <;> simp [reg_observer, hc]

@[simp] theorem reg_observer_ccs (s : State) (ip : Option Entry) :
    (reg_observer s ip)._ccs = s._ccs := by
  cases ip with
  | some p => rfl
  | none => cases hc : s.contents <;> simp [reg_observer, hc]

@[simp] theorem reg_observer_dict (s : State) (ip : Option Entry) :
    (reg_observer s ip)._dict = s._dict := by
  cases ip with
  | some p => rfl
  | none => cases hc : s.contents <;> simp [reg_observer, hc]

@[simp] theorem reg_observer_page (s : State) (ip : Option Entry) :
    (reg_observer s ip)._page = s._page := by
  cases ip with
  | some p => rfl
  | none => cases hc : s.contents <;> simp [reg_observer, hc]

@[simp] theorem unreg_observer_contents (s : State) (ip : Option Entry) :
    (unreg_observer s ip).contents = s.contents := by
  cases ip with
  | some p => rfl
  | none => cases hc : s.contents <;> simp [unreg_observer, hc]

@[simp] theorem unreg_observer_store (s : State) (ip : Option Entry) :
    (unreg_observer s ip).store = s.store := by
  cases ip with
  | some p => rfl
  | none => cases hc : s.contents <;> simp [unreg_observer, hc]

@[simp] theorem unreg_observer_ccs (s : State) (ip : Option Entry) :
    (unreg_observer s ip)._ccs = s._ccs := by
  cases ip with
  | some p => rfl
  | none => cases hc : s.contents <;> simp [unreg_observer, hc]

@[simp] theorem unreg_observer_dict (s : State) (ip : Option Entry) :
    (unreg_observer s ip)._dict = s._dict := by
  cases ip with
  | some p => rfl
  | none => cases hc : s.contents <;> simp [unreg_observer, hc]

@[simp] theorem unreg_observer_page (s : State) (ip : Option Entry) :
    (unreg_observer s ip)._page = s._page := by
  cases ip with
  | some p => rfl
  | none => cases hc : s.contents <;> simp [unreg_observer, hc]

@[simp] theorem observerFreeSection_fault (s : State) (body : State → Outcome) :
    (observerFreeSection s body).fault = (body (unreg_observer s none)).fault := rfl

@[simp] theorem observerFreeSection_state (s : State) (body : State → Outcome) :
    (observerFreeSection s body).state =
      reg_observer (body (unreg_observer s none)).state none := rfl

theorem change_of_page (s : State) (invalid : Bool) (hpage : s._page = true) :
    change s invalid = .ret { s with pageChanges := s.pageChanges ++ [invalid] } := by
  simp [change, hpage]

@[simp] theorem change_contents (s : State) (invalid : Bool) :
    (change s invalid).state.contents = s.contents := by
  unfold change; split <;> rfl

@[simp] theorem change_store (s : State) (invalid : Bool) :
    (change s invalid).state.store = s.store := by
  unfold change; split <;> rfl

@[simp] theorem change_ccs (s : State) (invalid : Bool) :
    (change s invalid).state._ccs = s._ccs := by
  unfold change; split <;> rfl

theorem andThen_of_ok (o : Outcome) (next : State → Outcome) (h : o.fault = none) :
    o.andThen next = next o.state := by
  simp [Outcome.andThen, h]

theorem andThen_of_fault (o : Outcome) (next : State → Outcome) (f : Fault)
    (h : o.fault = some f) : o.andThen next = o := by
  simp [Outcome.andThen, h]

/-- A step that keeps a field keeps it after sequencing too. -/
theorem andThen_keeps {α : Type} (field : State → α) (o : Outcome) (next : State → Outcome)
    (h : ∀ s, field (next s).state = field s) :
    field (o.andThen next).state = field o.state := by
  unfold Outcome.andThen
  split
  · exact h _
  · rfl

/-! ## remove -/

theorem setContentsArray_ccs (s : State) (content : Entry) (elems : List Elem) :
    (setContentsArray s content elems)._ccs = s._ccs := by
  unfold setContentsArray; split <;> rfl

theorem removeRf_ccs (s : State) (rf : IndiRef) : (removeRf s rf).state._ccs = s._ccs := by
  unfold removeRf
  split_ifs with h
  · rfl
  · cases hc : s.contents with
    | none => rfl
    | some content =>
      simp only []
      split_ifs
      · rfl
      · cases hr : getReferencedObject s content with
        | elem e => rfl
        | array a =>
          simp only []
          cases hf : findRef rf a 0 with
          | error e => rfl
          | ok o =>
            cases o with
            | none => rfl
            | some i => exact setContentsArray_ccs _ _ _

theorem removeCsLoop_ccs (env : Env) :
    ∀ (l : List CStream) (s : State), (removeCsLoop env l s).state._ccs = s._ccs := by
  intro l
  induction l with
  | nil => intro s; rfl
  | cons it rest ih =>
    intro s
    unfold removeCsLoop
    split_ifs
    · rfl
    · rfl
    · rfl
    · rw [andThen_keeps (fun st => st._ccs) _ _ (fun st => ih st)]
      exact removeRf_ccs s it.indiRef

theorem removeCs_ccs (env : Env) (s : State) (cs : CContentStream) :
    (removeCs env s cs).state._ccs = s._ccs := by
  unfold removeCs
  split_ifs
  · rfl
  · rfl
  · rw [andThen_keeps (fun st => st._ccs) _ _ (fun st => change_ccs st false)]
    simp [removeCsLoop_ccs]

/-- C12. For every state whose manager is bound (`_dict` set, `getPdf ()` not
null) and every index `i` at or beyond the number of cached content streams,
`remove (i)` throws `OutOfRange` and leaves the whole state, so the cached list
and the Contents entry, as it was. -/
theorem remove_out_of_range (env : Env) (s : State) (i : Nat)
    (hdict : s._dict = true) (hpdf : s.dictPdf.isNone = false) (hi : s._ccs.length ≤ i) :
    remove env s i = ⟨some (.thrown .OutOfRange), s⟩ := by
  unfold remove
  simp [hdict, hpdf, hi, Outcome.throw]

/-- C12 on the page with three content streams and the index 3. -/
theorem remove_out_of_range_witness :
    remove (plainEnv true) threePage 3 = ⟨some (.thrown .OutOfRange), threePage⟩ :=
  remove_out_of_range (plainEnv true) threePage 3 rfl rfl (by decide)

/-- C13. For every index `i` below the number of cached content streams, a
call `remove (i)` that returns normally leaves the cached list equal to the old
one with its element at index `i` deleted: one element fewer, the others in
their order. -/
theorem remove_erases_index (env : Env) (s : State) (i : Nat) (hi : i < s._ccs.length)
    (hok : (remove env s i).fault = none) :
    (remove env s i).state._ccs = s._ccs.eraseIdx i ∧
      (remove env s i).state._ccs.length + 1 = s._ccs.length := by
  have hmain : (remove env s i).state._ccs = s._ccs.eraseIdx i := by
    have hd : (!s._dict) = false := by
      cases h : s._dict
      · simp [remove, h] at hok
      · rfl
    have hp : s.dictPdf.isNone = false := by
      cases h : s.dictPdf.isNone
      · rfl
      · simp [remove, hd, h, Outcome.throw] at hok
    have hge : ¬ (i ≥ s._ccs.length) := by omega
    unfold remove at hok ⊢
    simp only [hd, hp, hge, Bool.false_eq_true, if_false, List.getElem?_eq_getElem hi] at hok ⊢
    cases hf : (removeCs env s s._ccs[i]).fault with
    | some f =>
      rw [andThen_of_fault _ _ f hf] at hok
      rw [hf] at hok
      cases hok
    | none =>
      rw [andThen_of_ok _ _ hf]
      rw [change_ccs]
      simp [removeCs_ccs]
  refine ⟨hmain, ?_⟩
  rw [hmain, List.length_eraseIdx]
  simp only [hi, if_true]
  omega

/-- C13 on the page with three content streams and the index 1. -/
theorem remove_erases_index_witness :
    (remove (plainEnv true) threePage 1).state._ccs = threePage._ccs.eraseIdx 1 ∧
      (remove (plainEnv true) threePage 1).state._ccs.length + 1 = threePage._ccs.length :=
  remove_erases_index (plainEnv true) threePage 1 (by decide) rfl

/-! ## moveAbove and moveBelow: refused calls -/

theorem findCcs_eq_length (l : List CContentStream) (ct : CContentStream)
    (h : ∀ cc ∈ l, cc.id ≠ ct.id) : findCcs l ct = l.length := by
  unfold findCcs
  apply List.findIdx_eq_length_of_false
  intro x hx
  simpa using h x hx

theorem findCcs_append (pre rest : List CContentStream) (ct : CContentStream)
    (h : ∀ cc ∈ pre, cc.id ≠ ct.id) :
    findCcs (pre ++ rest) ct = pre.length + findCcs rest ct := by
  induction pre with
  | nil => simp
  | cons c pre ih =>
    have hc : (c.id == ct.id) = false := by simpa using h c (by simp)
    have ih' := ih (fun cc hcc => h cc (by simp [hcc]))
    unfold findCcs at ih' ⊢
    rw [List.cons_append, List.findIdx_cons, hc, ih']
    simp
    omega

theorem findCcs_cons_self (c : CContentStream) (rest : List CContentStream)
    (ct : CContentStream) (h : c.id = ct.id) : findCcs (c :: rest) ct = 0 := by
  unfold findCcs
  rw [List.findIdx_cons]
  simp [h]

/-- C17. The call `moveAbove (ct)` throws `OutOfRange` when `ct` is the last
element of the cached list, and `CObjInvalidOperation`, the error for a
content stream that is not found, when `ct` is not in the cached list; in both
cases the whole state, so the cached list and the Contents entry, stays as it
was. -/
theorem moveAbove_refused (env : Env) (s : State) (ct : CContentStream) :
    (∀ (pre : List CContentStream) (last : CContentStream), s._ccs = pre ++ [last] →
        last.id = ct.id → (∀ cc ∈ pre, cc.id ≠ ct.id) →
        moveAbove env s ct = ⟨some (.thrown .OutOfRange), s⟩) ∧
      ((∀ cc ∈ s._ccs, cc.id ≠ ct.id) →
        moveAbove env s ct = ⟨some (.thrown .CObjInvalidOperation), s⟩) := by
  constructor
  · intro pre last hccs hlast hpre
    have hfind : findCcs s._ccs ct = pre.length := by
      rw [hccs, findCcs_append pre [last] ct hpre, findCcs_cons_self last [] ct hlast]
      rfl
    have hlen : s._ccs.length = pre.length + 1 := by rw [hccs]; simp
    unfold moveAbove
    simp [hfind, hlen, Outcome.throw]
  · intro hnot
    have hfind := findCcs_eq_length s._ccs ct hnot
    unfold moveAbove
    simp [hfind, Outcome.throw]

/-- C17 on the page with three content streams: its last content stream, and
a content stream that is not cached. -/
theorem moveAbove_refused_witness :
    moveAbove (plainEnv true) threePage ⟨2, [streamAt 7]⟩ =
        ⟨some (.thrown .OutOfRange), threePage⟩ ∧
      moveAbove (plainEnv true) threePage ⟨9, [streamAt 7]⟩ =
        ⟨some (.thrown .CObjInvalidOperation), threePage⟩ :=
  ⟨(moveAbove_refused (plainEnv true) threePage ⟨2, [streamAt 7]⟩).1
      [⟨0, [streamAt 5]⟩, ⟨1, [streamAt 6]⟩] ⟨2, [streamAt 7]⟩ rfl rfl (by decide),
   (moveAbove_refused (plainEnv true) threePage ⟨9, [streamAt 7]⟩).2 (by decide)⟩

/-- C18 (counterexample). On the page with three content streams `moveBelow`
of the first one throws `CObjInvalidOperation`, not `OutOfRange`. -/
theorem moveBelow_first_not_out_of_range :
    (moveBelow (plainEnv true) threePage ⟨0, [streamAt 5]⟩).fault =
        some (.thrown .CObjInvalidOperation) ∧
      (moveBelow (plainEnv true) threePage ⟨0, [streamAt 5]⟩).fault ≠
        some (.thrown .OutOfRange) := by
  constructor
  · rfl
  · decide

/-- C18 (amended). The call `moveBelow (ct)` throws `CObjInvalidOperation`
both when `ct` is the first element of the cached list and when `ct` is not in
the cached list; in both cases the whole state, so the cached list and the
Contents entry, stays as it was. -/
theorem moveBelow_refused (env : Env) (s : State) (ct : CContentStream) :
    (∀ (first : CContentStream) (rest : List CContentStream), s._ccs = first :: rest →
        first.id = ct.id →
        moveBelow env s ct = ⟨some (.thrown .CObjInvalidOperation), s⟩) ∧
      ((∀ cc ∈ s._ccs, cc.id ≠ ct.id) →
        moveBelow env s ct = ⟨some (.thrown .CObjInvalidOperation), s⟩) := by
  constructor
  · intro first rest hccs hfirst
    have hfind : findCcs s._ccs ct = 0 := by
      rw [hccs, findCcs_cons_self first rest ct hfirst]
    unfold moveBelow
    simp [hfind, Outcome.throw]
  · intro hnot
    have hfind := findCcs_eq_length s._ccs ct hnot
    unfold moveBelow
    simp [hfind, Outcome.throw]

/-- C18 (amended) on the page with three content streams: its first content
stream, and a content stream that is not cached. -/
theorem moveBelow_refused_witness :
    moveBelow (plainEnv true) threePage ⟨0, [streamAt 5]⟩ =
        ⟨some (.thrown .CObjInvalidOperation), threePage⟩ ∧
      moveBelow (plainEnv true) threePage ⟨9, [streamAt 7]⟩ =
        ⟨some (.thrown .CObjInvalidOperation), threePage⟩ :=
  ⟨(moveBelow_refused (plainEnv true) threePage ⟨0, [streamAt 5]⟩).1
      ⟨0, [streamAt 5]⟩ [⟨1, [streamAt 6]⟩, ⟨2, [streamAt 7]⟩] rfl rfl,
   (moveBelow_refused (plainEnv true) threePage ⟨9, [streamAt 7]⟩).2 (by decide)⟩

/-! ## parse -/

/-- C19. For a manager that is bound to its page and a page dictionary with a
valid document binding and no Contents entry, `parse ()` returns normally and
the cached list is empty afterwards, whatever it held before; nothing else
changes. -/
theorem parse_no_contents (env : Env) (s : State)
    (hdict : s._dict = true) (hpage : s._page = true) (hpdf : s.dictPdf.isNone = false)
    (href : s.dictHasValidRef = true) (hcontents : s.contents = none) :
    parse env s = .ret { s with _ccs := [] } ∧ (parse env s).fault = none ∧
      (parse env s).state._ccs = [] := by
  have h : parse env s = .ret { s with _ccs := [] } := by
    unfold parse
    simp [hdict, hpage, hpdf, href, hcontents]
  rw [h]
  exact ⟨rfl, rfl, rfl⟩

/-- C19 on a page without Contents entry whose cached list still holds three
content streams. -/
theorem parse_no_contents_witness :
    parse (plainEnv true) { threePage with contents := none } =
        .ret { { threePage with contents := none } with _ccs := [] } ∧
      (parse (plainEnv true) { threePage with contents := none }).fault = none ∧
      (parse (plainEnv true) { threePage with contents := none }).state._ccs = [] :=
  parse_no_contents (plainEnv true) { threePage with contents := none } rfl rfl rfl rfl rfl

/-- What `mapM` in `Except` returns when it succeeds: one result per element,
in order. -/
theorem mapM_ok {α β ε : Type} (f : α → Except ε β) :
    ∀ (l : List α) (r : List β), l.mapM f = .ok r →
      r.length = l.length ∧
        ∀ (i : Nat) (e : α), l[i]? = some e → ∃ b, r[i]? = some b ∧ f e = .ok b := by
  intro l
  induction l with
  | nil =>
    intro r h
    simp only [List.mapM_nil, pure, Except.pure, Except.ok.injEq] at h
    subst h
    simp
  | cons a l ih =>
    intro r h
    rw [List.mapM_cons] at h
    cases hfa : f a with
    | error e =>
      rw [hfa] at h
      simp [bind, Except.bind] at h
    | ok b =>
      rw [hfa] at h
      cases hl : l.mapM f with
      | error e =>
        rw [hl] at h
        simp [bind, Except.bind] at h
      | ok bs =>
        rw [hl] at h
        simp only [bind, Except.bind, pure, Except.pure, Except.ok.injEq] at h
        subst h
        obtain ⟨hlen, hget⟩ := ih bs hl
        refine ⟨by simp [hlen], ?_⟩
        intro i e hi
        cases i with
        | zero =>
          simp only [List.getElem?_cons_zero, Option.some.injEq] at hi
          subst hi
          exact ⟨b, by simp, hfa⟩
        | succ i =>
          simp only [List.getElem?_cons_succ] at hi
          obtain ⟨b', h1, h2⟩ := hget i e hi
          exact ⟨b', by simpa using h1, h2⟩

/-- C20. For a bound manager and a page dictionary with a valid document
binding whose Contents entry is `c`: when `c`, after resolving a reference, is
neither a stream nor an array, `parse ()` throws the type error and leaves the
Contents entry (and all but the cached list, which is empty) as it was; when
it is a stream, the streams `parse ()` builds content streams from are exactly
that one stream; when it is an array, they are one stream per element, in
index order. -/
theorem parse_collects (env : Env) (s : State) (c : Entry)
    (hdict : s._dict = true) (hpage : s._page = true) (hpdf : s.dictPdf.isNone = false)
    (href : s.dictHasValidRef = true) (hcontents : s.contents = some c) :
    (isStream (getReferencedObject s c) = false → isArray (getReferencedObject s c) = false →
        parse env s = ⟨some (.thrown (.ElementBadTypeException "Bad content stream type.")),
          { s with _ccs := [] }⟩ ∧
        (parse env s).state.contents = s.contents) ∧
      (∀ stream : CStream, getReferencedObject s c = .elem (.stream stream) →
        collectStreams { s with _ccs := [] } = .ok [stream] ∧
        parse env s = (parseStreamsLoop env 1 [stream] { s with _ccs := [] }).andThen
          (fun s2 => change s2 false)) ∧
      (∀ (array : List Elem) (streams : List CStream),
        getReferencedObject s c = .array array →
        array.mapM (getCStreamFromElem s) = .ok streams →
        collectStreams { s with _ccs := [] } = .ok streams ∧
        parse env s = (parseStreamsLoop env streams.length streams { s with _ccs := [] }).andThen
          (fun s2 => change s2 false) ∧
        streams.length = array.length ∧
        ∀ (i : Nat) (e : Elem), array[i]? = some e →
          ∃ stream, streams[i]? = some stream ∧ getCStreamFromElem s e = .ok stream) := by
  have hcc : collectStreams { s with _ccs := [] } = collectStreams s := rfl
  refine ⟨?_, ?_, ?_⟩
  · intro hs ha
    have hcol : collectStreams s =
        .error (.ElementBadTypeException "Bad content stream type.") := by
      unfold collectStreams
      simp only [hcontents]
      cases hr : getReferencedObject s c with
      | elem e =>
        cases e with
        | ref r => rfl
        | stream st => rw [hr] at hs; cases hs
        | other => rfl
      | array a => rw [hr] at ha; cases ha
    have h : parse env s = ⟨some (.thrown (.ElementBadTypeException "Bad content stream type.")),
        { s with _ccs := [] }⟩ := by
      unfold parse
      simp only [hcc, hcol]
      simp [hdict, hpage, hpdf, href, hcontents, Outcome.throw]
    rw [h]
    exact ⟨rfl, rfl⟩
  · intro stream hr
    have hcol : collectStreams s = .ok [stream] := by
      unfold collectStreams
      simp only [hcontents, hr]
      rfl
    refine ⟨hcc.trans hcol, ?_⟩
    unfold parse
    simp only [hcc, hcol]
    simp [hdict, hpage, hpdf, href, hcontents]
  · intro array streams hr hm
    have hcol : collectStreams s = .ok streams := by
      unfold collectStreams
      simp only [hcontents, hr]
      exact hm
    obtain ⟨hlen, hget⟩ := mapM_ok (getCStreamFromElem s) array streams hm
    refine ⟨hcc.trans hcol, ?_, hlen, hget⟩
    unfold parse
    simp only [hcc, hcol]
    simp [hdict, hpage, hpdf, href, hcontents]

/-- C20 on the page whose Contents entry is a name. -/
theorem parse_collects_witness :
    parse (plainEnv true) badPage =
        ⟨some (.thrown (.ElementBadTypeException "Bad content stream type.")),
          { badPage with _ccs := [] }⟩ ∧
      (parse (plainEnv true) badPage).state.contents = badPage.contents :=
  (parse_collects (plainEnv true) badPage (.elem .other) rfl rfl rfl rfl rfl).1 rfl rfl

/-! ## cc_add, toFront and toBack -/

theorem getReferencedObject_congr (s1 s2 : State) (c : Entry) (h : s1.store = s2.store) :
    getReferencedObject s1 c = getReferencedObject s2 c := by
  cases c with
  | elem e =>
    cases e with
    | ref r => simp [getReferencedObject, getIndirectProperty, h]
    | stream st => rfl
    | other => rfl
  | array a => rfl

theorem lookup_replace (r : IndiRef) (w v : Entry) :
    ∀ store : List (IndiRef × Entry), store.lookup r = some v →
      (store.map (fun p => if p.1 = r then (p.1, w) else p)).lookup r = some w := by
  intro store
  induction store with
  | nil => intro h; simp at h
  | cons p store ih =>
    intro h
    obtain ⟨k, b⟩ := p
    rw [List.lookup_cons] at h
    by_cases hk : k = r
    · subst hk
      simp [List.lookup_cons]
    · have hne : (r == k) = false := by simpa using fun h' => hk h'.symm
      rw [hne] at h
      simp only [List.map_cons, hk, if_false, List.lookup_cons, hne]
      exact ih h

/-- After `setContentsArray` the Contents entry resolves to the new array. -/
theorem setContentsArray_resolves (s : State) (content : Entry) (a new : List Elem)
    (hc : s.contents = some content) (hr : getReferencedObject s content = .array a) :
    ∃ k, (setContentsArray s content new).contents = some k ∧
      getReferencedObject (setContentsArray s content new) k = .array new := by
  cases content with
  | array a' => exact ⟨.array new, rfl, rfl⟩
  | elem e =>
    cases e with
    | stream st => simp [getReferencedObject] at hr
    | other => simp [getReferencedObject] at hr
    | ref r =>
      refine ⟨.elem (.ref r), hc, ?_⟩
      simp only [getReferencedObject, getIndirectProperty] at hr ⊢
      cases hl : s.store.lookup r with
      | none => rw [hl] at hr; simp at hr
      | some v =>
        simp only [setContentsArray]
        rw [lookup_replace r (.array new) v s.store hl]
        rfl

theorem setContentsArray_dict (s : State) (content : Entry) (elems : List Elem) :
    (setContentsArray s content elems)._dict = s._dict := by
  unfold setContentsArray; split <;> rfl

theorem cc_add_stream (w : OPERWHERE) (s : State) (ref : IndiRef) (content : Entry)
    (hdict : s._dict = true) (hc : s.contents = some content)
    (hs : isStream (getReferencedObject s content) = true) :
    cc_add w s ref =
      .ret { s with contents := some (.array (addWithContent w [] ref content.asElem)) } := by
  unfold cc_add
  simp [hdict, hc, hs]

theorem cc_add_array (w : OPERWHERE) (s : State) (ref : IndiRef) (content : Entry)
    (a : List Elem) (hdict : s._dict = true) (hc : s.contents = some content)
    (hr : getReferencedObject s content = .array a) :
    cc_add w s ref = .ret (setContentsArray s content (addToArray w a ref)) := by
  unfold cc_add
  simp [hdict, hc, hr, isStream]

/-- The effect of `toFront` and `toBack` (`w` says which) on the Contents
entry when it resolves to a stream. -/
theorem section_cc_add_stream (w : OPERWHERE) (s : State) (ref : IndiRef) (content : Entry)
    (hdict : s._dict = true) (hpage : s._page = true) (hc : s.contents = some content)
    (hs : isStream (getReferencedObject s content) = true) :
    ((observerFreeSection s (fun s1 => cc_add w s1 ref)).andThen
        (fun s1 => change s1 false)).fault = none ∧
      ((observerFreeSection s (fun s1 => cc_add w s1 ref)).andThen
        (fun s1 => change s1 false)).state.contents =
        some (.array (addWithContent w [] ref content.asElem)) := by
  have hs0 : isStream (getReferencedObject (unreg_observer s none) content) = true := by
    rw [getReferencedObject_congr _ s content (by simp)]; exact hs
  have hadd := cc_add_stream w (unreg_observer s none) ref content (by simp [hdict])
    (by simp [hc]) hs0
  have hf : (observerFreeSection s (fun s1 => cc_add w s1 ref)).fault = none := by
    simp [hadd, Outcome.ret]
  rw [andThen_of_ok _ _ hf]
  have hp : (observerFreeSection s (fun s1 => cc_add w s1 ref)).state._page = true := by
    simp [hadd, Outcome.ret, hpage]
  rw [change_of_page _ _ hp]
  simp [Outcome.ret, hadd]

/-- The effect of `toFront` and `toBack` (`w` says which) on the Contents
entry when it resolves to an array. -/
theorem section_cc_add_array (w : OPERWHERE) (s : State) (ref : IndiRef) (content : Entry)
    (a : List Elem) (hdict : s._dict = true) (hpage : s._page = true)
    (hc : s.contents = some content) (hr : getReferencedObject s content = .array a) :
    ((observerFreeSection s (fun s1 => cc_add w s1 ref)).andThen
        (fun s1 => change s1 false)).fault = none ∧
      ∃ k, ((observerFreeSection s (fun s1 => cc_add w s1 ref)).andThen
          (fun s1 => change s1 false)).state.contents = some k ∧
        getReferencedObject ((observerFreeSection s (fun s1 => cc_add w s1 ref)).andThen
          (fun s1 => change s1 false)).state k = .array (addToArray w a ref) := by
  have hr0 : getReferencedObject (unreg_observer s none) content = .array a := by
    rw [getReferencedObject_congr _ s content (by simp)]; exact hr
  have hc0 : (unreg_observer s none).contents = some content := by simp [hc]
  have hadd := cc_add_array w (unreg_observer s none) ref content a (by simp [hdict]) hc0 hr0
  obtain ⟨k, hk1, hk2⟩ := setContentsArray_resolves (unreg_observer s none) content a
    (addToArray w a ref) hc0 hr0
  have hf : (observerFreeSection s (fun s1 => cc_add w s1 ref)).fault = none := by
    simp [hadd, Outcome.ret]
  rw [andThen_of_ok _ _ hf]
  have hp : (observerFreeSection s (fun s1 => cc_add w s1 ref)).state._page = true := by
    simp only [observerFreeSection_state, reg_observer_page, hadd, Outcome.ret]
    unfold setContentsArray
    split <;> simp [hpage]
  rw [change_of_page _ _ hp]
  refine ⟨rfl, k, ?_, ?_⟩
  · simp [Outcome.ret, hadd, hk1]
  · rw [getReferencedObject_congr _ (setContentsArray (unreg_observer s none) content
      (addToArray w a ref)) k (by simp [Outcome.ret, hadd])]
    exact hk2

/-- C11. For a bound manager whose Contents entry is `content`: when it
resolves to a lone stream and `content` is the value `c`, `toFront (ref)`
returns normally and replaces the entry by the array `[ref, c]`, `toBack (ref)`
by `[c, ref]`; when it resolves to an array `a`, both return normally and
afterwards the entry resolves to `ref` followed by the elements of `a` in their
order for `toFront`, and to the elements of `a` in their order followed by
`ref` for `toBack`. -/
theorem toFront_toBack_contents (s : State) (ref : IndiRef) (content : Entry)
    (hdict : s._dict = true) (hpage : s._page = true) (hc : s.contents = some content) :
    (∀ c : Elem, content = .elem c → isStream (getReferencedObject s content) = true →
        (toFront s ref).fault = none ∧
        (toFront s ref).state.contents = some (.array [Elem.ref ref, c]) ∧
        (toBack s ref).fault = none ∧
        (toBack s ref).state.contents = some (.array [c, Elem.ref ref])) ∧
      (∀ a : List Elem, getReferencedObject s content = .array a →
        (toFront s ref).fault = none ∧
        (∃ k, (toFront s ref).state.contents = some k ∧
          getReferencedObject (toFront s ref).state k = .array (Elem.ref ref :: a)) ∧
        (toBack s ref).fault = none ∧
        (∃ k, (toBack s ref).state.contents = some k ∧
          getReferencedObject (toBack s ref).state k = .array (a ++ [Elem.ref ref]))) := by
  constructor
  · intro c hce hs
    obtain ⟨f1, f2⟩ := section_cc_add_stream .FRONT s ref content hdict hpage hc hs
    obtain ⟨b1, b2⟩ := section_cc_add_stream .BACK s ref content hdict hpage hc hs
    subst hce
    exact ⟨f1, f2, b1, b2⟩
  · intro a hr
    obtain ⟨f1, f2⟩ := section_cc_add_array .FRONT s ref content a hdict hpage hc hr
    obtain ⟨b1, b2⟩ := section_cc_add_array .BACK s ref content a hdict hpage hc hr
    refine ⟨f1, ?_, b1, ?_⟩
    · simpa [addToArray, List.insertIdx_zero] using f2
    · simpa [addToArray, List.insertIdx_length_self] using b2

/-- C11 on the page whose Contents entry is the reference `5 0 R` to a lone
stream, and on the page whose Contents entry refers to the indirect array
`[5 0 R 6 0 R]`. -/
theorem toFront_toBack_contents_witness :
    ((toFront lonePage ⟨1, 0⟩).fault = none ∧
        (toFront lonePage ⟨1, 0⟩).state.contents =
          some (.array [Elem.ref ⟨1, 0⟩, Elem.ref ⟨5, 0⟩]) ∧
        (toBack lonePage ⟨1, 0⟩).fault = none ∧
        (toBack lonePage ⟨1, 0⟩).state.contents =
          some (.array [Elem.ref ⟨5, 0⟩, Elem.ref ⟨1, 0⟩])) ∧
      ((toFront indirectPage ⟨1, 0⟩).fault = none ∧
        (∃ k, (toFront indirectPage ⟨1, 0⟩).state.contents = some k ∧
          getReferencedObject (toFront indirectPage ⟨1, 0⟩).state k =
            .array (Elem.ref ⟨1, 0⟩ :: [Elem.ref ⟨5, 0⟩, Elem.ref ⟨6, 0⟩])) ∧
        (toBack indirectPage ⟨1, 0⟩).fault = none ∧
        (∃ k, (toBack indirectPage ⟨1, 0⟩).state.contents = some k ∧
          getReferencedObject (toBack indirectPage ⟨1, 0⟩).state k =
            .array ([Elem.ref ⟨5, 0⟩, Elem.ref ⟨6, 0⟩] ++ [Elem.ref ⟨1, 0⟩]))) :=
  ⟨(toFront_toBack_contents lonePage ⟨1, 0⟩ (.elem (.ref ⟨5, 0⟩)) rfl rfl rfl).1
      (Elem.ref ⟨5, 0⟩) rfl rfl,
   (toFront_toBack_contents indirectPage ⟨1, 0⟩ (.elem (.ref ⟨9, 0⟩)) rfl rfl rfl).2
      [Elem.ref ⟨5, 0⟩, Elem.ref ⟨6, 0⟩] rfl⟩

/-! ## remove (rf) and remove (cs) -/

/-- On an array of references the loop of `remove (rf)` finds nothing when
`rf` is not in the array, and otherwise the index of its first occurrence;
deleting at that index deletes the first occurrence. -/
theorem findRef_spec (rf : IndiRef) :
    ∀ (a : List Elem) (start : Nat), (∀ e ∈ a, ∃ r, e = Elem.ref r) →
      (findRef rf a start = .ok none ∧ Elem.ref rf ∉ a) ∨
      ∃ i, findRef rf a start = .ok (some (start + i)) ∧ a[i]? = some (Elem.ref rf) ∧
        (∀ j, j < i → a[j]? ≠ some (Elem.ref rf)) ∧ a.eraseIdx i = a.erase (Elem.ref rf) := by
  intro a
  induction a with
  | nil =>
    intro start _
    exact Or.inl ⟨rfl, by simp⟩
  | cons e a ih =>
    intro start hrefs
    obtain ⟨r, hr⟩ := hrefs e (by simp)
    subst hr
    by_cases heq : r = rf
    · subst heq
      refine Or.inr ⟨0, ?_, by simp, ?_, by simp⟩
      · simp [findRef]
      · intro j hj; omega
    · have hne : ¬ (Elem.ref r == Elem.ref rf) = true := by simpa using heq
      have hstep : findRef rf (Elem.ref r :: a) start = findRef rf a (start + 1) := by
        simp [findRef, heq]
      rcases ih (start + 1) (fun e he => hrefs e (by simp [he])) with ⟨h1, h2⟩ | ⟨i, h1, h2, h3, h4⟩
      · refine Or.inl ⟨by rw [hstep, h1], ?_⟩
        intro hmem
        rcases List.mem_cons.mp hmem with h | h
        · injection h with h; exact heq h.symm
        · exact h2 h
      · refine Or.inr ⟨i + 1, ?_, by simpa using h2, ?_, ?_⟩
        · rw [hstep, h1]
          congr 2
          omega
        · intro j hj
          cases j with
          | zero =>
            simp only [List.getElem?_cons_zero, ne_eq, Option.some.injEq, Elem.ref.injEq]
            exact heq
          | succ j =>
            simp only [List.getElem?_cons_succ]
            exact h3 j (by omega)
        · rw [List.eraseIdx_cons_succ, h4, List.erase_cons_tail (by simpa using heq)]

/-- The call `remove (rf)` when the Contents entry resolves to an array of
references: it returns normally and the entry then resolves to the array
without the first occurrence of `rf`. -/
theorem removeRf_array (s : State) (rf : IndiRef) (content : Entry) (a : List Elem)
    (hdict : s._dict = true) (hc : s.contents = some content)
    (hr : getReferencedObject s content = .array a)
    (hrefs : ∀ e ∈ a, ∃ r, e = Elem.ref r) :
    (removeRf s rf).fault = none ∧ (removeRf s rf).state._dict = true ∧
      ∃ k, (removeRf s rf).state.contents = some k ∧
        getReferencedObject (removeRf s rf).state k = .array (a.erase (Elem.ref rf)) := by
  rcases findRef_spec rf a 0 hrefs with ⟨h1, h2⟩ | ⟨i, h1, _, _, h4⟩
  · have h : removeRf s rf = .ret s := by
      unfold removeRf
      simp [hdict, hc, hr, isStream, h1]
    rw [h, List.erase_of_not_mem h2]
    exact ⟨rfl, hdict, content, hc, hr⟩
  · have h : removeRf s rf = .ret (setContentsArray s content (a.eraseIdx i)) := by
      unfold removeRf
      simp [hdict, hc, hr, isStream, h1]
    rw [h, ← h4]
    obtain ⟨k, hk1, hk2⟩ := setContentsArray_resolves s content a (a.eraseIdx i) hc hr
    exact ⟨rfl, by simp [Outcome.ret, setContentsArray_dict, hdict], k, hk1, hk2⟩

/-- C14. The call `remove (rf)` on a bound manager whose Contents entry is
`content`: when the entry resolves to an array of references that holds `rf`,
it returns normally and the entry then resolves to that array with exactly one
element deleted, the first one equal to `rf`, the others keeping their order;
when the entry resolves to a lone stream, it is replaced by the empty array;
when it resolves to neither, the type error is thrown and nothing changes. -/
theorem removeRf_contents (s : State) (rf : IndiRef) (content : Entry)
    (hdict : s._dict = true) (hc : s.contents = some content) :
    (∀ a : List Elem, getReferencedObject s content = .array a →
        (∀ e ∈ a, ∃ r, e = Elem.ref r) → Elem.ref rf ∈ a →
        (removeRf s rf).fault = none ∧
        ∃ i k, a[i]? = some (Elem.ref rf) ∧ (∀ j, j < i → a[j]? ≠ some (Elem.ref rf)) ∧
          (removeRf s rf).state.contents = some k ∧
          getReferencedObject (removeRf s rf).state k = .array (a.eraseIdx i)) ∧
      (isStream (getReferencedObject s content) = true →
        removeRf s rf = .ret { s with contents := some (.array []) }) ∧
      (isStream (getReferencedObject s content) = false →
        isArray (getReferencedObject s content) = false →
        removeRf s rf =
          ⟨some (.thrown (.ElementBadTypeException "Bad content stream type.")), s⟩) := by
  refine ⟨?_, ?_, ?_⟩
  · intro a hr hrefs hmem
    rcases findRef_spec rf a 0 hrefs with ⟨_, h2⟩ | ⟨i, h1, h2, h3, _⟩
    · exact absurd hmem h2
    · have h : removeRf s rf = .ret (setContentsArray s content (a.eraseIdx i)) := by
        unfold removeRf
        simp [hdict, hc, hr, isStream, h1]
      rw [h]
      obtain ⟨k, hk1, hk2⟩ := setContentsArray_resolves s content a (a.eraseIdx i) hc hr
      exact ⟨rfl, i, k, h2, h3, hk1, hk2⟩
  · intro hs
    unfold removeRf
    simp [hdict, hc, hs]
  · intro hs ha
    unfold removeRf
    simp only [hdict, hc, hs, Bool.not_true, Bool.false_eq_true, if_false]
    cases hr : getReferencedObject s content with
    | elem e => rfl
    | array a => rw [hr] at ha; cases ha

/-- C14 on the page whose Contents entry is `[5 0 R 6 0 R 7 0 R]`, removing
`6 0 R`. -/
theorem removeRf_contents_witness :
    (removeRf threePage ⟨6, 0⟩).fault = none ∧
      ∃ i k, [Elem.ref ⟨5, 0⟩, Elem.ref ⟨6, 0⟩, Elem.ref ⟨7, 0⟩][i]? = some (Elem.ref ⟨6, 0⟩) ∧
        (∀ j, j < i →
          [Elem.ref ⟨5, 0⟩, Elem.ref ⟨6, 0⟩, Elem.ref ⟨7, 0⟩][j]? ≠ some (Elem.ref ⟨6, 0⟩)) ∧
        (removeRf threePage ⟨6, 0⟩).state.contents = some k ∧
        getReferencedObject (removeRf threePage ⟨6, 0⟩).state k =
          .array ([Elem.ref ⟨5, 0⟩, Elem.ref ⟨6, 0⟩, Elem.ref ⟨7, 0⟩].eraseIdx i) :=
  (removeRf_contents threePage ⟨6, 0⟩
      (.array [Elem.ref ⟨5, 0⟩, Elem.ref ⟨6, 0⟩, Elem.ref ⟨7, 0⟩]) rfl rfl).1
    [Elem.ref ⟨5, 0⟩, Elem.ref ⟨6, 0⟩, Elem.ref ⟨7, 0⟩] rfl
    (by
      intro e he
      simp only [List.mem_cons, List.mem_singleton, List.not_mem_nil, or_false] at he
      rcases he with h | h | h
      · exact ⟨_, h⟩
      · exact ⟨_, h⟩
      · exact ⟨_, h⟩)
    (by decide)

/-- The loop of `remove (cs)` on an array of references: every backing stream
that is valid has the first occurrence of its reference deleted, one after the
other. -/
theorem removeCsLoop_array (env : Env) :
    ∀ (l : List CStream) (s : State) (content : Entry) (a : List Elem),
      s._dict = true → s.contents = some content →
      getReferencedObject s content = .array a → (∀ e ∈ a, ∃ r, e = Elem.ref r) →
      (∀ st ∈ l, st.hasValidPdf = true ∧ st.hasValidRef = true) →
      (removeCsLoop env l s).fault = none ∧ (removeCsLoop env l s).state._dict = true ∧
        ∃ k, (removeCsLoop env l s).state.contents = some k ∧
          getReferencedObject (removeCsLoop env l s).state k =
            .array (l.foldl (fun arr st => arr.erase (Elem.ref st.indiRef)) a) := by
  intro l
  induction l with
  | nil =>
    intro s content a hdict hc hr _ _
    exact ⟨rfl, hdict, content, hc, hr⟩
  | cons it rest ih =>
    intro s content a hdict hc hr hrefs hvalid
    obtain ⟨hv1, hv2⟩ := hvalid it (by simp)
    obtain ⟨hf, hd, k, hk1, hk2⟩ := removeRf_array s it.indiRef content a hdict hc hr hrefs
    have hstep : removeCsLoop env (it :: rest) s =
        removeCsLoop env rest (removeRf s it.indiRef).state := by
      simp only [removeCsLoop, hv1, hv2, Bool.not_true, Bool.and_false, Bool.or_self,
        Bool.false_eq_true, if_false]
      exact andThen_of_ok _ _ hf
    rw [hstep, List.foldl_cons]
    exact ih _ k _ hd hk1 hk2 (fun e he => hrefs e (List.mem_of_mem_erase he))
      (fun st hst => hvalid st (by simp [hst]))

/-- C15 (counterexample). On the page with three content streams,
`remove (cs)` for the second one returns normally and takes `6 0 R` out of the
Contents entry, but the content stream is still in the cached list, which is
unchanged, whereas `remove (1)` erases it from the cached list. -/
theorem removeCs_keeps_cached :
    (removeCs (plainEnv true) threePage ⟨1, [streamAt 6]⟩).fault = none ∧
      (removeCs (plainEnv true) threePage ⟨1, [streamAt 6]⟩).state.contents =
        some (.array [Elem.ref ⟨5, 0⟩, Elem.ref ⟨7, 0⟩]) ∧
      (⟨1, [streamAt 6]⟩ : CContentStream) ∈
        (removeCs (plainEnv true) threePage ⟨1, [streamAt 6]⟩).state._ccs ∧
      (removeCs (plainEnv true) threePage ⟨1, [streamAt 6]⟩).state._ccs ≠
        (remove (plainEnv true) threePage 1).state._ccs := by
  refine ⟨rfl, rfl, ?_, ?_⟩
  · have h : (removeCs (plainEnv true) threePage ⟨1, [streamAt 6]⟩).state._ccs =
        [⟨0, [streamAt 5]⟩, ⟨1, [streamAt 6]⟩, ⟨2, [streamAt 7]⟩] := rfl
    rw [h]
    simp
  · have h1 : (removeCs (plainEnv true) threePage ⟨1, [streamAt 6]⟩).state._ccs =
        [⟨0, [streamAt 5]⟩, ⟨1, [streamAt 6]⟩, ⟨2, [streamAt 7]⟩] := rfl
    have h2 : (remove (plainEnv true) threePage 1).state._ccs =
        [⟨0, [streamAt 5]⟩, ⟨2, [streamAt 7]⟩] := rfl
    rw [h1, h2]
    intro h
    have := congrArg List.length h
    simp at this

/-! ## setContents, moveAbove and moveBelow -/

theorem mem_getAllCStreams (st : CStream) :
    ∀ l : List CContentStream, st ∈ getAllCStreams l ↔ ∃ cc ∈ l, st ∈ cc.cstreams := by
  intro l
  induction l with
  | nil => simp [getAllCStreams]
  | cons c l ih => simp [getAllCStreams, ih]

theorem cc_add_back_array (s : State) (ref : IndiRef) (a : List Elem)
    (hdict : s._dict = true) (hc : s.contents = some (.array a)) :
    cc_add .BACK s ref = .ret { s with contents := some (.array (a ++ [Elem.ref ref])) } := by
  rw [cc_add_array .BACK s ref (.array a) a hdict hc rfl]
  simp [setContentsArray, addToArray, List.insertIdx_length_self]

theorem setContentsLoop_array (env : Env) :
    ∀ (l : List CStream) (s : State) (a : List Elem), s._dict = true →
      s.contents = some (.array a) →
      (∀ st ∈ l, st.hasValidPdf = true ∧ st.hasValidRef = true) →
      setContentsLoop env l s =
        .ret { s with contents := some (.array (a ++ l.map (fun st => Elem.ref st.indiRef))) } := by
  intro l
  induction l with
  | nil =>
    intro s a _ hc _
    simp only [setContentsLoop, List.map_nil, List.append_nil, ← hc]
  | cons it rest ih =>
    intro s a hdict hc hvalid
    obtain ⟨hv1, hv2⟩ := hvalid it (by simp)
    simp only [setContentsLoop, hv1, hv2, Bool.not_true, Bool.and_false, Bool.or_self,
      Bool.false_eq_true, if_false]
    rw [cc_add_back_array s it.indiRef a hdict hc, andThen_of_ok _ _ rfl]
    simp only [Outcome.ret]
    rw [ih { s with contents := some (.array (a ++ [Elem.ref it.indiRef])) }
      (a ++ [Elem.ref it.indiRef]) hdict rfl (fun st hst => hvalid st (by simp [hst]))]
    simp [Outcome.ret]

/-- The method `setContents` on valid backing streams: the Contents entry
afterwards is the array of their references, in order, and is absent when
there is no backing stream. -/
theorem setContents_spec (env : Env) (s : State) (cont : List CContentStream)
    (hdict : s._dict = true)
    (hvalid : ∀ st ∈ getAllCStreams cont, st.hasValidPdf = true ∧ st.hasValidRef = true) :
    setContents env s cont =
      .ret { s with contents :=
        (if getAllCStreams cont = [] then none
         else some (.array ((getAllCStreams cont).map (fun st => Elem.ref st.indiRef)))) } := by
  have hs1 : (if s.contents.isSome = true then { s with contents := none } else s) =
      { s with contents := none } := by
    cases hc : s.contents with
    | none =>
      simp only [Option.isSome_none, Bool.false_eq_true, if_false]
      cases s
      simp_all
    | some c => simp
  unfold setContents
  rw [if_neg (by simp [hdict])]
  show setContentsLoop env (getAllCStreams cont)
    (if s.contents.isSome = true then { s with contents := none } else s) = _
  rw [hs1]
  cases hl : getAllCStreams cont with
  | nil => simp [setContentsLoop]
  | cons it rest =>
    rw [hl] at hvalid
    obtain ⟨hv1, hv2⟩ := hvalid it (by simp)
    simp only [setContentsLoop, hv1, hv2, Bool.not_true, Bool.and_false, Bool.or_self,
      Bool.false_eq_true, if_false]
    have hadd : cc_add .BACK { s with contents := none } it.indiRef =
        .ret { s with contents := some (.array ([] ++ [Elem.ref it.indiRef])) } := by
      unfold cc_add
      simp [hdict]
    rw [hadd, andThen_of_ok _ _ rfl]
    simp only [Outcome.ret]
    rw [setContentsLoop_array env rest
      { s with contents := some (.array ([] ++ [Elem.ref it.indiRef])) }
      ([] ++ [Elem.ref it.indiRef]) hdict rfl (fun st hst => hvalid st (by simp [hst]))]
    simp [Outcome.ret]

theorem eraseIdx_after (pre : List CContentStream) (c nxt : CContentStream)
    (post : List CContentStream) :
    (pre ++ c :: nxt :: post).eraseIdx (pre.length + 1) = pre ++ c :: post := by
  induction pre with
  | nil => rfl
  | cons p pre ih => simpa using ih

theorem insertIdx_at (pre : List CContentStream) (x : CContentStream)
    (rest : List CContentStream) :
    (pre ++ rest).insertIdx pre.length x = pre ++ x :: rest := by
  induction pre with
  | nil => simp [List.insertIdx_zero]
  | cons p pre ih => simp [List.insertIdx] at ih ⊢; exact ih

theorem set_swap (pre : List CContentStream) (before c : CContentStream)
    (post : List CContentStream) :
    ((pre ++ before :: c :: post).set (pre.length + 1) before).set (pre.length + 1 - 1) c =
      pre ++ c :: before :: post := by
  induction pre with
  | nil => rfl
  | cons p pre ih => simp

/-- What the common tail of `moveAbove` and `moveBelow` does once the cached
list is reordered: the Contents entry is rebuilt from the cached list. -/
theorem section_setContents (env : Env) (s : State)
    (hdict : s._dict = true) (hpage : s._page = true)
    (hvalid : ∀ st ∈ getAllCStreams s._ccs, st.hasValidPdf = true ∧ st.hasValidRef = true) :
    ((observerFreeSection s (fun s2 => setContents env s2 s2._ccs)).andThen
        (fun s2 => change s2 false)).fault = none ∧
      ((observerFreeSection s (fun s2 => setContents env s2 s2._ccs)).andThen
        (fun s2 => change s2 false)).state._ccs = s._ccs ∧
      ((observerFreeSection s (fun s2 => setContents env s2 s2._ccs)).andThen
        (fun s2 => change s2 false)).state.contents =
        (if getAllCStreams s._ccs = [] then none
         else some (.array ((getAllCStreams s._ccs).map (fun st => Elem.ref st.indiRef)))) := by
  have hset := setContents_spec env (unreg_observer s none) (unreg_observer s none)._ccs
    (by simp [hdict]) (by simpa using hvalid)
  have hf : (observerFreeSection s (fun s2 => setContents env s2 s2._ccs)).fault = none := by
    simp only [observerFreeSection_fault, hset]
    rfl
  have hp : (observerFreeSection s (fun s2 => setContents env s2 s2._ccs)).state._page = true := by
    simp only [observerFreeSection_state, reg_observer_page, hset, Outcome.ret]
    simp [hpage]
  rw [andThen_of_ok _ _ hf, change_of_page _ _ hp]
  refine ⟨rfl, ?_, ?_⟩
  · simp only [Outcome.ret, observerFreeSection_state, reg_observer_ccs, hset]
    simp
  · simp only [Outcome.ret, observerFreeSection_state, reg_observer_contents, hset]
    simp

/-! ## Text of a content stream -/

theorem foldl_append_flatten {α : Type} (f : α → Str) :
    ∀ (l : List α) (init : Str),
      l.foldl (fun str x => str ++ f x) init = init ++ (l.map f).flatten := by
  intro l
  induction l with
  | nil => intro init; simp
  | cons x l ih => intro init; simp [ih, List.append_assoc]

/-- C25. The method `getStringRepresentation` sets its output to the
concatenation, in sequence order, of the text of each operator followed by one
newline (byte 10); what the output string held before does not matter, and an
empty operator sequence gives the empty string. -/
theorem getStringRepresentation_eq (opText : PdfOperator → Str)
    (operators : List PdfOperator) (str : Str) :
    getStringRepresentation opText operators str =
        (operators.map (fun op => opText op ++ [10])).flatten ∧
      getStringRepresentation opText operators str =
        getStringRepresentation opText operators [] ∧
      getStringRepresentation opText [] str = [] := by
  refine ⟨?_, rfl, rfl⟩
  unfold getStringRepresentation
  rw [foldl_append_flatten (fun op => opText op ++ [10])]
  simp

/-! ## The table -/

/-- C28. The table `KNOWN_OPERATORS` is strictly increasing by name: for every
two rows, the earlier one has the smaller name, both under `compare` (the
order `std::string::compare` gives) and under the lexicographic order of byte
lists; so no name occurs twice. -/
theorem KNOWN_OPERATORS_strictly_increasing :
    KNOWN_OPERATORS.Pairwise (fun a b => compare a.name b.name < 0) ∧
      KNOWN_OPERATORS.Pairwise (fun a b => a.name < b.name) ∧
      (KNOWN_OPERATORS.map (fun e => e.name)).Nodup := by
  refine ⟨by decide, by decide, by decide⟩

/-- C29 (failing input). Row 0 of the table, the one with the signature
number, number, string, is registered under the empty name; the name of the
instruction whose signature that is, the one byte 34, is in no row, so
`createOp` builds an unknown operator for it from whatever operands are
pending, without any check. -/
theorem quote_operator_unknown : ∀ ndebug : Bool,
    KNOWN_OPERATORS[0]? = some ⟨[], 3, initTypes [num, num, setNthBitsShort pString]⟩ ∧
      (∀ e ∈ KNOWN_OPERATORS, e.name ≠ [34]) ∧
      createOp ndebug [34] [⟨pName, cstr "/x", none, none⟩] 7 ⟨3, 0⟩ =
        .ok (⟨.UnknownPdfOperator, [34], [⟨pName, cstr "/x", some 7, some ⟨3, 0⟩⟩], none, none⟩,
          []) := by
  intro ndebug
  refine ⟨rfl, by decide, ?_⟩
  cases ndebug <;> rfl

/-! ## The operator sequence a parse builds -/

theorem createOp_result (ndebug : Bool) (name : Str) (operands : Operands) (pdf : CPdf)
    (rf : IndiRef) (op : PdfOperator) (left : Operands)
    (h : createOp ndebug name operands pdf rf = .ok (op, left)) :
    op.name = name ∧ op.prev = none ∧ op.next = none := by
  obtain ⟨lo, cmp, hrun, hres⟩ := search_spec name
  rcases hres with ⟨_, k, _, e, he, hname⟩ | ⟨_, hnone⟩
  · subst hname
    rw [createOp_of_known ndebug e operands pdf rf (List.mem_iff_getElem?.mpr ⟨k, he⟩)] at h
    cases hc : check ndebug e operands with
    | error f => rw [hc] at h; cases h
    | ok b =>
      rw [hc] at h
      cases b with
      | false => cases h
      | true =>
        simp only [SimpleGenericOperator, Except.ok.injEq, Prod.mk.injEq] at h
        obtain ⟨h1, _⟩ := h
        subst h1
        exact ⟨rfl, rfl, rfl⟩
  · rw [createOp_of_unknown ndebug name operands pdf rf hnone] at h
    simp only [UnknownPdfOperator, Except.ok.injEq, Prod.mk.injEq] at h
    obtain ⟨h1, _⟩ := h
    subst h1
    exact ⟨rfl, rfl, rfl⟩

/-- What `pushBack` builds: the operator alone on an empty sequence, else the
old sequence with the `next` of its last operator set and the new operator
with its `prev` set. -/
theorem pushBack_eq (operators : List PdfOperator) (op : PdfOperator) :
    (operators = [] ∧ pushBack operators op = [op]) ∨
      ∃ init back, operators = init ++ [back] ∧
        pushBack operators op =
          init ++ [{ back with next := some operators.length },
                   { op with prev := some (operators.length - 1) }] := by
  cases hl : operators.getLast? with
  | none =>
    left
    have hnil : operators = [] := List.getLast?_eq_none_iff.mp hl
    subst hnil
    exact ⟨rfl, rfl⟩
  | some back =>
    right
    have hsplit : operators.dropLast ++ [back] = operators :=
      List.dropLast_append_getLast? back (by simp [hl])
    refine ⟨operators.dropLast, back, hsplit.symm, ?_⟩
    unfold pushBack
    rw [hl]

theorem pushBack_names (operators : List PdfOperator) (op : PdfOperator) :
    (pushBack operators op).map (fun o => o.name) =
      operators.map (fun o => o.name) ++ [op.name] := by
  rcases pushBack_eq operators op with ⟨h1, h2⟩ | ⟨init, back, h1, h2⟩
  · rw [h2, h1]; rfl
  · rw [h2]
    conv_rhs => rw [h1]
    simp

theorem pushBack_linked (operators : List PdfOperator) (op : PdfOperator)
    (hl : Linked operators) (hprev : op.prev = none) (hnext : op.next = none) :
    Linked (pushBack operators op) := by
  rcases pushBack_eq operators op with ⟨h1, h2⟩ | ⟨init, back, h1, h2⟩
  · rw [h2]
    intro i o hi
    cases i with
    | zero =>
      simp only [List.getElem?_cons_zero, Option.some.injEq] at hi
      subst hi
      simp [hprev, hnext]
    | succ i => simp at hi
  · have hlen : operators.length = init.length + 1 := by rw [h1]; simp
    rw [h2]
    intro i o hi
    by_cases hlt : i < init.length
    · rw [List.getElem?_append_left hlt] at hi
      have hold : operators[i]? = some o := by
        rw [h1, List.getElem?_append_left hlt]; exact hi
      obtain ⟨p1, p2⟩ := hl i o hold
      refine ⟨p1, ?_⟩
      rw [p2]
      simp only [List.length_append, List.length_cons, List.length_nil, hlen]
      split_ifs <;> first | rfl | contradiction | omega
    · rw [List.getElem?_append_right (by omega)] at hi
      by_cases heq : i = init.length
      · subst heq
        simp only [Nat.sub_self, List.getElem?_cons_zero, Option.some.injEq] at hi
        subst hi
        have hold : operators[init.length]? = some back := by
          rw [h1, List.getElem?_append_right (by omega)]; simp
        obtain ⟨p1, _⟩ := hl init.length back hold
        refine ⟨p1, ?_⟩
        simp only [List.length_append, List.length_cons, List.length_nil, hlen]
        split_ifs <;> first | rfl | contradiction | omega
      · by_cases heq2 : i = init.length + 1
        · subst heq2
          have hsub : init.length + 1 - init.length = 1 := by omega
          rw [hsub] at hi
          simp only [List.getElem?_cons_succ, List.getElem?_cons_zero, Option.some.injEq] at hi
          subst hi
          simp only [List.length_append, List.length_cons, List.length_nil, hlen, hnext]
          constructor
          · split_ifs <;> first | rfl | contradiction
          · split_ifs <;> rfl
        · have h3 : i - init.length = (i - init.length - 2) + 2 := by omega
          rw [h3] at hi
          simp at hi

/-- The loop of `parseContentStream` never sets `cmplex` and puts nothing
behind a complex operator; it appends one operator per instruction name, of
that name, and keeps the links in step with the positions. -/
theorem parseLoop_sequence (ndebug : Bool) (pdf : CPdf) (rf : IndiRef) :
    ∀ (objs : List Object) (st st1 : ParseState), st.cmplex = none →
      parseLoop ndebug pdf rf objs st = .ok st1 →
      st1.cmplex = none ∧ st1.behind = st.behind ∧
        st1.operators.map (fun o => o.name) =
          st.operators.map (fun o => o.name) ++ cmdNames objs ∧
        (Linked st.operators → Linked st1.operators) := by
  intro objs
  induction objs with
  | nil =>
    intro st st1 hc h
    simp only [parseLoop, Except.ok.injEq] at h
    subst h
    exact ⟨hc, rfl, by simp [cmdNames], fun hl => hl⟩
  | cons x objs ih =>
    intro st st1 hc h
    cases x with
    | value type value =>
      simp only [parseLoop] at h
      obtain ⟨h1, h2, h3, h4⟩ := ih _ st1 (by first | rfl | exact hc) h
      exact ⟨h1, h2, by simpa [cmdNames] using h3, h4⟩
    | cmd name =>
      simp only [parseLoop] at h
      cases hcr : createOp ndebug name st.operands pdf rf with
      | error f => rw [hcr] at h; cases h
      | ok r =>
        obtain ⟨op, left⟩ := r
        obtain ⟨hname, hprev, hnext⟩ := createOp_result ndebug name _ pdf rf op left hcr
        rw [hcr] at h
        simp only [hc, true_or, if_true] at h
        split_ifs at h
        obtain ⟨h1, h2, h3, h4⟩ := ih _ st1 rfl h
        refine ⟨h1, h2, ?_, ?_⟩
        · rw [h3]
          simp only [pushBack_names, hname, cmdNames, List.append_assoc, List.singleton_append]
        · intro hl
          exact h4 (pushBack_linked _ _ hl hprev hnext)

/-- C26. On the stream `/Tag BMC q Q EMC`, which holds the composite start
instruction `BMC` and later its end instruction `EMC`, the parse returns
normally with four top-level operators `BMC`, `q`, `Q`, `EMC`: the operators
between start and end are members of the top-level sequence, nothing was put
behind the start node, and the start node is not the single top-level entry
of the block. -/
theorem composite_not_nested : ∀ ndebug : Bool,
    ∃ st, parseContentStream ndebug []
        ⟨true, false, [.value pName (cstr "/Tag"), .cmd (cstr "BMC"), .cmd (cstr "q"),
          .cmd (cstr "Q"), .cmd (cstr "EMC")]⟩ 7 ⟨3, 0⟩ = .ok st ∧
      st.operators.map (fun o => o.name) = [cstr "BMC", cstr "q", cstr "Q", cstr "EMC"] ∧
      st.behind = [] ∧ st.operators.length ≠ 1 := by
  intro ndebug
  cases ndebug
  · exact ⟨_, rfl, rfl, rfl, by decide⟩
  · exact ⟨_, rfl, rfl, rfl, by decide⟩

/-- In every parse that returns normally no operator is put behind a start
node and `cmplex` stays null: every instruction name of the stream, composite
start and end instructions included, gives one member of the top-level
sequence, in stream order. -/
theorem parse_is_flat (ndebug : Bool) (operators : List PdfOperator) (obj : XpdfObject)
    (pdf : CPdf) (rf : IndiRef) (st : ParseState)
    (h : parseContentStream ndebug operators obj pdf rf = .ok st) :
    st.behind = [] ∧ st.cmplex = none ∧
      st.operators.map (fun o => o.name) =
        operators.map (fun o => o.name) ++ cmdNames obj.objs := by
  unfold parseContentStream at h
  split_ifs at h
  obtain ⟨h1, h2, h3, _⟩ := parseLoop_sequence ndebug pdf rf obj.objs _ st rfl h
  exact ⟨h2, h1, h3⟩

theorem linked_nil : Linked [] := by
  intro i o hi
  simp at hi

theorem followNext_linked (operators : List PdfOperator) (hl : Linked operators) :
    ∀ (n i steps : Nat), i + n = operators.length → 0 < n → n ≤ steps →
      followNext operators steps (some i) = List.range' i n := by
  intro n
  induction n with
  | zero => intro i steps _ h; omega
  | succ n ih =>
    intro i steps hlen _ hsteps
    obtain ⟨steps, rfl⟩ : ∃ k, steps = k + 1 := ⟨steps - 1, by omega⟩
    have hi : i < operators.length := by omega
    obtain ⟨_, hnext⟩ := hl i operators[i] (List.getElem?_eq_getElem hi)
    simp only [followNext, List.getElem?_eq_getElem hi, Option.some_bind, hnext,
      List.range'_succ]
    by_cases hlast : i + 1 = operators.length
    · have hn : n = 0 := by omega
      subst hn
      rw [if_pos hlast]
      cases steps <;> simp [followNext]
    · rw [if_neg hlast, ih (i + 1) steps (by omega) (by omega) (by omega)]

/-- C27. After every parse of a stream that returns normally, starting from an
empty operator sequence, with the top-level operators `o_0 .. o_(k-1)`: the
operator at position `i` has its `prev` link at position `i - 1` (null for
`o_0`) and its `next` link at position `i + 1` (null for `o_(k-1)`); so `next`
leads from `i` to `j` exactly when `prev` leads from `j` to `i`, and following
`next` from `o_0` visits the positions `0, 1, .., k-1`, each once, and then
stops. -/
theorem parse_links (ndebug : Bool) (obj : XpdfObject) (pdf : CPdf) (rf : IndiRef)
    (st : ParseState) (h : parseContentStream ndebug [] obj pdf rf = .ok st) :
    (∀ (i : Nat) (o : PdfOperator), st.operators[i]? = some o →
        o.prev = (if i = 0 then none else some (i - 1)) ∧
        o.next = (if i + 1 = st.operators.length then none else some (i + 1))) ∧
      (∀ (i j : Nat) (a b : PdfOperator), st.operators[i]? = some a →
        st.operators[j]? = some b → (a.next = some j ↔ b.prev = some i)) ∧
      followNext st.operators (st.operators.length + 1)
          (if st.operators = [] then none else some 0) =
        List.range st.operators.length := by
  have hl : Linked st.operators := by
    unfold parseContentStream at h
    split_ifs at h
    exact (parseLoop_sequence ndebug pdf rf obj.objs _ st rfl h).2.2.2 linked_nil
  refine ⟨hl, ?_, ?_⟩
  · intro i j a b ha hb
    obtain ⟨_, hnext⟩ := hl i a ha
    obtain ⟨hprev, _⟩ := hl j b hb
    have hj : j < st.operators.length := (List.getElem?_eq_some.mp hb).1
    rw [hnext, hprev]
    constructor
    · intro hn
      split_ifs at hn with h1
      injection hn with hn
      subst hn
      simp
    · intro hp
      split_ifs at hp with h1
      injection hp with hp
      have hij : j = i + 1 := by omega
      subst hij
      rw [if_neg (by omega)]
  · cases hops : st.operators with
    | nil => rfl
    | cons o rest =>
      rw [← hops]
      rw [if_neg (by rw [hops]; simp)]
      rw [followNext_linked st.operators hl st.operators.length 0 (st.operators.length + 1)
        (by omega) (by rw [hops]; simp) (by omega)]
      rw [List.range_eq_range']

/-- C27 on the stream `q foo Q`. -/
theorem parse_links_witness :
    (∀ (i : Nat) (o : PdfOperator),
        (ParseState.mk
          [⟨.SimpleGenericOperator, cstr "q", [], none, some 1⟩,
            ⟨.UnknownPdfOperator, cstr "foo", [], some 0, some 2⟩,
            ⟨.SimpleGenericOperator, cstr "Q", [], some 1, none⟩] [] none []).operators[i]? =
          some o →
        o.prev = (if i = 0 then none else some (i - 1)) ∧
        o.next = (if i + 1 = (ParseState.mk
          [⟨.SimpleGenericOperator, cstr "q", [], none, some 1⟩,
            ⟨.UnknownPdfOperator, cstr "foo", [], some 0, some 2⟩,
            ⟨.SimpleGenericOperator, cstr "Q", [], some 1, none⟩] [] none []).operators.length
          then none else some (i + 1))) ∧
      (∀ (i j : Nat) (a b : PdfOperator),
        (ParseState.mk
          [⟨.SimpleGenericOperator, cstr "q", [], none, some 1⟩,
            ⟨.UnknownPdfOperator, cstr "foo", [], some 0, some 2⟩,
            ⟨.SimpleGenericOperator, cstr "Q", [], some 1, none⟩] [] none []).operators[i]? =
          some a →
        (ParseState.mk
          [⟨.SimpleGenericOperator, cstr "q", [], none, some 1⟩,
            ⟨.UnknownPdfOperator, cstr "foo", [], some 0, some 2⟩,
            ⟨.SimpleGenericOperator, cstr "Q", [], some 1, none⟩] [] none []).operators[j]? =
          some b → (a.next = some j ↔ b.prev = some i)) ∧
      followNext (ParseState.mk
          [⟨.SimpleGenericOperator, cstr "q", [], none, some 1⟩,
            ⟨.UnknownPdfOperator, cstr "foo", [], some 0, some 2⟩,
            ⟨.SimpleGenericOperator, cstr "Q", [], some 1, none⟩] [] none []).operators
          ((ParseState.mk
          [⟨.SimpleGenericOperator, cstr "q", [], none, some 1⟩,
            ⟨.UnknownPdfOperator, cstr "foo", [], some 0, some 2⟩,
            ⟨.SimpleGenericOperator, cstr "Q", [], some 1, none⟩] [] none []).operators.length + 1)
          (if (ParseState.mk
          [⟨.SimpleGenericOperator, cstr "q", [], none, some 1⟩,
            ⟨.UnknownPdfOperator, cstr "foo", [], some 0, some 2⟩,
            ⟨.SimpleGenericOperator, cstr "Q", [], some 1, none⟩] [] none []).operators = []
            then none else some 0) =
        List.range (ParseState.mk
          [⟨.SimpleGenericOperator, cstr "q", [], none, some 1⟩,
            ⟨.UnknownPdfOperator, cstr "foo", [], some 0, some 2⟩,
            ⟨.SimpleGenericOperator, cstr "Q", [], some 1, none⟩] [] none []).operators.length :=
  parse_links true ⟨true, false, [.cmd (cstr "q"), .cmd (cstr "foo"), .cmd (cstr "Q")]⟩
    7 ⟨3, 0⟩ _ rfl

/-! ## Failures of a parse -/

@[simp] theorem change_page (s : State) (invalid : Bool) :
    (change s invalid).state._page = s._page := by
  unfold change; split <;> rfl

theorem parseStreamsLoop_page (env : Env) :
    ∀ (fuel : Nat) (streams : List CStream) (s : State),
      (parseStreamsLoop env fuel streams s).state._page = s._page := by
  intro fuel
  induction fuel with
  | zero =>
    intro streams s
    cases streams <;> rfl
  | succ fuel ih =>
    intro streams s
    cases streams with
    | nil => rfl
    | cons stream more =>
      simp only [parseStreamsLoop]
      cases hn : env.newCC (stream :: more) with
      | error f => rfl
      | ok n =>
        simp only []
        rw [ih]

theorem parseStreamsLoop_ids (env : Env) (k : Nat) :
    ∀ (fuel : Nat) (streams : List CStream) (s : State), k ≤ s.nextId →
      (∀ cc ∈ s._ccs, k ≤ cc.id) →
      ∀ cc ∈ (parseStreamsLoop env fuel streams s).state._ccs, k ≤ cc.id := by
  intro fuel
  induction fuel with
  | zero =>
    intro streams s _ hall
    cases streams <;> exact hall
  | succ fuel ih =>
    intro streams s hk hall
    cases streams with
    | nil => exact hall
    | cons stream more =>
      simp only [parseStreamsLoop]
      cases hn : env.newCC (stream :: more) with
      | error f => exact hall
      | ok n =>
        simp only []
        apply ih
        · show k ≤ s.nextId + 1
          omega
        · intro cc hcc
          simp only [List.mem_append, List.mem_singleton] at hcc
          rcases hcc with hcc | hcc
          · exact hall cc hcc
          · subst hcc
            exact hk

theorem parse_page (env : Env) (s : State) : (parse env s).state._page = s._page := by
  unfold parse
  split
  · rfl
  · split
    · rfl
    · simp only []
      split
      · rfl
      · split
        · rfl
        · split
          · rfl
          · rw [andThen_keeps (fun s => s._page) _ _ (fun s => change_page s false)]
            rw [parseStreamsLoop_page]

theorem parse_invalid_binding (env : Env) (s : State) (hdict : s._dict = true)
    (h : s.dictPdf.isNone = true ∨ s.dictHasValidRef = false) :
    parse env s = .throw .CObjInvalidObject s := by
  unfold parse
  rcases h with h | h <;> simp [hdict, h]

theorem parse_valid_binding (env : Env) (s : State) (hdict : s._dict = true)
    (hpage : s._page = true) (hpdf : s.dictPdf.isNone = false)
    (href : s.dictHasValidRef = true) :
    parse env s =
      if s.contents.isNone then .ret { s with _ccs := [] }
      else
        match collectStreams s with
        | .error e => .throw e { s with _ccs := [] }
        | .ok streams =>
          (parseStreamsLoop env streams.length streams { s with _ccs := [] }).andThen
            (fun s2 => change s2 false) := by
  unfold parse
  rw [if_neg (by simp [hdict]), if_neg (by simp [hpdf, href])]
  simp only []
  rw [if_neg (by simp [hpage])]
  rfl

/-- C21 (counterexample). On the page whose Contents entry is a name, and on
the page with three streams when building a content stream fails, `parse ()`
fails and the cached list, which held content streams before the call, is
empty afterwards. -/
theorem parse_failure_clears :
    (parse (plainEnv true) badPage).fault =
        some (.thrown (.ElementBadTypeException "Bad content stream type.")) ∧
      (parse (plainEnv true) badPage).state._ccs ≠ badPage._ccs ∧
      (parse (failingEnv true) threePage).fault =
        some (.thrown (.MalformedFormatExeption "Content stream bad operator type. ")) ∧
      (parse (failingEnv true) threePage).state._ccs ≠ threePage._ccs :=
  ⟨rfl, by decide, rfl, by decide⟩

/-- C21 (amended). A `parse ()` that fails on an invalid document binding
leaves the cached list as it was. With a valid binding the list is cleared
before anything else can fail: when the Contents entry has a bad type, or an
element is not a stream, the exception leaves the cached list empty; when
building the first content stream fails the list is empty as well; and in
every case the list after the call holds only content streams built by this
call (their identities are not below the counter at entry). -/
theorem parse_failure_cached (env : Env) (s : State) (hdict : s._dict = true)
    (hpage : s._page = true) :
    (s.dictPdf.isNone = true ∨ s.dictHasValidRef = false →
        parse env s = .throw .CObjInvalidObject s ∧ (parse env s).state._ccs = s._ccs) ∧
      (s.dictPdf.isNone = false → s.dictHasValidRef = true →
        (∀ e, collectStreams s = .error e →
          parse env s = .throw e { s with _ccs := [] }) ∧
        (∀ streams f, collectStreams s = .ok streams → streams ≠ [] →
          env.newCC streams = .error f → parse env s = ⟨some f, { s with _ccs := [] }⟩) ∧
        (∀ cc ∈ (parse env s).state._ccs, s.nextId ≤ cc.id)) := by
  refine ⟨fun h => ?_, fun hpdf href => ⟨?_, ?_, ?_⟩⟩
  · rw [parse_invalid_binding env s hdict h]
    exact ⟨rfl, rfl⟩
  · intro e he
    rw [parse_valid_binding env s hdict hpage hpdf href]
    cases hc : s.contents with
    | none => simp [collectStreams, hc] at he
    | some c => simp [he]
  · intro streams f hs hne hnew
    rw [parse_valid_binding env s hdict hpage hpdf href]
    cases hc : s.contents with
    | none =>
      simp only [collectStreams, hc, Except.ok.injEq] at hs
      exact absurd hs.symm hne
    | some c =>
      simp only [Option.isNone_some, Bool.false_eq_true, if_false, hs]
      cases streams with
      | nil => exact absurd rfl hne
      | cons stream more =>
        simp only [List.length_cons, parseStreamsLoop, hnew]
        rfl
  · rw [parse_valid_binding env s hdict hpage hpdf href]
    intro cc hcc
    split at hcc
    · simp [Outcome.ret] at hcc
    · split at hcc
      · simp [Outcome.throw] at hcc
      · rw [andThen_keeps (fun s => s._ccs) _ _ (fun s => change_ccs s false)] at hcc
        exact parseStreamsLoop_ids env s.nextId _ _ { s with _ccs := [] } (Nat.le_refl _)
          (by simp) cc hcc

/-- C21 (amended) on the page whose Contents entry is a name. -/
theorem parse_failure_cached_witness :
    parse (plainEnv true) badPage =
      .throw (.ElementBadTypeException "Bad content stream type.") { badPage with _ccs := [] } :=
  ((parse_failure_cached (plainEnv true) badPage rfl rfl).2 rfl rfl).1 _ rfl

/-! ## The watchdog -/

@[simp] theorem unreg_observer_dictPdf (s : State) (ip : Option Entry) :
    (unreg_observer s ip).dictPdf = s.dictPdf := by
  cases ip with
  | some p => rfl
  | none => cases hc : s.contents <;> simp [unreg_observer, hc]

@[simp] theorem unreg_observer_validRef (s : State) (ip : Option Entry) :
    (unreg_observer s ip).dictHasValidRef = s.dictHasValidRef := by
  cases ip with
  | some p => rfl
  | none => cases hc : s.contents <;> simp [unreg_observer, hc]

theorem tryParse_returns (env : Env) (s : State) (hpage : s._page = true) :
    (∀ e, (tryParse env s).fault ≠ some (.thrown e)) ∧
      (∀ e, (parse env s).fault = some (.thrown e) →
        tryParse env s = .ret { (parse env s).state with pageValid := false }) ∧
      ((parse env s).fault = none → tryParse env s = parse env s) := by
  have hp : (parse env s).state._page = true := by rw [parse_page, hpage]
  refine ⟨?_, ?_, ?_⟩
  · intro e
    unfold tryParse
    cases hf : (parse env s).fault with
    | none => simp [hf]
    | some f =>
      cases f with
      | thrown e1 => simp [invalidate, hp, Outcome.ret]
      | assertFailed c => simp [hf]
      | outOfBounds => simp [hf]
      | nullPointer => simp [hf]
      | outOfFuel => simp [hf]
  · intro e hf
    unfold tryParse
    simp [hf, invalidate, hp]
  · intro hf
    unfold tryParse
    simp [hf]

/-- C22 (counterexample). On the page whose dictionary lost its Contents entry
while three content streams are cached, the notification of the removal
returns normally, the observer is off the old entry, and the cached list is
empty: it is not what it was before the notification. -/
theorem notify_removed_clears :
    (notify (plainEnv true) deletedPage none
        (.dictComplex CONTENTS threePage.contents)).fault = none ∧
      (notify (plainEnv true) deletedPage none
        (.dictComplex CONTENTS threePage.contents)).state.observed = [Node.dict] ∧
      (notify (plainEnv true) deletedPage none
        (.dictComplex CONTENTS threePage.contents)).state._ccs ≠ deletedPage._ccs :=
  ⟨rfl, rfl, by decide⟩

/-- C22 (amended). When the watchdog is notified that the Contents entry was
removed from the page dictionary, it unregisters the observer from the old
entry and then runs `parse ()`: with a valid binding and the entry gone, the
call returns normally, the cached list is empty afterwards, and nothing else
changes (the page gets no change signal). -/
theorem notify_removed_reparses (env : Env) (s : State) (old : Option Entry)
    (hdict : s._dict = true) (hpage : s._page = true) (hpdf : s.dictPdf.isNone = false)
    (href : s.dictHasValidRef = true) (hcontents : s.contents = none) :
    notify env s none (.dictComplex CONTENTS old) =
        .ret { unreg_observer s old with _ccs := [] } ∧
      (notify env s none (.dictComplex CONTENTS old)).state._ccs = [] := by
  have hparse : parse env (unreg_observer s old) =
      .ret { unreg_observer s old with _ccs := [] } := by
    rw [parse_valid_binding env _ (by simp [hdict]) (by simp [hpage]) (by simp [hpdf])
      (by simp [href])]
    simp [hcontents]
  have h : notify env s none (.dictComplex CONTENTS old) =
      .ret { unreg_observer s old with _ccs := [] } := by
    simp only [notify, ne_eq, not_true_eq_false, if_false]
    rw [(tryParse_returns env _ (by simp [hpage])).2.2 (by rw [hparse]; rfl), hparse]
  rw [h]
  exact ⟨rfl, rfl⟩

/-- C22 (amended) on the page that lost its Contents entry. -/
theorem notify_removed_reparses_witness :
    notify (plainEnv true) deletedPage none (.dictComplex CONTENTS threePage.contents) =
        .ret { unreg_observer deletedPage threePage.contents with _ccs := [] } ∧
      (notify (plainEnv true) deletedPage none
        (.dictComplex CONTENTS threePage.contents)).state._ccs = [] :=
  notify_removed_reparses (plainEnv true) deletedPage threePage.contents rfl rfl rfl rfl rfl

/-- C23. For every notification delivered to the watchdog of a page contents
object with its page set: no exception leaves `notify`; and whenever the
`parse ()` it triggers raises an exception (in the basic and the array
context and, with assertions compiled out, in any other context, on the state
as it is; in the dictionary context for Contents, on the state after the
observer was taken off the old entry or put on the new one), `notify` returns
normally and the page is marked invalid. -/
theorem notify_contains_exceptions (env : Env) (s : State) (hpage : s._page = true) :
    (∀ newValue context e, (notify env s newValue context).fault ≠ some (.thrown e)) ∧
      (∀ newValue context e, (parse env s).fault = some (.thrown e) →
        (context = .basic ∨ context = .arrayComplex ∨
          (env.ndebug = true ∧ (context = .otherComplex ∨ context = .unknownType))) →
        (notify env s newValue context).fault = none ∧
          (notify env s newValue context).state.pageValid = false) ∧
      (∀ old e, (parse env (unreg_observer s old)).fault = some (.thrown e) →
        (notify env s none (.dictComplex CONTENTS old)).fault = none ∧
          (notify env s none (.dictComplex CONTENTS old)).state.pageValid = false) ∧
      (∀ old added e, (parse env (reg_observer s (some added))).fault = some (.thrown e) →
        (notify env s (some added) (.dictComplex CONTENTS old)).fault = none ∧
          (notify env s (some added) (.dictComplex CONTENTS old)).state.pageValid = false) := by
  refine ⟨?_, ?_, ?_, ?_⟩
  · intro newValue context e
    cases context with
    | basic => exact (tryParse_returns env s hpage).1 e
    | arrayComplex => exact (tryParse_returns env s hpage).1 e
    | dictComplex valueId originalValue =>
      simp only [notify]
      split
      · simp [Outcome.ret]
      · cases newValue with
        | none => exact (tryParse_returns env _ (by simp [hpage])).1 e
        | some added => exact (tryParse_returns env _ (by simp [hpage])).1 e
    | otherComplex =>
      simp only [notify]
      split
      · simp
      · exact (tryParse_returns env s hpage).1 e
    | unknownType =>
      simp only [notify]
      split
      · simp
      · exact (tryParse_returns env s hpage).1 e
  · intro newValue context e hf hc
    have ht := (tryParse_returns env s hpage).2.1 e hf
    rcases hc with hc | hc | ⟨hn, hc | hc⟩ <;> subst hc
    · simp only [notify]; rw [ht]; exact ⟨rfl, rfl⟩
    · simp only [notify]; rw [ht]; exact ⟨rfl, rfl⟩
    · simp only [notify, hn]; rw [ht]; exact ⟨rfl, rfl⟩
    · simp only [notify, hn]; rw [ht]; exact ⟨rfl, rfl⟩
  · intro old e hf
    have ht := (tryParse_returns env _ (by simp [hpage])).2.1 e hf
    simp only [notify, ne_eq, not_true_eq_false, if_false]
    rw [ht]
    exact ⟨rfl, rfl⟩
  · intro old added e hf
    have ht := (tryParse_returns env _ (by simp [hpage])).2.1 e hf
    simp only [notify, ne_eq, not_true_eq_false, if_false]
    rw [ht]
    exact ⟨rfl, rfl⟩

/-- C23 on the page with three streams when building a content stream throws,
notified of a change of the Contents array. -/
theorem notify_contains_exceptions_witness :
    (notify (failingEnv true) threePage none .arrayComplex).fault = none ∧
      (notify (failingEnv true) threePage none .arrayComplex).state.pageValid = false :=
  (notify_contains_exceptions (failingEnv true) threePage rfl).2.1 none .arrayComplex
    (.MalformedFormatExeption "Content stream bad operator type. ") rfl (Or.inr (Or.inl rfl))

/-! ## Adding a stream when the content stream cannot be built -/

theorem checkLoop_kind (ndebug : Bool) (ops : CheckTypes) :
    ∀ (n : Nat) (j : Int) (it it2 : List IProperty),
      it.map (fun o => o.type) = it2.map (fun o => o.type) →
      checkLoop ndebug ops n j it = checkLoop ndebug ops n j it2 := by
  intro n
  induction n with
  | zero => intro j it it2 _; simp [checkLoop]
  | succ n ih =>
    intro j it it2 h
    cases it with
    | nil =>
      cases it2 with
      | nil => rfl
      | cons b it2 => simp at h
    | cons a it =>
      cases it2 with
      | nil => simp at h
      | cons b it2 =>
        simp only [List.map_cons, List.cons.injEq] at h
        simp only [checkLoop, h.1]
        rw [ih (j - 1) it it2 h.2]

theorem check_kind (ndebug : Bool) (ops : CheckTypes) (operands operands2 : Operands)
    (h : operands.map (fun o => o.type) = operands2.map (fun o => o.type)) :
    check ndebug ops operands = check ndebug ops operands2 := by
  unfold check
  apply checkLoop_kind
  rw [List.map_reverse, List.map_reverse, h]

theorem operandsSetPdf_types (pdf : CPdf) (rf : IndiRef) (operands : Operands) (count : Int) :
    (operandsSetPdf pdf rf operands count).map (fun o => o.type) =
      operands.map (fun o => o.type) := by
  have h := congrArg (List.map Prod.fst) (operandsSetPdf_kind_value pdf rf operands count)
  simpa [List.map_map, Function.comp_def] using h

/-- Whether `createOp` returns, and the kinds of the operands it leaves on the
stack, depend only on the name and on the kinds of the operands. -/
theorem createOp_kind (ndebug : Bool) (name : Str) (operands operands2 : Operands)
    (pdf : CPdf) (rf : IndiRef) (op : PdfOperator) (left : Operands)
    (hk : operands.map (fun o => o.type) = operands2.map (fun o => o.type))
    (h : createOp ndebug name operands pdf rf = .ok (op, left)) :
    ∃ op2 left2, createOp ndebug name operands2 pdf rf = .ok (op2, left2) ∧
      left2.map (fun o => o.type) = left.map (fun o => o.type) := by
  obtain ⟨lo, cmp, hrun, hres⟩ := search_spec name
  rcases hres with ⟨_, k, _, e, he, hname⟩ | ⟨_, hnone⟩
  · subst hname
    have hmem : e ∈ KNOWN_OPERATORS := List.mem_iff_getElem?.mpr ⟨k, he⟩
    rw [createOp_of_known ndebug e operands pdf rf hmem] at h
    rw [createOp_of_known ndebug e operands2 pdf rf hmem, ← check_kind ndebug e _ _ hk]
    cases hc : check ndebug e operands with
    | error f => rw [hc] at h; cases h
    | ok b =>
      rw [hc] at h
      cases b with
      | false => cases h
      | true =>
        simp only [SimpleGenericOperator, Except.ok.injEq, Prod.mk.injEq] at h
        refine ⟨_, _, rfl, ?_⟩
        rw [← h.2]
        simp only [SimpleGenericOperator, List.map_take, operandsSetPdf_types,
          operandsSetPdf_length]
        have hlen : operands.length = operands2.length := by
          simpa using congrArg List.length hk
        rw [hk, hlen]
  · rw [createOp_of_unknown ndebug name operands pdf rf hnone] at h
    rw [createOp_of_unknown ndebug name operands2 pdf rf hnone]
    simp only [UnknownPdfOperator, Except.ok.injEq, Prod.mk.injEq] at h
    refine ⟨_, _, rfl, ?_⟩
    rw [← h.2]

/-- Whether the loop of `parseContentStream` returns depends only on the
instruction names and on the kinds of the values of the stream. -/
theorem parseLoop_kind (ndebug : Bool) (pdf : CPdf) (rf : IndiRef) :
    ∀ (objs objs2 : List Object) (st st2 st1 : ParseState),
      objs.map Object.kind = objs2.map Object.kind →
      st.operands.map (fun o => o.type) = st2.operands.map (fun o => o.type) →
      parseLoop ndebug pdf rf objs st = .ok st1 →
      ∃ st3, parseLoop ndebug pdf rf objs2 st2 = .ok st3 := by
  intro objs
  induction objs with
  | nil =>
    intro objs2 st st2 st1 hk _ _
    cases objs2 with
    | nil => exact ⟨st2, rfl⟩
    | cons y objs2 => simp at hk
  | cons x objs ih =>
    intro objs2 st st2 st1 hk ho h
    cases objs2 with
    | nil => simp at hk
    | cons y objs2 =>
      simp only [List.map_cons, List.cons.injEq] at hk
      obtain ⟨hxy, hk⟩ := hk
      cases x with
      | value type value =>
        cases y with
        | cmd name2 => simp [Object.kind] at hxy
        | value type2 value2 =>
          simp only [Object.kind, Object.value.injEq, and_true] at hxy
          subst hxy
          simp only [parseLoop] at h ⊢
          exact ih objs2 _ _ st1 hk (by simp [ho, createObjFromXpdfObj]) h
      | cmd name =>
        cases y with
        | value type2 value2 => simp [Object.kind] at hxy
        | cmd name2 =>
          simp only [Object.kind, Object.cmd.injEq] at hxy
          subst hxy
          simp only [parseLoop] at h ⊢
          cases hcr : createOp ndebug name st.operands pdf rf with
          | error f => rw [hcr] at h; cases h
          | ok r =>
            obtain ⟨op, left⟩ := r
            rw [hcr] at h
            obtain ⟨op2, left2, hcr2, hl2⟩ := createOp_kind ndebug name _ _ pdf rf op left ho hcr
            rw [hcr2]
            simp only []
            have hleft : left = [] := by
              cases left with
              | nil => rfl
              | cons a l =>
                simp only [List.isEmpty_cons, Bool.not_false, Bool.and_true] at h
                split_ifs at h
            subst hleft
            have hleft2 : left2 = [] := by simpa using hl2
            subst hleft2
            simp only [List.isEmpty_nil, Bool.not_true, Bool.and_false, Bool.false_eq_true,
              if_false] at h ⊢
            refine ih objs2 _ _ st1 hk ?_ h
            split <;> split <;> rfl

theorem cmdNames_append (xs ys : List Object) :
    cmdNames (xs ++ ys) = cmdNames xs ++ cmdNames ys := by
  induction xs with
  | nil => rfl
  | cons x xs ih => cases x <;> simp [cmdNames, ih]

theorem cmdNames_values (operands : Operands) :
    cmdNames (operands.map (fun o => Object.value o.type o.value)) = [] := by
  induction operands with
  | nil => rfl
  | cons o operands ih => simpa [cmdNames] using ih

theorem cmdNames_operatorObjects (operators : List PdfOperator) :
    cmdNames (operators.map operatorObjects).flatten = operators.map (fun o => o.name) := by
  induction operators with
  | nil => rfl
  | cons op operators ih =>
    simp only [List.map_cons, List.flatten_cons, cmdNames_append, ih, operatorObjects,
      cmdNames_values, cmdNames, List.nil_append, List.singleton_append]

theorem cmdNames_kind (objs : List Object) : cmdNames (objs.map Object.kind) = cmdNames objs := by
  induction objs with
  | nil => rfl
  | cons x objs ih => cases x <;> simp [cmdNames, Object.kind, ih]

/-! ## reset -/

/-- C31. On a manager whose page and dictionary are set, `reset ()` returns
normally, in the debug build too, with the watchdog unregistered and the page,
dictionary and watchdog references released; on every state whose page
reference is null, so on the state after a reset, `reset ()` returns normally
and leaves the state as it is: a second reset changes nothing. -/
theorem reset_idempotent (env : Env) (s : State) (hpage : s._page = true)
    (hdict : s._dict = true) :
    reset env s =
        .ret { unreg_observer s none with _page := false, _dict := false, _wd := false } ∧
      (reset env s).state._page = false ∧ (reset env s).state._dict = false ∧
      (reset env s).state._wd = false ∧
      (∀ s2 : State, s2._page = false → reset env s2 = .ret s2) ∧
      reset env (reset env s).state = .ret (reset env s).state ∧
      reset env (reset env (reset env s).state).state = .ret (reset env s).state := by
  have h1 : reset env s =
      .ret { unreg_observer s none with _page := false, _dict := false, _wd := false } := by
    unfold reset
    simp [hpage, hdict]
  have h2 : ∀ s2 : State, s2._page = false → reset env s2 = .ret s2 := by
    intro s2 h
    unfold reset
    simp [h]
  have h3 : (reset env s).state._page = false := by rw [h1]; rfl
  refine ⟨h1, h3, by rw [h1]; rfl, by rw [h1]; rfl, h2, h2 _ h3, ?_⟩
  rw [h2 _ h3]
  exact h2 _ h3

/-- C31 on the page with three content streams, in the debug build. -/
theorem reset_idempotent_witness :
    (reset (plainEnv false) threePage).fault = none ∧
      (reset (plainEnv false) threePage).state.observed = [] ∧
      (reset (plainEnv false) threePage).state._page = false ∧
      reset (plainEnv false) (reset (plainEnv false) threePage).state =
        .ret (reset (plainEnv false) threePage).state :=
  ⟨by rw [(reset_idempotent (plainEnv false) threePage rfl rfl).1]; rfl,
    by rw [(reset_idempotent (plainEnv false) threePage rfl rfl).1]; rfl,
    (reset_idempotent (plainEnv false) threePage rfl rfl).2.1,
    (reset_idempotent (plainEnv false) threePage rfl rfl).2.2.2.2.2.1⟩

/-! ## One operator per instruction name -/

theorem cmdNames_of_values :
    ∀ objs : List Object, (∀ o ∈ objs, ∃ t v, o = Object.value t v) → cmdNames objs = [] := by
  intro objs
  induction objs with
  | nil => intro _; rfl
  | cons x objs ih =>
    intro h
    obtain ⟨t, v, hx⟩ := h x (by simp)
    subst hx
    simp only [cmdNames]
    exact ih (fun o ho => h o (by simp [ho]))

/-- C32. For every token stream that parses successfully (from an empty
operator sequence): the names of the top-level operators, in order, are the
instruction-name tokens of the stream, in stream order; so there are as many
operators as instruction-name tokens, the operator at position `i` is named
as the `i`-th instruction-name token, and a stream of values only gives no
operator. -/
theorem parse_one_per_name (ndebug : Bool) (obj : XpdfObject) (pdf : CPdf) (rf : IndiRef)
    (st : ParseState) (h : parseContentStream ndebug [] obj pdf rf = .ok st) :
    st.operators.map (fun o => o.name) = cmdNames obj.objs ∧
      st.operators.length = (cmdNames obj.objs).length ∧
      (∀ i : Nat, (st.operators[i]?).map (fun o => o.name) = (cmdNames obj.objs)[i]?) ∧
      ((∀ o ∈ obj.objs, ∃ t v, o = Object.value t v) → st.operators = []) := by
  have hn : st.operators.map (fun o => o.name) = cmdNames obj.objs := by
    unfold parseContentStream at h
    split_ifs at h
    have := (parseLoop_sequence ndebug pdf rf obj.objs _ st rfl h).2.2.1
    simpa using this
  refine ⟨hn, ?_, ?_, ?_⟩
  · simpa using congrArg List.length hn
  · intro i
    rw [← hn, List.getElem?_map]
  · intro hv
    rw [cmdNames_of_values _ hv] at hn
    simpa using hn

/-- C32 on the stream `1 0 0 RG foo q`. -/
theorem parse_one_per_name_witness :
    (ParseState.mk
        [⟨.SimpleGenericOperator, cstr "RG",
            [⟨pInt, cstr "1", some 7, some ⟨3, 0⟩⟩, ⟨pInt, cstr "0", some 7, some ⟨3, 0⟩⟩,
              ⟨pInt, cstr "0", some 7, some ⟨3, 0⟩⟩], none, some 1⟩,
          ⟨.UnknownPdfOperator, cstr "foo", [], some 0, some 2⟩,
          ⟨.SimpleGenericOperator, cstr "q", [], some 1, none⟩] [] none []).operators.map
        (fun o => o.name) =
      cmdNames (XpdfObject.mk true false
        [.value pInt (cstr "1"), .value pInt (cstr "0"), .value pInt (cstr "0"),
          .cmd (cstr "RG"), .cmd (cstr "foo"), .cmd (cstr "q")]).objs :=
  (parse_one_per_name true ⟨true, false,
    [.value pInt (cstr "1"), .value pInt (cstr "0"), .value pInt (cstr "0"),
      .cmd (cstr "RG"), .cmd (cstr "foo"), .cmd (cstr "q")]⟩ 7 ⟨3, 0⟩ _ rfl).1

/-! ## A change of another key of the page dictionary -/

/-- C34. When the watchdog is notified of a change of the page dictionary
whose key is not Contents, `notify` returns at once: the state is the one
before the call, so no observer was registered or unregistered, the cached
list, the validity flag of the page and the change signals are unchanged (no
parse ran). -/
theorem notify_other_key (env : Env) (s : State) (newValue : Option Entry) (valueId : Str)
    (originalValue : Option Entry) (hkey : valueId ≠ CONTENTS) :
    notify env s newValue (.dictComplex valueId originalValue) = .ret s ∧
      (notify env s newValue (.dictComplex valueId originalValue)).fault = none ∧
      (notify env s newValue (.dictComplex valueId originalValue)).state.observed =
        s.observed ∧
      (notify env s newValue (.dictComplex valueId originalValue)).state._ccs = s._ccs ∧
      (notify env s newValue (.dictComplex valueId originalValue)).state.pageValid =
        s.pageValid ∧
      (notify env s newValue (.dictComplex valueId originalValue)).state.pageChanges =
        s.pageChanges := by
  have h : notify env s newValue (.dictComplex valueId originalValue) = .ret s := by
    simp only [notify]
    rw [if_pos (fun heq => hkey heq.symm)]
  rw [h]
  exact ⟨rfl, rfl, rfl, rfl, rfl, rfl⟩

/-- C34 on the page with three content streams when building a content stream
would fail, notified that the entry `Resources` was removed. -/
theorem notify_other_key_witness :
    notify (failingEnv false) threePage none (.dictComplex (cstr "Resources") none) =
        .ret threePage ∧
      (notify (failingEnv false) threePage none
        (.dictComplex (cstr "Resources") none)).state._ccs = threePage._ccs :=
  ⟨(notify_other_key (failingEnv false) threePage none (cstr "Resources") none
      (by decide)).1,
    (notify_other_key (failingEnv false) threePage none (cstr "Resources") none
      (by decide)).2.2.2.1⟩

/-! ## The buffer of a new stream -/

/-- C38. The function `createStreamFromObjects` sets the buffer of the new
stream to the text of the change tag followed by one space and then the text
of every given operator, in the order of the container, each followed by one
space; the stream is stored in the document under its new reference with that
buffer. With no operator the buffer is the change tag and one space. -/
theorem createStreamFromObjects_buffer (env : Env) (s : State) (cont : List PdfOperator) :
    (createStreamFromObjects env s cont).1.buffer =
        (env.changeTag ++ cstr " ") ++
          (cont.map (fun op => env.opText op ++ cstr " ")).flatten ∧
      (createStreamFromObjects env s cont).2.store =
        s.store ++ [((createStreamFromObjects env s cont).1.indiRef,
          Entry.elem (.stream (createStreamFromObjects env s cont).1))] ∧
      (createStreamFromObjects env s []).1.buffer = env.changeTag ++ cstr " " := by
  refine ⟨?_, ?_, ?_⟩
  · simp only [createStreamFromObjects, addIndirectProperty, List.nil_append]
    exact foldl_append_flatten (fun op => env.opText op ++ cstr " ") cont _
  · rfl
  · rfl

/-! ## How many operands `operandsSetPdf` binds -/

theorem operandsSetPdfLoop_neg (pdf : CPdf) (rf : IndiRef) (it : List IProperty) (count : Int)
    (h : count < 0) : operandsSetPdfLoop pdf rf it count = it := by
  cases it with
  | nil => rfl
  | cons o it =>
    simp only [operandsSetPdfLoop]
    rw [if_neg (by omega)]

theorem operandsSetPdfLoop_split (pdf : CPdf) (rf : IndiRef) :
    ∀ (it : List IProperty) (n : Nat),
      operandsSetPdfLoop pdf rf it (n : Int) =
        (it.take (n + 1)).map (fun o => o.bind pdf rf) ++ it.drop (n + 1) := by
  intro it
  induction it with
  | nil => intro n; rfl
  | cons o it ih =>
    intro n
    simp only [operandsSetPdfLoop]
    rw [if_pos (by omega)]
    cases n with
    | zero =>
      rw [operandsSetPdfLoop_neg pdf rf it _ (by simp)]
      simp
    | succ k =>
      have hk : ((k + 1 : Nat) : Int) - 1 = (k : Int) := by omega
      rw [hk, ih k]
      simp

theorem operandsSetPdf_split (pdf : CPdf) (rf : IndiRef) (operands : Operands) (n : Nat) :
    operandsSetPdf pdf rf operands (n : Int) =
      operands.take (operands.length - (n + 1)) ++
        (operands.drop (operands.length - (n + 1))).map (fun o => o.bind pdf rf) := by
  unfold operandsSetPdf
  rw [operandsSetPdfLoop_split]
  simp only [List.reverse_append, List.take_reverse, List.drop_reverse, List.reverse_reverse,
    List.map_reverse, List.length_reverse]

/-- C33. The loop of `operandsSetPdf` runs while `0 <= count`, so for every
count `n` that is not negative it binds the last `n + 1` operands of the
stack (all of them when there are fewer), one more than `count`, and leaves
the earlier ones as they are. On the stack `1 2` with count 1 both operands
are bound; and `createOp` on `0.5 1 0 0 RG`, where `RG` has arity 3, also
binds the operand `0.5`, which the operator does not consume. -/
theorem operandsSetPdf_binds_one_more :
    (∀ (pdf : CPdf) (rf : IndiRef) (operands : Operands) (n : Nat),
        operandsSetPdf pdf rf operands (n : Int) =
          operands.take (operands.length - (n + 1)) ++
            (operands.drop (operands.length - (n + 1))).map (fun o => o.bind pdf rf)) ∧
      operandsSetPdf 7 ⟨3, 0⟩ [⟨pInt, cstr "1", none, none⟩, ⟨pInt, cstr "2", none, none⟩] 1 =
        [⟨pInt, cstr "1", some 7, some ⟨3, 0⟩⟩, ⟨pInt, cstr "2", some 7, some ⟨3, 0⟩⟩] ∧
      createOp true (cstr "RG")
          [⟨pReal, cstr "0.5", none, none⟩, ⟨pInt, cstr "1", none, none⟩,
            ⟨pInt, cstr "0", none, none⟩, ⟨pInt, cstr "0", none, none⟩] 7 ⟨3, 0⟩ =
        .ok (⟨.SimpleGenericOperator, cstr "RG",
              [⟨pInt, cstr "1", some 7, some ⟨3, 0⟩⟩, ⟨pInt, cstr "0", some 7, some ⟨3, 0⟩⟩,
                ⟨pInt, cstr "0", some 7, some ⟨3, 0⟩⟩], none, none⟩,
             [⟨pReal, cstr "0.5", some 7, some ⟨3, 0⟩⟩]) :=
  ⟨operandsSetPdf_split, rfl, rfl⟩

/-! ## The mask index of `check` -/

theorem KNOWN_OPERATORS_arity :
    ∀ e ∈ KNOWN_OPERATORS, e.argNum ≤ MAX_OPERANDS ∧ e.types.length = MAX_OPERANDS := by
  decide

/-- C36. Every row of `KNOWN_OPERATORS` has an arity of at most `MAX_OPERANDS`
(6), the size of its array of masks. So in `check`, for every row and every
operand stack with at least `argNum` operands, the mask index `j`, which is
`argNum - 1 - i` in iteration `i < argNum`, stays within `0 .. argNum - 1`,
the read `types[j]` is inside the array, and `check` returns true or false,
in the debug build too: the assertion `j >= 0` never fails. -/
theorem check_index_in_range :
    (∀ e ∈ KNOWN_OPERATORS, e.argNum ≤ MAX_OPERANDS ∧ e.types.length = MAX_OPERANDS) ∧
      (∀ e ∈ KNOWN_OPERATORS, ∀ i : Nat, i < e.argNum →
        0 ≤ (e.argNum : Int) - 1 - i ∧ (e.argNum : Int) - 1 - i < e.argNum ∧
          ∃ t, typesAt e ((e.argNum : Int) - 1 - i) = some t) ∧
      (∀ (ndebug : Bool) (e : CheckTypes) (operands : Operands), e ∈ KNOWN_OPERATORS →
        e.argNum ≤ operands.length → ∃ b, check ndebug e operands = .ok b) := by
  refine ⟨KNOWN_OPERATORS_arity, ?_, ?_⟩
  · intro e he i hi
    have hle := KNOWN_OPERATORS_argNum_le e he
    refine ⟨by omega, by omega, ?_⟩
    have hlt : ((e.argNum : Int) - 1 - i).toNat < e.types.length := by omega
    refine ⟨e.types[((e.argNum : Int) - 1 - i).toNat], ?_⟩
    unfold typesAt
    rw [if_neg (by omega)]
    exact List.getElem?_eq_getElem hlt
  · intro ndebug e operands he hn
    obtain ⟨b, hb, _⟩ := check_returns_iff ndebug e operands he hn
    exact ⟨b, hb⟩

/-- C36 on the row `RG` and the stack `0.5 1 0 0`, in the debug build. -/
theorem check_index_in_range_witness :
    ∃ b, check false (row "RG" 3 [num, num, num])
      [⟨pReal, cstr "0.5", none, none⟩, ⟨pInt, cstr "1", none, none⟩,
        ⟨pInt, cstr "0", none, none⟩, ⟨pInt, cstr "0", none, none⟩] = .ok b :=
  check_index_in_range.2.2 false (row "RG" 3 [num, num, num]) _ (by decide) (by decide)

/-! ## The indices of the binary search -/

theorem searchTrace_same (tbl : List CheckTypes) (op : Str) (fuel : Nat) (m : Int) :
    searchTrace tbl op fuel m m = [] := by
  unfold searchTrace
  simp

theorem searchTrace_range (tbl : List CheckTypes) (op : Str) :
    ∀ (fuel : Nat) (lo hi : Int), -1 ≤ lo → lo < hi → hi ≤ tbl.length →
      ∀ p ∈ searchTrace tbl op fuel lo hi,
        -1 ≤ p.1 ∧ p.1 < p.2.1 ∧ p.2.1 ≤ tbl.length ∧ 0 ≤ p.2.2 ∧ p.2.2 < tbl.length ∧
          p.1 < p.2.2 ∧ p.2.2 < p.2.1 := by
  intro fuel
  induction fuel with
  | zero =>
    intro lo hi _ _ _ p hp
    unfold searchTrace at hp
    split_ifs at hp <;> simp at hp
  | succ fuel ih =>
    intro lo hi hlo hlt hhi p hp
    unfold searchTrace at hp
    split_ifs at hp with hgap
    · have hmed : (lo + hi).tdiv 2 = (lo + hi) / 2 := Int.tdiv_eq_ediv (by omega) (by omega)
      simp only [hmed, List.mem_cons] at hp
      rcases hp with hp | hp
      · subst hp
        refine ⟨hlo, hlt, hhi, ?_, ?_, ?_, ?_⟩ <;> simp only [] <;> omega
      · cases hte : tableAt tbl ((lo + hi) / 2) with
        | none => rw [hte] at hp; simp at hp
        | some e =>
          rw [hte] at hp
          simp only [] at hp
          split_ifs at hp
          · exact ih _ _ (by omega) (by omega) hhi p hp
          · exact ih _ _ hlo (by omega) (by omega) p hp
          · rw [searchTrace_same] at hp
            simp at hp
    · simp at hp

/-- C37. For every instruction name the binary search of `createOp` on
`KNOWN_OPERATORS` ends within the iteration bound and gives `lo` and `cmp`; at
every iteration `-1 <= lo < hi <= size` holds and the probed index `med` lies
strictly between `lo` and `hi`, so `0 <= med < size`; and on the found branch
(`cmp = 0`) the index `lo` is in range, so `KNOWN_OPERATORS[lo]` is a row of
the table. -/
theorem search_in_range (op : Str) :
    (∃ lo cmp, search op = .ok (lo, cmp) ∧
        (cmp = 0 → 0 ≤ lo ∧ lo < KNOWN_OPERATORS.length ∧
          ∃ e, tableAt KNOWN_OPERATORS lo = some e)) ∧
      (∀ p ∈ searchTrace KNOWN_OPERATORS op (KNOWN_OPERATORS.length + 1) (-1)
          KNOWN_OPERATORS.length,
        -1 ≤ p.1 ∧ p.1 < p.2.1 ∧ p.2.1 ≤ KNOWN_OPERATORS.length ∧
          0 ≤ p.2.2 ∧ p.2.2 < KNOWN_OPERATORS.length ∧ p.1 < p.2.2 ∧ p.2.2 < p.2.1) := by
  constructor
  · obtain ⟨lo, cmp, hrun, hres⟩ := search_spec op
    refine ⟨lo, cmp, hrun, ?_⟩
    intro hc
    rcases hres with ⟨_, k, hk, e, he, _⟩ | ⟨hne, _⟩
    · have hlt : k < KNOWN_OPERATORS.length := (List.getElem?_eq_some.mp he).1
      subst hk
      obtain ⟨e2, h2, _⟩ := tableAt_eq_some KNOWN_OPERATORS (k : Int) (by omega) (by omega)
      exact ⟨by omega, by omega, e2, h2⟩
    · exact absurd hc hne
  · exact searchTrace_range KNOWN_OPERATORS op _ _ _ (by omega) (by decide) (by omega)

/-- C37 on the name `Tf`: the search probes the rows 36, 17, 26, 31, 33 and
34, between the bounds shown, and ends on row 34. -/
theorem search_in_range_witness :
    search (cstr "Tf") = .ok (34, 0) ∧
      searchTrace KNOWN_OPERATORS (cstr "Tf") (KNOWN_OPERATORS.length + 1) (-1)
          KNOWN_OPERATORS.length =
        [(-1, 73, 36), (-1, 36, 17), (17, 36, 26), (26, 36, 31), (31, 36, 33), (33, 36, 34)] ∧
      ∀ p ∈ searchTrace KNOWN_OPERATORS (cstr "Tf") (KNOWN_OPERATORS.length + 1) (-1)
          KNOWN_OPERATORS.length,
        -1 ≤ p.1 ∧ p.1 < p.2.1 ∧ p.2.1 ≤ KNOWN_OPERATORS.length ∧
          0 ≤ p.2.2 ∧ p.2.2 < KNOWN_OPERATORS.length ∧ p.1 < p.2.2 ∧ p.2.2 < p.2.1 :=
  ⟨rfl, rfl, (search_in_range (cstr "Tf")).2⟩

/-! ## Moving a content stream up and down again -/

theorem moveAbove_run (env : Env) (s : State) (ct : CContentStream)
    (pre : List CContentStream) (c nxt : CContentStream) (post : List CContentStream)
    (hccs : s._ccs = pre ++ c :: nxt :: post) (hc : c.id = ct.id)
    (hpre : ∀ cc ∈ pre, cc.id ≠ ct.id) :
    moveAbove env s ct =
      (observerFreeSection { s with _ccs := pre ++ nxt :: c :: post }
        (fun s2 => setContents env s2 s2._ccs)).andThen (fun s2 => change s2 false) := by
  have hfind : findCcs s._ccs ct = pre.length := by
    rw [hccs, findCcs_append pre _ ct hpre, findCcs_cons_self c _ ct hc]
    rfl
  have hlen : s._ccs.length = pre.length + (post.length + 2) := by rw [hccs]; simp
  have hget : s._ccs[pre.length + 1]? = some nxt := by
    rw [hccs, List.getElem?_append_right (by omega)]
    simp
  have hfind2 : findCcs (pre ++ c :: post) ct = pre.length := by
    rw [findCcs_append pre _ ct hpre, findCcs_cons_self c _ ct hc]
    rfl
  unfold moveAbove
  simp only [hfind, hget]
  rw [if_neg (by omega), if_neg (by omega)]
  simp only [hccs, eraseIdx_after, hfind2, insertIdx_at]

theorem moveBelow_run (env : Env) (s : State) (ct : CContentStream)
    (pre : List CContentStream) (before c : CContentStream) (post : List CContentStream)
    (hccs : s._ccs = pre ++ before :: c :: post) (hc : c.id = ct.id)
    (hpre : ∀ cc ∈ pre, cc.id ≠ ct.id) (hbefore : before.id ≠ ct.id) :
    moveBelow env s ct =
      (observerFreeSection { s with _ccs := pre ++ c :: before :: post }
        (fun s2 => setContents env s2 s2._ccs)).andThen (fun s2 => change s2 false) := by
  have hfind : findCcs s._ccs ct = pre.length + 1 := by
    rw [hccs, findCcs_append pre _ ct hpre]
    have h1 : findCcs (before :: c :: post) ct = 1 + findCcs (c :: post) ct :=
      findCcs_append [before] (c :: post) ct (by simpa using hbefore)
    rw [h1, findCcs_cons_self c _ ct hc]
  have hlen : s._ccs.length = pre.length + (post.length + 2) := by rw [hccs]; simp
  have hget : s._ccs[pre.length + 1]? = some c := by
    rw [hccs, List.getElem?_append_right (by omega)]
    simp
  have hget2 : s._ccs[pre.length + 1 - 1]? = some before := by
    rw [hccs, List.getElem?_append_right (by omega)]
    simp
  unfold moveBelow
  simp only [hfind, hget, hget2]
  rw [if_neg (by simp; omega)]
  simp only [hccs, set_swap]

theorem section_setContents_frame (env : Env) (s : State)
    (hdict : s._dict = true) (hpage : s._page = true)
    (hvalid : ∀ st ∈ getAllCStreams s._ccs, st.hasValidPdf = true ∧ st.hasValidRef = true) :
    ((observerFreeSection s (fun s2 => setContents env s2 s2._ccs)).andThen
        (fun s2 => change s2 false)).state._dict = true ∧
      ((observerFreeSection s (fun s2 => setContents env s2 s2._ccs)).andThen
        (fun s2 => change s2 false)).state._page = true := by
  have hset := setContents_spec env (unreg_observer s none) (unreg_observer s none)._ccs
    (by simp [hdict]) (by simpa using hvalid)
  have hf : (observerFreeSection s (fun s2 => setContents env s2 s2._ccs)).fault = none := by
    simp only [observerFreeSection_fault, hset]
    rfl
  have hp : (observerFreeSection s (fun s2 => setContents env s2 s2._ccs)).state._page = true := by
    simp only [observerFreeSection_state, reg_observer_page, hset, Outcome.ret]
    simp [hpage]
  rw [andThen_of_ok _ _ hf, change_of_page _ _ hp]
  refine ⟨?_, ?_⟩
  · simp only [Outcome.ret, observerFreeSection_state, reg_observer_dict, hset]
    simp [hdict]
  · simp only [Outcome.ret, observerFreeSection_state, reg_observer_page, hset]
    simp [hpage]

theorem valid_of_same_members (l1 l2 : List CContentStream)
    (hmem : ∀ cc, cc ∈ l2 → cc ∈ l1)
    (hvalid : ∀ st ∈ getAllCStreams l1, st.hasValidPdf = true ∧ st.hasValidRef = true) :
    ∀ st ∈ getAllCStreams l2, st.hasValidPdf = true ∧ st.hasValidRef = true := by
  intro st hst
  apply hvalid st
  rw [mem_getAllCStreams] at hst ⊢
  obtain ⟨cc, hcc, hm⟩ := hst
  exact ⟨cc, hmem cc hcc, hm⟩

/-- A move in a sane state: the call returns normally, the cached list is the
exchanged one, and the state stays sane. -/
theorem section_swapped (env : Env) (s : State) (l : List CContentStream)
    (hdict : s._dict = true) (hpage : s._page = true)
    (hmem : ∀ cc, cc ∈ l → cc ∈ s._ccs)
    (hvalid : ∀ st ∈ getAllCStreams s._ccs, st.hasValidPdf = true ∧ st.hasValidRef = true) :
    ((observerFreeSection { s with _ccs := l }
        (fun s2 => setContents env s2 s2._ccs)).andThen (fun s2 => change s2 false)).fault =
        none ∧
      ((observerFreeSection { s with _ccs := l }
        (fun s2 => setContents env s2 s2._ccs)).andThen
          (fun s2 => change s2 false)).state._ccs = l ∧
      ((observerFreeSection { s with _ccs := l }
        (fun s2 => setContents env s2 s2._ccs)).andThen
          (fun s2 => change s2 false)).state._dict = true ∧
      ((observerFreeSection { s with _ccs := l }
        (fun s2 => setContents env s2 s2._ccs)).andThen
          (fun s2 => change s2 false)).state._page = true := by
  have hv := valid_of_same_members s._ccs l hmem hvalid
  obtain ⟨h1, h2, _⟩ := section_setContents env { s with _ccs := l } hdict hpage hv
  obtain ⟨h3, h4⟩ := section_setContents_frame env { s with _ccs := l } hdict hpage hv
  exact ⟨h1, h2, h3, h4⟩

/-- C35. For a bound manager whose cached backing streams are all valid and
whose cached content streams are pairwise distinct: when `ct` is a member with
a content stream after it, `moveAbove (ct)` returns normally and gives a
reordering of the cached list, and `moveBelow (ct)` on the state it leaves
returns normally and gives back the original cached list; when `ct` is a
member with a content stream before it, the same holds for `moveBelow (ct)`
followed by `moveAbove (ct)`. A reordering has the same length and the same
members. -/
theorem move_round_trip (env : Env) (s : State) (ct : CContentStream)
    (hdict : s._dict = true) (hpage : s._page = true)
    (hvalid : ∀ st ∈ getAllCStreams s._ccs, st.hasValidPdf = true ∧ st.hasValidRef = true)
    (hdistinct : (s._ccs.map (fun cc => cc.id)).Nodup) :
    (∀ (pre : List CContentStream) (c nxt : CContentStream) (post : List CContentStream),
        s._ccs = pre ++ c :: nxt :: post → c.id = ct.id →
        (moveAbove env s ct).fault = none ∧
        (moveAbove env s ct).state._ccs = pre ++ nxt :: c :: post ∧
        (moveAbove env s ct).state._ccs.Perm s._ccs ∧
        (moveAbove env s ct).state._ccs.length = s._ccs.length ∧
        (moveBelow env (moveAbove env s ct).state ct).fault = none ∧
        (moveBelow env (moveAbove env s ct).state ct).state._ccs = s._ccs) ∧
      (∀ (pre : List CContentStream) (before c : CContentStream) (post : List CContentStream),
        s._ccs = pre ++ before :: c :: post → c.id = ct.id →
        (moveBelow env s ct).fault = none ∧
        (moveBelow env s ct).state._ccs = pre ++ c :: before :: post ∧
        (moveBelow env s ct).state._ccs.Perm s._ccs ∧
        (moveBelow env s ct).state._ccs.length = s._ccs.length ∧
        (moveAbove env (moveBelow env s ct).state ct).fault = none ∧
        (moveAbove env (moveBelow env s ct).state ct).state._ccs = s._ccs) := by
  have hsplit : ∀ (pre : List CContentStream) (a b : CContentStream)
      (post : List CContentStream), s._ccs = pre ++ a :: b :: post →
      (∀ cc ∈ pre, cc.id ≠ a.id) ∧ (∀ cc ∈ pre, cc.id ≠ b.id) ∧ a.id ≠ b.id := by
    intro pre a b post hccs
    rw [hccs] at hdistinct
    simp only [List.map_append, List.map_cons] at hdistinct
    have hdis := List.disjoint_of_nodup_append hdistinct
    have hright := (List.nodup_append.mp hdistinct).2.1
    refine ⟨?_, ?_, ?_⟩
    · intro cc hcc heq
      exact hdis (List.mem_map_of_mem (fun cc => cc.id) hcc) (by rw [heq]; simp)
    · intro cc hcc heq
      exact hdis (List.mem_map_of_mem (fun cc => cc.id) hcc) (by rw [heq]; simp)
    · intro heq
      have := (List.nodup_cons.mp hright).1
      rw [heq] at this
      simp at this
  have hperm : ∀ (pre : List CContentStream) (a b : CContentStream)
      (post : List CContentStream), (pre ++ b :: a :: post).Perm (pre ++ a :: b :: post) :=
    fun pre a b post => List.Perm.append_left pre (List.Perm.swap a b post)
  constructor
  · intro pre c nxt post hccs hc
    obtain ⟨hp1, hp2, hne⟩ := hsplit pre c nxt post hccs
    have hpre : ∀ cc ∈ pre, cc.id ≠ ct.id := fun cc hcc => hc ▸ hp1 cc hcc
    have hnxt : nxt.id ≠ ct.id := fun h => hne (by rw [hc, h])
    have hmem : ∀ cc, cc ∈ pre ++ nxt :: c :: post → cc ∈ s._ccs := by
      intro cc hcc
      rw [hccs]
      exact (hperm pre c nxt post).subset hcc
    obtain ⟨h1, h2, h3, h4⟩ := section_swapped env s _ hdict hpage hmem hvalid
    rw [← moveAbove_run env s ct pre c nxt post hccs hc hpre] at h1 h2 h3 h4
    have hvalid2 : ∀ st ∈ getAllCStreams (moveAbove env s ct).state._ccs,
        st.hasValidPdf = true ∧ st.hasValidRef = true := by
      rw [h2]
      exact valid_of_same_members s._ccs _ hmem hvalid
    have hmem2 : ∀ cc, cc ∈ pre ++ c :: nxt :: post → cc ∈ (moveAbove env s ct).state._ccs := by
      intro cc hcc
      rw [h2]
      exact (hperm pre nxt c post).subset hcc
    obtain ⟨k1, k2, _, _⟩ := section_swapped env (moveAbove env s ct).state _ h3 h4 hmem2 hvalid2
    rw [← moveBelow_run env (moveAbove env s ct).state ct pre nxt c post h2 hc hpre hnxt]
      at k1 k2
    refine ⟨h1, h2, ?_, ?_, k1, ?_⟩
    · rw [h2, hccs]
      exact hperm pre c nxt post
    · rw [h2, hccs]
      simp
    · rw [k2, hccs]
  · intro pre before c post hccs hc
    obtain ⟨hp1, hp2, hne⟩ := hsplit pre before c post hccs
    have hpre : ∀ cc ∈ pre, cc.id ≠ ct.id := fun cc hcc => hc ▸ hp2 cc hcc
    have hbefore : before.id ≠ ct.id := fun h => hne (by rw [hc, h])
    have hmem : ∀ cc, cc ∈ pre ++ c :: before :: post → cc ∈ s._ccs := by
      intro cc hcc
      rw [hccs]
      exact (hperm pre before c post).subset hcc
    obtain ⟨h1, h2, h3, h4⟩ := section_swapped env s _ hdict hpage hmem hvalid
    rw [← moveBelow_run env s ct pre before c post hccs hc hpre hbefore] at h1 h2 h3 h4
    have hvalid2 : ∀ st ∈ getAllCStreams (moveBelow env s ct).state._ccs,
        st.hasValidPdf = true ∧ st.hasValidRef = true := by
      rw [h2]
      exact valid_of_same_members s._ccs _ hmem hvalid
    have hmem2 : ∀ cc, cc ∈ pre ++ before :: c :: post →
        cc ∈ (moveBelow env s ct).state._ccs := by
      intro cc hcc
      rw [h2]
      exact (hperm pre c before post).subset hcc
    obtain ⟨k1, k2, _, _⟩ := section_swapped env (moveBelow env s ct).state _ h3 h4 hmem2 hvalid2
    rw [← moveAbove_run env (moveBelow env s ct).state ct pre c before post h2 hc hpre]
      at k1 k2
    refine ⟨h1, h2, ?_, ?_, k1, ?_⟩
    · rw [h2, hccs]
      exact hperm pre before c post
    · rw [h2, hccs]
      simp
    · rw [k2, hccs]

/-- C35 on the page with three content streams: the first one is moved above
its follower and below again, and the second one below the first and above
again. -/
theorem move_round_trip_witness :
    (moveBelow (plainEnv true) (moveAbove (plainEnv true) threePage ⟨0, [streamAt 5]⟩).state
        ⟨0, [streamAt 5]⟩).fault = none ∧
      (moveBelow (plainEnv true) (moveAbove (plainEnv true) threePage ⟨0, [streamAt 5]⟩).state
        ⟨0, [streamAt 5]⟩).state._ccs = threePage._ccs ∧
      (moveAbove (plainEnv true) (moveBelow (plainEnv true) threePage ⟨1, [streamAt 6]⟩).state
        ⟨1, [streamAt 6]⟩).state._ccs = threePage._ccs :=
  ⟨((move_round_trip (plainEnv true) threePage ⟨0, [streamAt 5]⟩ rfl rfl (by decide)
      (by decide)).1 [] ⟨0, [streamAt 5]⟩ ⟨1, [streamAt 6]⟩ [⟨2, [streamAt 7]⟩] rfl rfl).2.2.2.2.1,
    ((move_round_trip (plainEnv true) threePage ⟨0, [streamAt 5]⟩ rfl rfl (by decide)
      (by decide)).1 [] ⟨0, [streamAt 5]⟩ ⟨1, [streamAt 6]⟩ [⟨2, [streamAt 7]⟩] rfl rfl).2.2.2.2.2,
    ((move_round_trip (plainEnv true) threePage ⟨1, [streamAt 6]⟩ rfl rfl (by decide)
      (by decide)).2 [] ⟨0, [streamAt 5]⟩ ⟨1, [streamAt 6]⟩ [⟨2, [streamAt 7]⟩] rfl rfl).2.2.2.2.2⟩

/-! ## The Contents entry after a move, element by element -/

@[simp] theorem reg_observer_pageChanges (s : State) (ip : Option Entry) :
    (reg_observer s ip).pageChanges = s.pageChanges := by
  cases ip with
  | some p => rfl
  | none => cases hc : s.contents <;> simp [reg_observer, hc]

@[simp] theorem unreg_observer_pageChanges (s : State) (ip : Option Entry) :
    (unreg_observer s ip).pageChanges = s.pageChanges := by
  cases ip with
  | some p => rfl
  | none => cases hc : s.contents <;> simp [unreg_observer, hc]

theorem getAllCStreams_eq_flatten (l : List CContentStream) :
    getAllCStreams l = (l.map (fun cc => cc.cstreams)).flatten := by
  induction l with
  | nil => rfl
  | cons c l ih => simp [getAllCStreams, ih]

/-- What the common tail of `moveAbove` and `moveBelow` leaves, with the
Contents entry written out: the array of the references of the backing
streams, content stream by content stream in the order of the cached list,
and no entry when there is no backing stream at all. -/
theorem section_setContents_explicit (env : Env) (s : State) (l : List CContentStream)
    (hdict : s._dict = true) (hpage : s._page = true)
    (hvalid : ∀ cc ∈ l, ∀ st ∈ cc.cstreams, st.hasValidPdf = true ∧ st.hasValidRef = true) :
    ((observerFreeSection { s with _ccs := l }
        (fun s2 => setContents env s2 s2._ccs)).andThen (fun s2 => change s2 false)).fault =
        none ∧
      ((observerFreeSection { s with _ccs := l }
        (fun s2 => setContents env s2 s2._ccs)).andThen
          (fun s2 => change s2 false)).state._ccs = l ∧
      ((observerFreeSection { s with _ccs := l }
        (fun s2 => setContents env s2 s2._ccs)).andThen
          (fun s2 => change s2 false)).state.contents =
        (if (l.map (fun cc => cc.cstreams)).flatten = [] then none
         else some (.array
           ((l.map (fun cc => cc.cstreams.map (fun st => Elem.ref st.indiRef))).flatten))) ∧
      ((observerFreeSection { s with _ccs := l }
        (fun s2 => setContents env s2 s2._ccs)).andThen
          (fun s2 => change s2 false)).state.pageChanges = s.pageChanges ++ [false] := by
  have hv : ∀ st ∈ getAllCStreams ({ s with _ccs := l } : State)._ccs,
      st.hasValidPdf = true ∧ st.hasValidRef = true := by
    intro st hst
    obtain ⟨cc, hcc, hm⟩ := (mem_getAllCStreams st l).mp hst
    exact hvalid cc hcc st hm
  obtain ⟨h1, h2, h3⟩ := section_setContents env { s with _ccs := l } hdict hpage hv
  refine ⟨h1, h2, ?_, ?_⟩
  · rw [h3]
    simp only [getAllCStreams_eq_flatten, List.map_flatten, List.map_map, Function.comp_def]
  · have hset := setContents_spec env (unreg_observer { s with _ccs := l } none)
      (unreg_observer { s with _ccs := l } none)._ccs (by simp [hdict]) (by simpa using hv)
    have hf : (observerFreeSection { s with _ccs := l }
        (fun s2 => setContents env s2 s2._ccs)).fault = none := by
      simp only [observerFreeSection_fault, hset]
      rfl
    have hp : (observerFreeSection { s with _ccs := l }
        (fun s2 => setContents env s2 s2._ccs)).state._page = true := by
      simp only [observerFreeSection_state, reg_observer_page, hset, Outcome.ret]
      simp [hpage]
    rw [andThen_of_ok _ _ hf, change_of_page _ _ hp]
    simp only [Outcome.ret, observerFreeSection_state, hset]
    simp

/-- C16. For a bound manager whose cached backing streams are all valid and a
member `ct` of the cached list (found by identity at its first position): when
a content stream `nxt` follows it, `moveAbove (ct)` returns normally and the
cached list is the old one with `ct` and `nxt` exchanged, all others in place;
when a content stream `before` precedes it, `moveBelow (ct)` returns normally
and the cached list is the old one with `before` and `ct` exchanged; in both
cases the Contents entry is afterwards the array that holds, content stream by
content stream in the new cached order, the references of the backing streams
of each (no entry when there is no backing stream at all). -/
theorem move_exchanges (env : Env) (s : State) (ct : CContentStream)
    (hdict : s._dict = true) (hpage : s._page = true)
    (hvalid : ∀ cc ∈ s._ccs, ∀ st ∈ cc.cstreams,
      st.hasValidPdf = true ∧ st.hasValidRef = true) :
    (∀ (pre : List CContentStream) (c nxt : CContentStream) (post : List CContentStream),
        s._ccs = pre ++ c :: nxt :: post → c.id = ct.id → (∀ cc ∈ pre, cc.id ≠ ct.id) →
        (moveAbove env s ct).fault = none ∧
        (moveAbove env s ct).state._ccs = pre ++ nxt :: c :: post ∧
        (moveAbove env s ct).state.contents =
          (if ((pre ++ nxt :: c :: post).map (fun cc => cc.cstreams)).flatten = [] then none
           else some (.array (((pre ++ nxt :: c :: post).map
             (fun cc => cc.cstreams.map (fun st => Elem.ref st.indiRef))).flatten)))) ∧
      (∀ (pre : List CContentStream) (before c : CContentStream) (post : List CContentStream),
        s._ccs = pre ++ before :: c :: post → c.id = ct.id → (∀ cc ∈ pre, cc.id ≠ ct.id) →
        before.id ≠ ct.id →
        (moveBelow env s ct).fault = none ∧
        (moveBelow env s ct).state._ccs = pre ++ c :: before :: post ∧
        (moveBelow env s ct).state.contents =
          (if ((pre ++ c :: before :: post).map (fun cc => cc.cstreams)).flatten = [] then none
           else some (.array (((pre ++ c :: before :: post).map
             (fun cc => cc.cstreams.map (fun st => Elem.ref st.indiRef))).flatten)))) := by
  constructor
  · intro pre c nxt post hccs hc hpre
    have hv : ∀ cc ∈ pre ++ nxt :: c :: post, ∀ st ∈ cc.cstreams,
        st.hasValidPdf = true ∧ st.hasValidRef = true := by
      intro cc hcc
      apply hvalid cc
      rw [hccs]
      simp only [List.mem_append, List.mem_cons] at hcc ⊢
      tauto
    rw [moveAbove_run env s ct pre c nxt post hccs hc hpre]
    obtain ⟨h1, h2, h3, _⟩ := section_setContents_explicit env s _ hdict hpage hv
    exact ⟨h1, h2, h3⟩
  · intro pre before c post hccs hc hpre hbefore
    have hv : ∀ cc ∈ pre ++ c :: before :: post, ∀ st ∈ cc.cstreams,
        st.hasValidPdf = true ∧ st.hasValidRef = true := by
      intro cc hcc
      apply hvalid cc
      rw [hccs]
      simp only [List.mem_append, List.mem_cons] at hcc ⊢
      tauto
    rw [moveBelow_run env s ct pre before c post hccs hc hpre hbefore]
    obtain ⟨h1, h2, h3, _⟩ := section_setContents_explicit env s _ hdict hpage hv
    exact ⟨h1, h2, h3⟩

/-- C16 on the page with three content streams, whose Contents entry is
`[5 0 R 6 0 R 7 0 R]`: `moveAbove` of the first gives the cached order 1, 0, 2
and the entry `[6 0 R 5 0 R 7 0 R]`; `moveBelow` of the last gives the cached
order 0, 2, 1 and the entry `[5 0 R 7 0 R 6 0 R]`. -/
theorem move_exchanges_witness :
    ((moveAbove (plainEnv true) threePage ⟨0, [streamAt 5]⟩).fault = none ∧
        (moveAbove (plainEnv true) threePage ⟨0, [streamAt 5]⟩).state._ccs =
          [⟨1, [streamAt 6]⟩, ⟨0, [streamAt 5]⟩, ⟨2, [streamAt 7]⟩] ∧
        (moveAbove (plainEnv true) threePage ⟨0, [streamAt 5]⟩).state.contents =
          some (.array [Elem.ref ⟨6, 0⟩, Elem.ref ⟨5, 0⟩, Elem.ref ⟨7, 0⟩])) ∧
      ((moveBelow (plainEnv true) threePage ⟨2, [streamAt 7]⟩).fault = none ∧
        (moveBelow (plainEnv true) threePage ⟨2, [streamAt 7]⟩).state._ccs =
          [⟨0, [streamAt 5]⟩, ⟨2, [streamAt 7]⟩, ⟨1, [streamAt 6]⟩] ∧
        (moveBelow (plainEnv true) threePage ⟨2, [streamAt 7]⟩).state.contents =
          some (.array [Elem.ref ⟨5, 0⟩, Elem.ref ⟨7, 0⟩, Elem.ref ⟨6, 0⟩])) :=
  ⟨(move_exchanges (plainEnv true) threePage ⟨0, [streamAt 5]⟩ rfl rfl (by decide)).1
      [] ⟨0, [streamAt 5]⟩ ⟨1, [streamAt 6]⟩ [⟨2, [streamAt 7]⟩] rfl rfl (by decide),
   (move_exchanges (plainEnv true) threePage ⟨2, [streamAt 7]⟩ rfl rfl (by decide)).2
      [⟨0, [streamAt 5]⟩] ⟨1, [streamAt 6]⟩ ⟨2, [streamAt 7]⟩ [] rfl rfl (by decide)
      (by decide)⟩

/-! ## What `remove (cs)` leaves, change signal included -/

theorem removeRf_keeps {α : Type} (field : State → α)
    (h1 : ∀ (s : State) (c : Option Entry), field { s with contents := c } = field s)
    (h2 : ∀ (s : State) (st : List (IndiRef × Entry)), field { s with store := st } = field s)
    (s : State) (rf : IndiRef) : field (removeRf s rf).state = field s := by
  unfold removeRf
  split_ifs with h
  · rfl
  · cases hc : s.contents with
    | none => rfl
    | some content =>
      simp only []
      split_ifs
      · exact h1 s _
      · cases hr : getReferencedObject s content with
        | elem e => rfl
        | array a =>
          simp only []
          cases hf : findRef rf a 0 with
          | error e => rfl
          | ok o =>
            cases o with
            | none => rfl
            | some i =>
              simp only [Outcome.ret]
              unfold setContentsArray
              split
              · exact h2 s _
              · exact h1 s _

theorem removeCsLoop_keeps {α : Type} (field : State → α)
    (h1 : ∀ (s : State) (c : Option Entry), field { s with contents := c } = field s)
    (h2 : ∀ (s : State) (st : List (IndiRef × Entry)), field { s with store := st } = field s)
    (env : Env) :
    ∀ (l : List CStream) (s : State), field (removeCsLoop env l s).state = field s := by
  intro l
  induction l with
  | nil => intro s; rfl
  | cons it rest ih =>
    intro s
    unfold removeCsLoop
    split_ifs
    · rfl
    · rfl
    · rfl
    · rw [andThen_keeps field _ _ (fun st => ih st)]
      exact removeRf_keeps field h1 h2 s it.indiRef

/-- The call `remove (cs)` once its loop returns normally: the change signal
is given, the cached list stays, and the Contents entry and the document are
what the loop left. -/
theorem removeCs_after_loop (env : Env) (s : State) (cs : CContentStream)
    (hdict : s._dict = true) (hpage : s._page = true) (hsome : s.contents.isNone = false)
    (hf : (removeCsLoop env cs.cstreams (unreg_observer s none)).fault = none) :
    (removeCs env s cs).fault = none ∧ (removeCs env s cs).state._ccs = s._ccs ∧
      (removeCs env s cs).state.pageChanges = s.pageChanges ++ [false] ∧
      (removeCs env s cs).state.contents =
        (removeCsLoop env cs.cstreams (unreg_observer s none)).state.contents ∧
      (removeCs env s cs).state.store =
        (removeCsLoop env cs.cstreams (unreg_observer s none)).state.store := by
  have hrun : removeCs env s cs =
      (observerFreeSection s (fun s1 => removeCsLoop env cs.cstreams s1)).andThen
        (fun s1 => change s1 false) := by
    unfold removeCs
    simp [hdict, hsome]
  have hp : (observerFreeSection s (fun s1 => removeCsLoop env cs.cstreams s1)).state._page =
      true := by
    simp only [observerFreeSection_state, reg_observer_page]
    rw [removeCsLoop_keeps (fun x => x._page) (fun _ _ => rfl) (fun _ _ => rfl)]
    simp [hpage]
  have hc : (observerFreeSection s
      (fun s1 => removeCsLoop env cs.cstreams s1)).state.pageChanges = s.pageChanges := by
    simp only [observerFreeSection_state, reg_observer_pageChanges]
    rw [removeCsLoop_keeps (fun x => x.pageChanges) (fun _ _ => rfl) (fun _ _ => rfl)]
    simp
  rw [hrun, andThen_of_ok _ _ (by simpa using hf), change_of_page _ _ hp]
  refine ⟨rfl, ?_, ?_, ?_, ?_⟩
  · simp [Outcome.ret, removeCsLoop_ccs]
  · show (observerFreeSection s
      (fun s1 => removeCsLoop env cs.cstreams s1)).state.pageChanges ++ [false] = _
    rw [hc]
  · simp [Outcome.ret]
  · simp [Outcome.ret]

theorem removeRf_stream (s : State) (rf : IndiRef) (content : Entry)
    (hdict : s._dict = true) (hc : s.contents = some content)
    (hs : isStream (getReferencedObject s content) = true) :
    removeRf s rf = .ret { s with contents := some (.array []) } := by
  unfold removeRf
  simp [hdict, hc, hs]

theorem removeCsLoop_empty_array (env : Env) :
    ∀ (l : List CStream) (s : State), s._dict = true → s.contents = some (.array []) →
      (∀ st ∈ l, st.hasValidPdf = true ∧ st.hasValidRef = true) →
      removeCsLoop env l s = .ret s := by
  intro l
  induction l with
  | nil => intro s _ _ _; rfl
  | cons it rest ih =>
    intro s hdict hc hvalid
    obtain ⟨hv1, hv2⟩ := hvalid it (by simp)
    have hr : removeRf s it.indiRef = .ret s := by
      unfold removeRf
      simp [hdict, hc, getReferencedObject, isStream, findRef]
    simp only [removeCsLoop, hv1, hv2, Bool.not_true, Bool.and_false, Bool.or_self,
      Bool.false_eq_true, if_false]
    rw [hr, andThen_of_ok _ _ rfl]
    exact ih s hdict hc (fun st hst => hvalid st (by simp [hst]))

/-- C15 (amended). For a bound manager with a Contents entry and a content
stream whose backing streams are valid: `remove (cs)` returns normally, gives
the page one change signal, and leaves the cached list as it was (erasing the
cached element is what `remove (index)` adds). When the Contents entry
resolves to an array `a` of references, the entry afterwards resolves to `a`
with, for each backing stream in turn, the first occurrence of its reference
deleted; when it resolves to a lone stream and the content stream has a
backing stream, the entry afterwards is the empty array. -/
theorem removeCs_contents (env : Env) (s : State) (cs : CContentStream) (content : Entry)
    (hdict : s._dict = true) (hpage : s._page = true)
    (hc : s.contents = some content)
    (hvalid : ∀ st ∈ cs.cstreams, st.hasValidPdf = true ∧ st.hasValidRef = true) :
    (∀ a : List Elem, getReferencedObject s content = .array a →
        (∀ e ∈ a, ∃ r, e = Elem.ref r) →
        (removeCs env s cs).fault = none ∧ (removeCs env s cs).state._ccs = s._ccs ∧
        (removeCs env s cs).state.pageChanges = s.pageChanges ++ [false] ∧
        ∃ k, (removeCs env s cs).state.contents = some k ∧
          getReferencedObject (removeCs env s cs).state k =
            .array (cs.cstreams.foldl (fun arr st => arr.erase (Elem.ref st.indiRef)) a)) ∧
      (isStream (getReferencedObject s content) = true → cs.cstreams ≠ [] →
        (removeCs env s cs).fault = none ∧ (removeCs env s cs).state._ccs = s._ccs ∧
        (removeCs env s cs).state.pageChanges = s.pageChanges ++ [false] ∧
        (removeCs env s cs).state.contents = some (.array [])) := by
  have hsome : s.contents.isNone = false := by simp [hc]
  constructor
  · intro a hr hrefs
    have hr0 : getReferencedObject (unreg_observer s none) content = .array a := by
      rw [getReferencedObject_congr _ s content (by simp)]; exact hr
    obtain ⟨hf, _, k, hk1, hk2⟩ := removeCsLoop_array env cs.cstreams (unreg_observer s none)
      content a (by simp [hdict]) (by simp [hc]) hr0 hrefs hvalid
    obtain ⟨g1, g2, g3, g4, g5⟩ := removeCs_after_loop env s cs hdict hpage hsome hf
    refine ⟨g1, g2, g3, k, by rw [g4]; exact hk1, ?_⟩
    rw [getReferencedObject_congr _
      (removeCsLoop env cs.cstreams (unreg_observer s none)).state k g5]
    exact hk2
  · intro hs hne
    cases hl : cs.cstreams with
    | nil => exact absurd hl hne
    | cons it rest =>
      rw [hl] at hvalid
      obtain ⟨hv1, hv2⟩ := hvalid it (by simp)
      have hs0 : isStream (getReferencedObject (unreg_observer s none) content) = true := by
        rw [getReferencedObject_congr _ s content (by simp)]; exact hs
      have hloop : removeCsLoop env cs.cstreams (unreg_observer s none) =
          .ret { unreg_observer s none with contents := some (.array []) } := by
        rw [hl]
        simp only [removeCsLoop, hv1, hv2, Bool.not_true, Bool.and_false, Bool.or_self,
          Bool.false_eq_true, if_false]
        rw [removeRf_stream _ it.indiRef content (by simp [hdict]) (by simp [hc]) hs0,
          andThen_of_ok _ _ rfl]
        exact removeCsLoop_empty_array env rest _ (by simp [Outcome.ret, hdict]) rfl
          (fun st hst => hvalid st (by simp [hst]))
      obtain ⟨g1, g2, g3, g4, _⟩ := removeCs_after_loop env s cs hdict hpage hsome
        (by rw [hloop]; rfl)
      refine ⟨g1, g2, g3, ?_⟩
      rw [g4, hloop]
      rfl

/-- C15 (amended) on the page with three content streams and the second one,
and on the page whose Contents entry refers to a lone stream. -/
theorem removeCs_contents_witness :
    ((removeCs (plainEnv true) threePage ⟨1, [streamAt 6]⟩).fault = none ∧
        (removeCs (plainEnv true) threePage ⟨1, [streamAt 6]⟩).state._ccs = threePage._ccs ∧
        (removeCs (plainEnv true) threePage ⟨1, [streamAt 6]⟩).state.pageChanges =
          threePage.pageChanges ++ [false] ∧
        ∃ k, (removeCs (plainEnv true) threePage ⟨1, [streamAt 6]⟩).state.contents = some k ∧
          getReferencedObject (removeCs (plainEnv true) threePage ⟨1, [streamAt 6]⟩).state k =
            .array [Elem.ref ⟨5, 0⟩, Elem.ref ⟨7, 0⟩]) ∧
      ((removeCs (plainEnv true) lonePage ⟨0, [streamAt 5]⟩).fault = none ∧
        (removeCs (plainEnv true) lonePage ⟨0, [streamAt 5]⟩).state._ccs = lonePage._ccs ∧
        (removeCs (plainEnv true) lonePage ⟨0, [streamAt 5]⟩).state.pageChanges =
          lonePage.pageChanges ++ [false] ∧
        (removeCs (plainEnv true) lonePage ⟨0, [streamAt 5]⟩).state.contents =
          some (.array [])) :=
  ⟨(removeCs_contents (plainEnv true) threePage ⟨1, [streamAt 6]⟩
      (.array [Elem.ref ⟨5, 0⟩, Elem.ref ⟨6, 0⟩, Elem.ref ⟨7, 0⟩]) rfl rfl rfl
      (by decide)).1 [Elem.ref ⟨5, 0⟩, Elem.ref ⟨6, 0⟩, Elem.ref ⟨7, 0⟩] rfl
      (by
        intro e he
        simp only [List.mem_cons, List.mem_singleton, List.not_mem_nil, or_false] at he
        rcases he with h | h | h
        · exact ⟨_, h⟩
        · exact ⟨_, h⟩
        · exact ⟨_, h⟩),
    (removeCs_contents (plainEnv true) lonePage ⟨0, [streamAt 5]⟩ (.elem (.ref ⟨5, 0⟩))
      rfl rfl rfl (by decide)).2 rfl (by decide)⟩

/-! ## Text of a content stream, tokenized again -/

end pdfobjects
